import Mathlib

/-!
# bespiral.community: verification of the community / action / claim contract

Shallow embedding of `bespiral.community.cpp`.

* Every multi-index table is a list of rows.  `find` is the first row with the
  given primary key, `emplace` appends a row and aborts on a primary key that
  is already stored, `modify` rewrites the rows with the given primary key and
  `erase` removes them.
* An action either aborts (`none`, every `eosio_assert` that fails) or commits
  (`some (s, calls)`): the new tables together with the inline actions and
  notifications it sent, in order.
* `uint64_t` values are naturals; subtraction and increment wrap modulo `2^64`.
-/

namespace bespiral

/-- Modulus of `uint64_t` arithmetic, `2^64`. -/
def UINT64 : Nat := 18446744073709551616

/-- An `eosio::name`, by its 64-bit value. -/
abbrev Name := Nat

/-- An `eosio::symbol`, by its raw 64-bit value. -/
abbrev Symbol := Nat

/-- An `eosio::asset`: a signed amount of a symbol. -/
structure Asset where
  amount : Int
  symbol : Symbol
deriving DecidableEq, Repr

/-- Modelled from the spec: row of the `communities` table, primary key
`symbol`.  The table is declared in the header, which the source file only
includes; the fields are those the code reads and writes. -/
structure community where
  symbol : Symbol
  creator : Name
  logo : String
  name : String
  description : String
  inviter_reward : Asset
  invited_reward : Asset
deriving DecidableEq, Repr

/-- Modelled from the spec: row of the `networks` table (a membership edge),
primary key `id`; declared in the header, fields as the code uses them. -/
structure network where
  id : Nat
  community : Symbol
  invited_user : Name
  invited_by : Name
deriving DecidableEq, Repr

/-- Modelled from the spec: row of the `objectives` table, primary key `id`;
declared in the header, fields as the code uses them. -/
structure objective where
  id : Nat
  description : String
  community : Symbol
  creator : Name
deriving DecidableEq, Repr

/-- Modelled from the spec: row of the `actions` table, primary key `id`;
declared in the header, fields as the code uses them (`uint64_t` counters,
`is_completed` an 8-bit flag). -/
structure action where
  id : Nat
  objective_id : Nat
  description : String
  reward : Asset
  verifier_reward : Asset
  deadline : Nat
  usages : Nat
  usages_left : Nat
  verifications : Nat
  verification_type : String
  is_completed : Nat
  creator : Name
deriving DecidableEq, Repr

/-- Modelled from the spec: row of a `validators` table; declared in the
header, fields as the code uses them.  The table is scoped by action id;
`scope` records which of the scoped tables the row lives in, `id` is its
primary key inside that table. -/
structure action_validator where
  scope : Nat
  id : Nat
  action_id : Nat
  validator : Name
deriving DecidableEq, Repr

/-- Modelled from the spec: row of the `claims` table, primary key `id`;
declared in the header, fields as the code uses them. -/
structure claim where
  id : Nat
  action_id : Nat
  claimer : Name
  is_verified : Nat
deriving DecidableEq, Repr

/-- Modelled from the spec: row of the `checks` table (one vote), primary key
`id`, with one secondary index, `byclaim`, keyed by `claim_id`; declared in the
header, fields as the code uses them. -/
structure check where
  id : Nat
  claim_id : Nat
  validator : Name
  is_verified : Nat
deriving DecidableEq, Repr

/-- Modelled from the spec: row of the `sales` table, primary key `id`;
declared in the header, fields as the code uses them. -/
structure sale where
  id : Nat
  creator : Name
  community : Symbol
  title : String
  description : String
  image : String
  track_stock : Nat
  quantity : Asset
  units : Nat
deriving DecidableEq, Repr

/-- Modelled from the spec: the `indexes` singleton, the last id handed out
per table; declared in the header, fields as the code uses them. -/
structure indexes where
  last_used_sale_id : Nat
  last_used_objective_id : Nat
  last_used_action_id : Nat
  last_used_claim_id : Nat
deriving DecidableEq, Repr

/-- The persistent tables of the contract. -/
structure State where
  communities : List community
  networks : List network
  objectives : List objective
  actions : List action
  validators : List action_validator
  claims : List claim
  checks : List check
  sales : List sale
  curr_indexes : indexes
deriving DecidableEq, Repr

/-- What an action sends while it runs: inline actions to the currency
contract (`issue`, `initacc`) and `require_recipient` notifications. -/
inductive Call where
  | issue (receiver : Name) (quantity : Asset) (memo : String)
  | initacc (symbol : Symbol) (account : Name)
  | notify (account : Name)
deriving DecidableEq, Repr

/-- Helpers the contract uses whose code is not part of the source file
(`../utils/utils.cpp`, the header, the SDK): they are parameters of the model. -/
structure Utils where
  /-- Function `gen_uuid(symbol_raw, account_value)` of `utils.cpp`. -/
  gen_uuid : Nat → Nat → Nat
  /-- Function `split(str, delimiter)` of `utils.cpp`. -/
  split : String → String → List String
  /-- Constructor `eosio::name{str}`: the value, or `none` when it asserts. -/
  string_to_name : String → Option Name
  /-- Method `asset::is_valid()`. -/
  asset_is_valid : Asset → Bool
  /-- Method `symbol::is_valid()`. -/
  symbol_is_valid : Symbol → Bool
  /-- Method `symbol::code().raw()`. -/
  symbol_code : Symbol → Nat
  /-- The receiver account `_self`. -/
  self : Name
  /-- The backend account `eosio::name{"bespiral"}`. -/
  backend : Name

/-- What one call reads from the chain. -/
structure Env where
  /-- Result of `now()`. -/
  now : Nat
  /-- Result of `is_account(n)`. -/
  is_account : Name → Bool
  /-- Result of `has_auth(n)`; `require_auth(n)` aborts when it is false. -/
  has_auth : Name → Bool
  /-- Whether the `bespiral_tokens` table of the currency contract, scoped by
  a symbol code, has a row for that code. -/
  token_exists : Nat → Bool

/-- The empty chain state: no rows, all counters zero. -/
def State.empty : State :=
  { communities := [], networks := [], objectives := [], actions := [],
    validators := [], claims := [], checks := [], sales := [],
    curr_indexes := { last_used_sale_id := 0, last_used_objective_id := 0,
                      last_used_action_id := 0, last_used_claim_id := 0 } }

/-- Value of `x - 1` on `uint64_t`. -/
def dec64 (x : Nat) : Nat := (x + (UINT64 - 1)) % UINT64

/-- Value of `x + 1` on `uint64_t`. -/
def inc64 (x : Nat) : Nat := (x + 1) % UINT64

/-- Method `multi_index::available_primary_key()` on a table whose primary
keys are `ids`: one more than the largest key (0 on an empty table); aborts at
the auto-increment limit `2^64 - 2`. -/
def available_primary_key (ids : List Nat) : Option Nat :=
  let next := match ids with
    | [] => 0
    | _ :: _ => if ids.foldl max 0 ≥ UINT64 - 2 then UINT64 - 2 else ids.foldl max 0 + 1
  if next < UINT64 - 2 then some next else none

/-- Modelled from the spec: order of the `byclaim` secondary index over the
checks, keyed by `claim_id` (the index is declared in the header); rows with
the same key follow each other by primary key, as in every multi-index
secondary index. -/
def byclaim_le (a b : check) : Prop :=
  a.claim_id < b.claim_id ∨ (a.claim_id = b.claim_id ∧ a.id ≤ b.id)

instance : DecidableRel byclaim_le := fun a b =>
  inferInstanceAs (Decidable (a.claim_id < b.claim_id ∨ (a.claim_id = b.claim_id ∧ a.id ≤ b.id)))

/-- The `checks` table as the `byclaim` index iterates it. -/
def byclaim (cs : List check) : List check := cs.insertionSort byclaim_le

/-- Iterator `check_by_claim.find(claim_id)`, as the rows from it to `end()`:
the index from its first row with that `claim_id` on, or nothing (`end()`)
when no row has that `claim_id`. -/
def byclaim_find (cs : List check) (claim_id : Nat) : List check :=
  match (byclaim cs).dropWhile (fun c => decide (c.claim_id < claim_id)) with
  | [] => []
  | c :: rest => if c.claim_id = claim_id then c :: rest else []

/-- Memo of the reward issued to whoever did the action. -/
def memo_action : String := "Thanks for doing an action for your community"

/-- Memo of the reward issued to a validator for a vote. -/
def memo_verification : String := "Thanks for verifying an action for your community"

/-- Action `verifyclaim(claim_id, verifier, vote)`. -/
def verifyclaim (U : Utils) (env : Env) (s : State) (claim_id : Nat) (verifier : Name)
    (vote : Nat) : Option (State × List Call) :=
  -- "Can't find claim with given claim_id"
  match s.claims.find? (fun c => decide (c.id = claim_id)) with
  | none => none
  | some claim =>
  -- "Can't approve already verified claim"
  if claim.is_verified ≠ 0 then none else
  -- "Can't find action with given claim_id"
  match s.actions.find? (fun a => decide (a.id = claim.action_id)) with
  | none => none
  | some objact =>
  -- "Verifier is not in the action validator list"
  if ¬ (s.validators.filter
      (fun v => decide (v.scope = objact.id ∧ v.validator = verifier))).length > 0 then none else
  -- "Can't find objective with given claim_id"
  match s.objectives.find? (fun o => decide (o.id = objact.objective_id)) with
  | none => none
  | some obj =>
  -- "Can't find community with given claim_id"
  match s.communities.find? (fun c => decide (c.symbol = obj.community)) with
  | none => none
  | some cmm =>
  -- "Verifier doesn't belong to the community"
  match s.networks.find? (fun n => decide (n.id = U.gen_uuid cmm.symbol verifier)) with
  | none => none
  | some _ =>
  -- "This is action is already completed, can't verify claim"
  if objact.is_completed ≠ 0 then none else
  -- "Deadline exceeded"
  if objact.deadline > 0 ∧ ¬ objact.deadline > env.now then none else
  -- "There are no usages left for this action"
  if objact.usages > 0 ∧ ¬ objact.usages_left ≥ 1 then none else
  -- "The verifier cannot check the same claim more than once"
  if (byclaim_find s.checks claim_id).any (fun c => decide (c.validator = verifier)) then none else
  match available_primary_key (s.checks.map (fun c => c.id)) with
  | none => none
  | some new_id =>
  let checks1 := s.checks ++
    [{ id := new_id, claim_id := claim.id, validator := verifier, is_verified := vote }]
  let calls1 := if objact.verifier_reward.amount > 0
    then [Call.issue verifier objact.verifier_reward memo_verification] else []
  -- Do nothing if the vote was negative
  if vote = 0 then some ({ s with checks := checks1 }, calls1) else
  let check_counter :=
    ((byclaim_find checks1 claim_id).filter (fun c => decide (c.is_verified = 1))).length
  if check_counter ≥ objact.verifications then
    let claims1 := s.claims.map (fun c => if c.id = claim.id then { c with is_verified := 1 } else c)
    let calls2 := if objact.reward.amount > 0
      then [Call.issue claim.claimer objact.reward memo_action] else []
    if objact.usages > 0 ∧ dec64 objact.usages_left ≤ 0 then
      some ({ s with
              checks := checks1, claims := claims1,
              actions := s.actions.map (fun a => if a.id = objact.id then
                { a with usages_left := dec64 objact.usages_left, is_completed := 1 } else a) },
            calls1 ++ calls2)
    else
      some ({ s with
              checks := checks1, claims := claims1,
              actions := s.actions.map (fun a => if a.id = objact.id then
                { a with usages_left := dec64 objact.usages_left } else a) },
            calls1 ++ calls2)
  else some ({ s with checks := checks1 }, calls1)

/-- Function `get_available_id(table)`: the next id of a table and the state
with the counter advanced. -/
def get_available_id (s : State) (table : String) : Option (Nat × State) :=
  -- "Table index not available"
  if ¬ (table = "actions" ∨ table = "objectives" ∨ table = "sales" ∨ table = "claims") then none else
  if table = "actions" then
    some (inc64 s.curr_indexes.last_used_action_id,
      { s with curr_indexes := { s.curr_indexes with
          last_used_action_id := inc64 s.curr_indexes.last_used_action_id } })
  else if table = "objectives" then
    some (inc64 s.curr_indexes.last_used_objective_id,
      { s with curr_indexes := { s.curr_indexes with
          last_used_objective_id := inc64 s.curr_indexes.last_used_objective_id } })
  else if table = "sales" then
    some (inc64 s.curr_indexes.last_used_sale_id,
      { s with curr_indexes := { s.curr_indexes with
          last_used_sale_id := inc64 s.curr_indexes.last_used_sale_id } })
  else if table = "claims" then
    some (inc64 s.curr_indexes.last_used_claim_id,
      { s with curr_indexes := { s.curr_indexes with
          last_used_claim_id := inc64 s.curr_indexes.last_used_claim_id } })
  else some (1, s)

/-- Action `netlink(cmm_asset, inviter, new_user)`. -/
def netlink (U : Utils) (env : Env) (s : State) (cmm_asset : Asset) (inviter new_user : Name) :
    Option (State × List Call) :=
  -- "new user account doesn't exists"
  if ¬ env.is_account new_user = true then none else
  -- inviter's authorization, otherwise the backend's
  if ¬ (if env.has_auth inviter = true then env.has_auth inviter = true
        else env.has_auth U.backend = true) then none else
  -- "can't find any community with given asset"
  match s.communities.find? (fun c => decide (c.symbol = cmm_asset.symbol)) with
  | none => none
  | some cmm =>
  -- Skip if user already in the network
  match s.networks.find? (fun n => decide (n.id = U.gen_uuid cmm_asset.symbol new_user)) with
  | some _ => some (s, [])
  | none =>
  -- "unknown inviter"
  if cmm.creator ≠ inviter ∧
      (s.networks.find? (fun n => decide (n.id = U.gen_uuid cmm.symbol inviter))) = none then none else
  let s1 := { s with networks := s.networks ++
    [{ id := U.gen_uuid cmm_asset.symbol new_user, community := cmm_asset.symbol,
       invited_user := new_user, invited_by := inviter }] }
  -- Skip rewards if inviter and invited is the same
  if inviter = new_user then some (s1, [Call.notify new_user]) else
  let inviter_calls := if cmm.inviter_reward.amount > 0
    then [Call.issue inviter cmm.inviter_reward ("Thanks for helping " ++ cmm.name ++ " grow!"),
          Call.notify inviter]
    else []
  let invited_calls := if cmm.invited_reward.amount > 0
    then [Call.issue new_user cmm.invited_reward ("Welcome to " ++ cmm.name ++ "!"),
          Call.notify new_user]
    else [Call.initacc cmm.invited_reward.symbol new_user]
  some (s1, [Call.notify new_user] ++ inviter_calls ++ invited_calls)

/-- Action `create(cmm_asset, creator, logo, name, description, inviter_reward,
invited_reward)`.  The inline `netlink` it sends runs in the same transaction
with the creator's authorization; when that fails, so does `create`. -/
def create (U : Utils) (env : Env) (s : State) (cmm_asset : Asset) (creator : Name)
    (logo name description : String) (inviter_reward invited_reward : Asset) :
    Option (State × List Call) :=
  if ¬ env.has_auth creator = true then none else
  -- Validates reward for invitater and invited users
  if ¬ U.asset_is_valid invited_reward = true then none else
  if ¬ invited_reward.amount ≥ 0 then none else
  if ¬ cmm_asset.symbol = invited_reward.symbol then none else
  if ¬ U.asset_is_valid inviter_reward = true then none else
  if ¬ inviter_reward.amount ≥ 0 then none else
  if ¬ cmm_asset.symbol = inviter_reward.symbol then none else
  -- Validates string fields
  if ¬ name.utf8ByteSize ≤ 256 then none else
  if ¬ description.utf8ByteSize ≤ 256 then none else
  if ¬ logo.utf8ByteSize ≤ 256 then none else
  -- "symbol already exists"
  match s.communities.find? (fun c => decide (c.symbol = cmm_asset.symbol)) with
  | some _ => none
  | none =>
  let s1 := { s with communities := s.communities ++
    [{ symbol := cmm_asset.symbol, creator := creator, logo := logo, name := name,
       description := description, inviter_reward := inviter_reward,
       invited_reward := invited_reward }] }
  match netlink U { env with has_auth := fun n => decide (n = creator) } s1 cmm_asset creator creator with
  | none => none
  | some (s2, calls) => some (s2, [Call.notify creator] ++ calls)

/-- Action `update(cmm_asset, logo, name, description, inviter_reward,
invited_reward)`. -/
def update (env : Env) (s : State) (cmm_asset : Asset) (logo name description : String)
    (inviter_reward invited_reward : Asset) : Option (State × List Call) :=
  -- "can't find any community with given asset"
  match s.communities.find? (fun c => decide (c.symbol = cmm_asset.symbol)) with
  | none => none
  | some cmm =>
  if ¬ env.has_auth cmm.creator = true then none else
  if ¬ logo.utf8ByteSize ≤ 256 then none else
  if ¬ name.utf8ByteSize ≤ 256 then none else
  if ¬ description.utf8ByteSize ≤ 256 then none else
  some ({ s with communities := s.communities.map (fun row =>
            if row.symbol = cmm.symbol then
              { row with logo := logo, name := name, description := description,
                         inviter_reward := inviter_reward, invited_reward := invited_reward }
            else row) }, [])

/-- Action `newobjective(cmm_asset, description, creator)`. -/
def newobjective (U : Utils) (env : Env) (s : State) (cmm_asset : Asset) (description : String)
    (creator : Name) : Option (State × List Call) :=
  if ¬ env.has_auth creator = true then none else
  -- "Invalid symbol name for community"
  if ¬ U.symbol_is_valid cmm_asset.symbol = true then none else
  if ¬ description.utf8ByteSize ≤ 256 then none else
  -- "Can't find community with given community_id"
  match s.communities.find? (fun c => decide (c.symbol = cmm_asset.symbol)) with
  | none => none
  | some cmm =>
  -- "Creator doesn't belong to the community"
  match s.networks.find? (fun n => decide (n.id = U.gen_uuid cmm.symbol creator)) with
  | none => none
  | some _ =>
  match get_available_id s "objectives" with
  | none => none
  | some (id, s1) =>
  -- emplace aborts on a stored primary key
  if s1.objectives.any (fun o => decide (o.id = id)) = true then none else
  some ({ s1 with objectives := s1.objectives ++
            [{ id := id, description := description, community := cmm_asset.symbol,
               creator := creator }] }, [])

/-- Action `updobjective(objective_id, description, editor)`. -/
def updobjective (U : Utils) (env : Env) (s : State) (objective_id : Nat) (description : String)
    (editor : Name) : Option (State × List Call) :=
  if ¬ env.has_auth editor = true then none else
  if ¬ description.utf8ByteSize ≤ 256 then none else
  -- "Can't find objective with given ID"
  match s.objectives.find? (fun o => decide (o.id = objective_id)) with
  | none => none
  | some found_objective =>
  -- "Can't find community with given community_id"
  match s.communities.find? (fun c => decide (c.symbol = found_objective.community)) with
  | none => none
  | some cmm =>
  -- "Editor doesn't belong to the community"
  match s.networks.find? (fun n => decide (n.id = U.gen_uuid found_objective.community editor)) with
  | none => none
  | some _ =>
  if ¬ (found_objective.creator = editor ∨ cmm.creator = editor) then none else
  some ({ s with objectives := s.objectives.map (fun row =>
            if row.id = found_objective.id then { row with description := description }
            else row) }, [])

/-- Lexicographic order of two character sequences, character by character. -/
def chars_le : List Char → List Char → Bool
  | [], _ => true
  | _ :: _, [] => false
  | a :: l, b :: r =>
    if a.toNat < b.toNat then true else if b.toNat < a.toNat then false else chars_le l r

/-- Order `a <= b` of `std::string`, the order `std::sort` uses. -/
def string_le (a b : String) : Prop := chars_le a.data b.data = true

instance : DecidableRel string_le := fun a b =>
  inferInstanceAs (Decidable (chars_le a.data b.data = true))

/-- Whether `std::unique` finds something to remove: two equal neighbours. -/
def has_adjacent_equal : List String → Bool
  | a :: b :: rest => decide (a = b) || has_adjacent_equal (b :: rest)
  | _ => false

/-- The loop of `upsertaction` over the parsed validator list: each entry is
converted to a name, checked and appended to the validator table of scope
`action_id`; `rows` holds the rows of all scopes. -/
def add_validators (U : Utils) (env : Env) (networks : List network) (cmm : community)
    (action_id : Nat) : List String → List action_validator → Option (List action_validator)
  | [], rows => some rows
  | i :: rest, rows =>
    match U.string_to_name i with
    | none => none
    | some acc =>
    -- "account from validator list cannot be empty"
    if acc = 0 then none else
    -- "account from validator list don't exist"
    if ¬ env.is_account acc = true then none else
    -- "one of the validators doesn't belong to the community"
    match networks.find? (fun n => decide (n.id = U.gen_uuid cmm.symbol acc)) with
    | none => none
    | some _ =>
    match available_primary_key
        ((rows.filter (fun v => decide (v.scope = action_id))).map (fun v => v.id)) with
    | none => none
    | some id =>
      add_validators U env networks cmm action_id rest
        (rows ++ [{ scope := action_id, id := id, action_id := action_id, validator := acc }])

/-- Action `upsertaction(action_id, objective_id, description, reward,
verifier_reward, deadline, usages, usages_left, verifications,
verification_type, validators_str, is_completed, creator)`. -/
def upsertaction (U : Utils) (env : Env) (s : State) (action_id objective_id : Nat)
    (description : String) (reward verifier_reward : Asset)
    (deadline usages usages_left verifications : Nat)
    (verification_type validators_str : String) (is_completed : Nat) (creator : Name) :
    Option (State × List Call) :=
  -- "invalid account for creator"
  if ¬ env.is_account creator = true then none else
  if ¬ env.has_auth creator = true then none else
  -- "Can't find objective with given objective_id"
  match s.objectives.find? (fun o => decide (o.id = objective_id)) with
  | none => none
  | some obj =>
  -- "Can't find community with given objective_id"
  match s.communities.find? (fun c => decide (c.symbol = obj.community)) with
  | none => none
  | some cmm =>
  -- "Creator doesn't belong to the community"
  match s.networks.find? (fun n => decide (n.id = U.gen_uuid cmm.symbol creator)) with
  | none => none
  | some _ =>
  -- Validate assets
  if ¬ U.asset_is_valid reward = true then none else
  if ¬ reward.amount ≥ 0 then none else
  if ¬ reward.symbol = obj.community then none else
  if ¬ U.asset_is_valid verifier_reward = true then none else
  if ¬ verifier_reward.amount ≥ 0 then none else
  if ¬ verifier_reward.symbol = obj.community then none else
  -- Validate description
  if ¬ description.utf8ByteSize ≤ 256 then none else
  -- "Deadline must be somewhere in the future"
  if deadline > 0 ∧ ¬ env.now < deadline then none else
  -- "You can have a maximum of 1000 uses"
  if usages > 0 ∧ ¬ usages ≤ 1000 then none else
  -- "verification type must be either 'claimable' or 'automatic'"
  if ¬ (verification_type = "claimable" ∨ verification_type = "automatic") then none else
  -- "You need at least two votes to validate an action"
  if verifications > 0 ∧ ¬ verifications ≥ 2 then none else
  -- End validation, start upsert
  let upserted : Option (Nat × State) :=
    if action_id = 0 then
      match get_available_id s "actions" with
      | none => none
      | some (new_id, s1) =>
        -- emplace aborts on a stored primary key
        if s1.actions.any (fun a => decide (a.id = new_id)) = true then none else
        some (new_id, { s1 with actions := s1.actions ++
          [{ id := new_id, objective_id := objective_id, description := description,
             reward := reward, verifier_reward := verifier_reward, deadline := deadline,
             usages := usages, usages_left := usages, verifications := verifications,
             verification_type := verification_type, is_completed := 0,
             creator := creator }] })
    else
      -- "cannot pass end iterator to modify"
      match s.actions.find? (fun a => decide (a.id = action_id)) with
      | none => none
      | some _ =>
        some (action_id, { s with actions := s.actions.map (fun a =>
          if a.id = action_id then
            { a with description := description, reward := reward,
                     verifier_reward := verifier_reward, deadline := deadline,
                     usages := usages, usages_left := usages_left,
                     verifications := verifications,
                     verification_type := verification_type,
                     is_completed := is_completed }
          else a) })
  match upserted with
  | none => none
  | some (act_id, s2) =>
  if verification_type = "claimable" then
    -- "You cannot have a bigger number of verifications than accounts in the validator list"
    if ¬ (U.split validators_str "-").length ≥ verifications then none else
    -- "You cannot add a validator more than once to an action"
    if has_adjacent_equal ((U.split validators_str "-").insertionSort string_le) = true
      then none else
    -- "You need at least two verifiers in a claimable action"
    if ¬ (U.split validators_str "-").length ≥ 2 then none else
    -- Clean up existing validators if action already exists, then add the list
    match add_validators U env s2.networks cmm act_id (U.split validators_str "-")
        (s2.validators.filter (fun v => decide (v.scope ≠ act_id))) with
    | none => none
    | some rows => some ({ s2 with validators := rows }, [])
  else some (s2, [])

/-- Action `verifyaction(action_id, maker, verifier)`. -/
def verifyaction (U : Utils) (env : Env) (s : State) (action_id : Nat) (maker verifier : Name) :
    Option (State × List Call) :=
  -- "invalid account for verifier", "invalid account for maker"
  if ¬ env.is_account verifier = true then none else
  if ¬ env.is_account maker = true then none else
  if ¬ env.has_auth verifier = true then none else
  -- "Can't find action with given action_id"
  match s.actions.find? (fun a => decide (a.id = action_id)) with
  | none => none
  | some objact =>
  -- "Can't find objective with given action_id"
  match s.objectives.find? (fun o => decide (o.id = objact.objective_id)) with
  | none => none
  | some obj =>
  -- "Can't find community with given action_id"
  match s.communities.find? (fun c => decide (c.symbol = obj.community)) with
  | none => none
  | some cmm =>
  -- "Verifier doesn't belong to the community"
  match s.networks.find? (fun n => decide (n.id = U.gen_uuid cmm.symbol verifier)) with
  | none => none
  | some _ =>
  -- "Maker doesn't belong to the community"
  match s.networks.find? (fun n => decide (n.id = U.gen_uuid cmm.symbol maker)) with
  | none => none
  | some _ =>
  -- "Can't verify actions that aren't automatic, you'll need to open a claim"
  if ¬ objact.verification_type = "automatic" then none else
  -- "This action is already completed"
  if objact.is_completed ≠ 0 then none else
  -- "There are no usages left for this action"
  if objact.usages > 0 ∧ ¬ objact.usages_left ≥ 1 then none else
  -- change status of verification
  let actions1 := s.actions.map (fun a =>
    if a.id = objact.id then
      if dec64 (dec64 a.usages_left) ≤ 0
      then { a with usages_left := dec64 a.usages_left, is_completed := 1 }
      else { a with usages_left := dec64 a.usages_left }
    else a)
  -- "Can't find token configurations on bespiral token contract"
  if ¬ env.token_exists (U.symbol_code cmm.symbol) = true then none else
  let calls := if objact.reward.amount > 0
    then [Call.issue maker objact.reward memo_action] else []
  -- Don't reward verifier for automatic verifications
  some ({ s with actions := actions1 }, calls)

/-- Action `claimaction(action_id, maker)`. -/
def claimaction (U : Utils) (env : Env) (s : State) (action_id : Nat) (maker : Name) :
    Option (State × List Call) :=
  -- "invalid account for maker"
  if ¬ env.is_account maker = true then none else
  if ¬ env.has_auth maker = true then none else
  -- "Can't find action with given action_id"
  match s.actions.find? (fun a => decide (a.id = action_id)) with
  | none => none
  | some objact =>
  -- "This is action is already completed, can't open claim"
  if objact.is_completed ≠ 0 then none else
  -- "Deadline exceeded"
  if objact.deadline > 0 ∧ ¬ objact.deadline > env.now then none else
  -- "There are no usages left for this action"
  if objact.usages > 0 ∧ ¬ objact.usages_left ≥ 1 then none else
  -- "You can only open claims in claimable actions"
  if ¬ objact.verification_type = "claimable" then none else
  -- "Can't find objective with given action_id"
  match s.objectives.find? (fun o => decide (o.id = objact.objective_id)) with
  | none => none
  | some obj =>
  -- "Can't find community with given action_id"
  match s.communities.find? (fun c => decide (c.symbol = obj.community)) with
  | none => none
  | some cmm =>
  -- "Maker doesn't belong to the community"
  match s.networks.find? (fun n => decide (n.id = U.gen_uuid cmm.symbol maker)) with
  | none => none
  | some _ =>
  match get_available_id s "claims" with
  | none => none
  | some (claim_id, s1) =>
  -- emplace aborts on a stored primary key
  if s1.claims.any (fun c => decide (c.id = claim_id)) = true then none else
  some ({ s1 with claims := s1.claims ++
            [{ id := claim_id, action_id := action_id, claimer := maker, is_verified := 0 }] }, [])

/-- Action `createsale(from, title, description, quantity, image, track_stock,
units)`. -/
def createsale (U : Utils) (env : Env) (s : State) («from» : Name) (title description : String)
    (quantity : Asset) (image : String) (track_stock units : Nat) : Option (State × List Call) :=
  if ¬ env.has_auth «from» = true then none else
  -- Validate quantity
  if ¬ U.asset_is_valid quantity = true then none else
  if ¬ quantity.amount ≥ 0 then none else
  -- "Invalid number of units, must use a positive value"
  if track_stock ≥ 1 ∧ ¬ units > 0 then none else
  -- Validate Strings
  if ¬ title.utf8ByteSize ≤ 256 then none else
  if ¬ description.utf8ByteSize ≤ 256 then none else
  if ¬ image.utf8ByteSize ≤ 256 then none else
  -- "'from' account doesn't belong to the community"
  match s.networks.find? (fun n => decide (n.id = U.gen_uuid quantity.symbol «from»)) with
  | none => none
  | some netlink =>
  match get_available_id s "sales" with
  | none => none
  | some (sale_id, s1) =>
  -- emplace aborts on a stored primary key
  if s1.sales.any (fun x => decide (x.id = sale_id)) = true then none else
  some ({ s1 with sales := s1.sales ++
            [{ id := sale_id, creator := «from», community := netlink.community, title := title,
               description := description, image := image, track_stock := track_stock,
               quantity := quantity,
               -- Discard units value if not tracking stock
               units := if track_stock ≥ 1 then units else 0 }] }, [])

/-- Action `updatesale(sale_id, title, description, quantity, image,
track_stock, units)`. -/
def updatesale (U : Utils) (env : Env) (s : State) (sale_id : Nat) (title description : String)
    (quantity : Asset) (image : String) (track_stock units : Nat) : Option (State × List Call) :=
  -- "Can't find any sale with given sale_id"
  match s.sales.find? (fun x => decide (x.id = sale_id)) with
  | none => none
  | some found_sale =>
  if ¬ env.has_auth found_sale.creator = true then none else
  -- Validate quantity
  if ¬ U.asset_is_valid quantity = true then none else
  if ¬ quantity.amount ≥ 0 then none else
  -- Validate Strings
  if ¬ title.utf8ByteSize ≤ 256 then none else
  if ¬ description.utf8ByteSize ≤ 256 then none else
  if ¬ image.utf8ByteSize ≤ 256 then none else
  -- "This account doesn't belong to the community"
  match s.networks.find? (fun n => decide (n.id = U.gen_uuid quantity.symbol found_sale.creator)) with
  | none => none
  | some _ =>
  some ({ s with sales := s.sales.map (fun x =>
            if x.id = found_sale.id then
              { x with title := title, description := description, image := image,
                       quantity := quantity,
                       -- Discard units value if not tracking stock
                       units := if found_sale.track_stock ≥ 1 ∧ track_stock = 1 then units else 0,
                       track_stock := track_stock }
            else x) }, [])

/-- Action `deletesale(sale_id)`. -/
def deletesale (env : Env) (s : State) (sale_id : Nat) : Option (State × List Call) :=
  -- "Can't find any sale with the given sale_id"
  match s.sales.find? (fun x => decide (x.id = sale_id)) with
  | none => none
  | some found_sale =>
  if ¬ env.has_auth found_sale.creator = true then none else
  some ({ s with sales := s.sales.filter (fun x => decide (x.id ≠ sale_id)) }, [])

/-- Action `reactsale(sale_id, from, type)`. -/
def reactsale (U : Utils) (env : Env) (s : State) (sale_id : Nat) («from» : Name) (type : String) :
    Option (State × List Call) :=
  if ¬ env.has_auth «from» = true then none else
  -- "Can't find any sale with given sale_id"
  match s.sales.find? (fun x => decide (x.id = sale_id)) with
  | none => none
  | some found_sale =>
  -- "Can't react to your own sale"
  if ¬ «from» ≠ found_sale.creator then none else
  -- "This account can't react to a sale from a community it doesn't belong"
  match s.networks.find? (fun n => decide (n.id = U.gen_uuid found_sale.community «from»)) with
  | none => none
  | some _ =>
  if ¬ (type = "thumbsup" ∨ type = "thumbsdown" ∨ type = "none") then none else
  some (s, [])

/-- Conversion of an `int64_t` to `uint64_t`. -/
def to_uint64 (x : Int) : Nat := (x % (UINT64 : Int)).toNat

/-- Action `transfersale(sale_id, from, to, quantity, units)`. -/
def transfersale (U : Utils) (env : Env) (s : State) (sale_id : Nat) («from» «to» : Name)
    (quantity : Asset) (units : Nat) : Option (State × List Call) :=
  if ¬ env.has_auth «from» = true then none else
  -- "The sale creator (to) account doesn't exists"
  if ¬ env.is_account «to» = true then none else
  -- "Can't sale for yourself"
  if ¬ «from» ≠ «to» then none else
  -- "Can't find any sale with given sale_id"
  match s.sales.find? (fun x => decide (x.id = sale_id)) with
  | none => none
  | some found_sale =>
  if ¬ (if found_sale.track_stock = 1 then
          -- units positive, in stock, and the amount offered is the expected one
          units > 0 ∧ found_sale.units ≥ units ∧
          (to_uint64 quantity.amount * units) % UINT64 =
            (to_uint64 found_sale.quantity.amount * units) % UINT64
        else
          -- asset comparison asserts equal symbols, then compares amounts
          quantity.symbol = found_sale.quantity.symbol ∧
          quantity.amount = found_sale.quantity.amount) then none else
  -- "You can't use transfersale to this sale if you aren't part of the community"
  match s.networks.find? (fun n => decide (n.id = U.gen_uuid found_sale.community «from»)) with
  | none => none
  | some _ =>
  -- "Sale creator and sale doesn't match"
  if ¬ found_sale.creator = «to» then none else
  if found_sale.track_stock = 1 then
    some ({ s with sales := s.sales.map (fun x =>
              if x.id = found_sale.id then { x with units := (x.units + UINT64 - units) % UINT64 }
              else x) }, [])
  else some (s, [])

/-- Action `setindices(sale_id, objective_id, action_id, claim_id)`. -/
def setindices (U : Utils) (env : Env) (s : State) (sale_id objective_id action_id claim_id : Nat) :
    Option (State × List Call) :=
  if ¬ env.has_auth U.self = true then none else
  some ({ s with curr_indexes :=
            { last_used_sale_id := sale_id, last_used_objective_id := objective_id,
              last_used_action_id := action_id, last_used_claim_id := claim_id } }, [])

/-- Action `deleteact(id)`. -/
def deleteact (U : Utils) (env : Env) (s : State) (id : Nat) : Option (State × List Call) :=
  if ¬ env.has_auth U.self = true then none else
  -- "Cant find action with given id"
  match s.actions.find? (fun a => decide (a.id = id)) with
  | none => none
  | some _ => some ({ s with actions := s.actions.filter (fun a => decide (a.id ≠ id)) }, [])

/-- A call of one of the contract's actions (the `EOSIO_DISPATCH` list), with
its arguments. -/
inductive Op where
  | create (cmm_asset : Asset) (creator : Name) (logo name description : String)
      (inviter_reward invited_reward : Asset)
  | update (cmm_asset : Asset) (logo name description : String)
      (inviter_reward invited_reward : Asset)
  | netlink (cmm_asset : Asset) (inviter new_user : Name)
  | newobjective (cmm_asset : Asset) (description : String) (creator : Name)
  | updobjective (objective_id : Nat) (description : String) (editor : Name)
  | upsertaction (action_id objective_id : Nat) (description : String)
      (reward verifier_reward : Asset) (deadline usages usages_left verifications : Nat)
      (verification_type validators_str : String) (is_completed : Nat) (creator : Name)
  | verifyaction (action_id : Nat) (maker verifier : Name)
  | claimaction (action_id : Nat) (maker : Name)
  | verifyclaim (claim_id : Nat) (verifier : Name) (vote : Nat)
  | createsale (sender : Name) (title description : String) (quantity : Asset) (image : String)
      (track_stock units : Nat)
  | updatesale (sale_id : Nat) (title description : String) (quantity : Asset) (image : String)
      (track_stock units : Nat)
  | deletesale (sale_id : Nat)
  | reactsale (sale_id : Nat) (sender : Name) (type : String)
  | transfersale (sale_id : Nat) (sender receiver : Name) (quantity : Asset) (units : Nat)
  | setindices (sale_id objective_id action_id claim_id : Nat)
  | deleteact (id : Nat)
deriving DecidableEq, Repr

/-- The dispatcher: run one call on the tables. -/
def apply (U : Utils) (env : Env) (s : State) : Op → Option (State × List Call)
  | .create a c l n d r1 r2 => create U env s a c l n d r1 r2
  | .update a l n d r1 r2 => update env s a l n d r1 r2
  | .netlink a i u => netlink U env s a i u
  | .newobjective a d c => newobjective U env s a d c
  | .updobjective o d e => updobjective U env s o d e
  | .upsertaction a o d r vr dl us ul v vt vs ic c =>
      upsertaction U env s a o d r vr dl us ul v vt vs ic c
  | .verifyaction a m v => verifyaction U env s a m v
  | .claimaction a m => claimaction U env s a m
  | .verifyclaim c v vote => verifyclaim U env s c v vote
  | .createsale f t d q i ts u => createsale U env s f t d q i ts u
  | .updatesale sid t d q i ts u => updatesale U env s sid t d q i ts u
  | .deletesale sid => deletesale env s sid
  | .reactsale sid f t => reactsale U env s sid f t
  | .transfersale sid f t q u => transfersale U env s sid f t q u
  | .setindices a b c d => setindices U env s a b c d
  | .deleteact i => deleteact U env s i

/-- The states the contract can be in: the empty chain state, and whatever a
committed call makes of a reachable state.  The helpers `U` are fixed, what a
call reads from the chain (`env`) is free at each call. -/
inductive Reachable (U : Utils) : State → Prop where
  | init : Reachable U State.empty
  | step (env : Env) (op : Op) (s s1 : State) (calls : List Call) :
      Reachable U s → apply U env s op = some (s1, calls) → Reachable U s1

/-- Run a sequence of calls, each with what it reads from the chain.  An
aborted call leaves the tables as they were and sends nothing.  The result is
the final state and, per call in order, the call with what it sent (`none`
when it aborted). -/
def run (U : Utils) : State → List (Env × Op) → State × List (Op × Option (List Call))
  | s, [] => (s, [])
  | s, (env, op) :: rest =>
    match apply U env s op with
    | none => ((run U s rest).1, (op, none) :: (run U s rest).2)
    | some (s1, calls) => ((run U s1 rest).1, (op, some calls) :: (run U s1 rest).2)

/-- The preconditions `verifyclaim(claim_id, verifier, vote)` checks, in the
order of the code, with the rows it reads: the claim, its action and the
primary key of the check it will store. -/
def verifyclaim_pre (U : Utils) (env : Env) (s : State) (claim_id : Nat) (verifier : Name)
    (claim : claim) (objact : action) (new_id : Nat) : Prop :=
  s.claims.find? (fun c => decide (c.id = claim_id)) = some claim ∧
  claim.is_verified = 0 ∧
  s.actions.find? (fun a => decide (a.id = claim.action_id)) = some objact ∧
  (∃ v ∈ s.validators, v.scope = objact.id ∧ v.validator = verifier) ∧
  (∃ obj cmm nw,
    s.objectives.find? (fun o => decide (o.id = objact.objective_id)) = some obj ∧
    s.communities.find? (fun c => decide (c.symbol = obj.community)) = some cmm ∧
    s.networks.find? (fun n => decide (n.id = U.gen_uuid cmm.symbol verifier)) = some nw) ∧
  objact.is_completed = 0 ∧
  (objact.deadline > 0 → objact.deadline > env.now) ∧
  (objact.usages > 0 → objact.usages_left ≥ 1) ∧
  (byclaim_find s.checks claim_id).any (fun c => decide (c.validator = verifier)) = false ∧
  available_primary_key (s.checks.map (fun c => c.id)) = some new_id

/-- The check a committed `verifyclaim` stores. -/
def new_check (new_id claim_id : Nat) (verifier : Name) (vote : Nat) : check :=
  { id := new_id, claim_id := claim_id, validator := verifier, is_verified := vote }

/-- The number `check_counter` that `verifyclaim` computes once the new check
is stored: the checks with `is_verified == 1` from `find(claim_id)` to the end
of the `byclaim` index. -/
def check_counter (cs : List check) (claim_id : Nat) : Nat :=
  ((byclaim_find cs claim_id).filter (fun c => decide (c.is_verified = 1))).length

/-- Whether a committed `verifyclaim` sets the claim verified: the vote is not
0 and the counter reaches the action's `verifications`. -/
def verifies (s : State) (claim_id : Nat) (objact : action) (new_id : Nat) (verifier : Name)
    (vote : Nat) : Prop :=
  vote ≠ 0 ∧
  check_counter (s.checks ++ [new_check new_id claim_id verifier vote]) claim_id
    ≥ objact.verifications

instance (s : State) (claim_id : Nat) (objact : action) (new_id : Nat) (verifier : Name)
    (vote : Nat) : Decidable (verifies s claim_id objact new_id verifier vote) :=
  inferInstanceAs (Decidable (_ ∧ _))

/-- What a committed `verifyclaim` leaves: the tables and the calls sent, from
the rows it read. -/
def verifyclaim_commit (s : State) (claim_id : Nat) (verifier : Name) (vote : Nat)
    (claim : claim) (objact : action) (new_id : Nat) : State × List Call :=
  let checks1 := s.checks ++ [new_check new_id claim_id verifier vote]
  let calls1 := if objact.verifier_reward.amount > 0
    then [Call.issue verifier objact.verifier_reward memo_verification] else []
  if verifies s claim_id objact new_id verifier vote then
    ({ s with
        checks := checks1,
        claims := s.claims.map (fun c => if c.id = claim_id then { c with is_verified := 1 } else c),
        actions := s.actions.map (fun a => if a.id = objact.id then
          { a with usages_left := dec64 objact.usages_left,
                   is_completed := if objact.usages > 0 ∧ dec64 objact.usages_left = 0 then 1
                                   else a.is_completed }
          else a) },
      calls1 ++ (if objact.reward.amount > 0
        then [Call.issue claim.claimer objact.reward memo_action] else []))
  else ({ s with checks := checks1 }, calls1)

/-- The stored claim `claim_id` is verified (`is_verified` is not `false`). -/
def claim_verified (s : State) (claim_id : Nat) : Prop :=
  ∃ c, s.claims.find? (fun c => decide (c.id = claim_id)) = some c ∧ c.is_verified ≠ 0

/-- Whether a sent call is the issue of an action reward (it carries the memo
of the action reward; the validator's reward carries another memo). -/
def is_action_reward : Call → Bool
  | .issue _ _ memo => decide (memo = memo_action)
  | _ => false

/-- How many action rewards the committed `verifyclaim` calls on `claim_id`
issued, over the log of a run. -/
def claimer_rewards (claim_id : Nat) : List (Op × Option (List Call)) → Nat
  | [] => 0
  | (Op.verifyclaim c _ _, some calls) :: rest =>
    (if c = claim_id then (calls.filter is_action_reward).length else 0)
      + claimer_rewards claim_id rest
  | _ :: rest => claimer_rewards claim_id rest

instance (s : State) (claim_id : Nat) : Decidable (claim_verified s claim_id) :=
  decidable_of_iff
    (((s.claims.find? (fun c => decide (c.id = claim_id))).any
        (fun c => decide (c.is_verified ≠ 0))) = true)
    (by
      unfold claim_verified
      cases s.claims.find? (fun c => decide (c.id = claim_id)) <;> simp)

/-- The checks stored for `claim_id` with vote value 1. -/
def positive_checks (s : State) (claim_id : Nat) : List check :=
  s.checks.filter (fun c => decide (c.claim_id = claim_id ∧ c.is_verified = 1))

/-- The checks stored for the pair `(claim_id, validator)`. -/
def checks_of (s : State) (claim_id : Nat) (validator : Name) : List check :=
  s.checks.filter (fun c => decide (c.claim_id = claim_id ∧ c.validator = validator))

/-- Helpers for the worked examples.  `gen_uuid` pairs its arguments
injectively; `split` and `string_to_name` are tabulated on the one validator
list the examples use (accounts 1, 2 and 3); assets and symbols are valid. -/
def demo_utils : Utils :=
  { gen_uuid := fun x y => x * UINT64 + y
    split := fun str _ => if str = "alice-bob-carol" then ["alice", "bob", "carol"] else [str]
    string_to_name := fun str =>
      if str = "alice" then some 1 else if str = "bob" then some 2
      else if str = "carol" then some 3 else none
    asset_is_valid := fun _ => true
    symbol_is_valid := fun _ => true
    symbol_code := fun x => x / 256
    self := 100
    backend := 101 }

/-- Chain context of the worked examples: time 10, every account exists, the
call is signed by `signer`, the currency contract knows every token. -/
def demo_env (signer : Name) : Env :=
  { now := 10, is_account := fun _ => true, has_auth := fun n => decide (n = signer),
    token_exists := fun _ => true }

/-- The state a sequence of calls leaves when run on the empty chain state
with the helpers of the worked examples. -/
def demo_state (prog : List (Env × Op)) : State := (run demo_utils State.empty prog).1

/-- Worked example, common part: account 1 creates the community with symbol
7 (no referral rewards), invites accounts 2, 3 and 4, and opens objective 1. -/
def demo_community : List (Env × Op) :=
  [ (demo_env 1, .create ⟨0, 7⟩ 1 "" "c" "" ⟨0, 7⟩ ⟨0, 7⟩),
    (demo_env 1, .netlink ⟨0, 7⟩ 1 2),
    (demo_env 1, .netlink ⟨0, 7⟩ 1 3),
    (demo_env 1, .netlink ⟨0, 7⟩ 1 4),
    (demo_env 1, .newobjective ⟨0, 7⟩ "o" 1) ]

/-- Worked example: a claimable action (id 1) with reward 5, `verifications =
2`, `usages = 3` and validators 1, 2, 3; account 4 opens claims 1 and 2 on it. -/
def demo_two_claims : List (Env × Op) :=
  demo_community ++
  [ (demo_env 1, .upsertaction 0 1 "a" ⟨5, 7⟩ ⟨0, 7⟩ 0 3 0 2 "claimable" "alice-bob-carol" 0 1),
    (demo_env 4, .claimaction 1 4),
    (demo_env 4, .claimaction 1 4) ]

/-- Worked example: after `demo_two_claims`, validator 1 votes 1 on claim 2. -/
def demo_vote_on_later_claim : List (Env × Op) :=
  demo_two_claims ++ [ (demo_env 1, .verifyclaim 2 1 1) ]

/-- Worked example: after `demo_two_claims`, validator 3 votes 0 on claim 2. -/
def demo_negative_on_later_claim : List (Env × Op) :=
  demo_two_claims ++ [ (demo_env 3, .verifyclaim 2 3 0) ]

/-- Worked example: after `demo_negative_on_later_claim`, validator 1 votes 0
on claim 1. -/
def demo_negative_on_both_claims : List (Env × Op) :=
  demo_negative_on_later_claim ++ [ (demo_env 1, .verifyclaim 1 1 0) ]

/-- Worked example: after `demo_vote_on_later_claim`, validator 2 also votes 1
on claim 2, which verifies claim 2. -/
def demo_later_claim_verified : List (Env × Op) :=
  demo_vote_on_later_claim ++ [ (demo_env 2, .verifyclaim 2 2 1) ]

/-- Worked example: a claimable action (id 1) with reward 0, `verifications =
2`, `usages = 3` and validators 1, 2, 3, and nothing else. -/
def demo_zero_reward : List (Env × Op) :=
  demo_community ++
  [ (demo_env 1, .upsertaction 0 1 "a" ⟨0, 7⟩ ⟨0, 7⟩ 0 3 0 2 "claimable" "alice-bob-carol" 0 1) ]

/-- Worked example: after `demo_zero_reward`, account 4 opens claim 1. -/
def demo_zero_reward_claim : List (Env × Op) :=
  demo_zero_reward ++ [ (demo_env 4, .claimaction 1 4) ]

/-- Worked example: after `demo_zero_reward_claim`, validator 1 votes 1. -/
def demo_zero_reward_vote : List (Env × Op) :=
  demo_zero_reward_claim ++ [ (demo_env 1, .verifyclaim 1 1 1) ]

/-- Worked example: after `demo_zero_reward_vote`, validator 2 votes 1. -/
def demo_zero_reward_votes : List (Env × Op) :=
  demo_zero_reward_vote ++ [ (demo_env 2, .verifyclaim 1 2 1) ]

/-- Worked example: a claimable action (id 1) with reward 5, `verifications =
2`, `usages = 3` and validators 1, 2, 3, and nothing else. -/
def demo_claimable : List (Env × Op) :=
  demo_community ++
  [ (demo_env 1, .upsertaction 0 1 "a" ⟨5, 7⟩ ⟨0, 7⟩ 0 3 0 2 "claimable" "alice-bob-carol" 0 1) ]

/-- Worked example: after `demo_claimable`, account 4 opens claim 1. -/
def demo_claimable_claim : List (Env × Op) :=
  demo_claimable ++ [ (demo_env 4, .claimaction 1 4) ]

/-- Worked example: after `demo_claimable_claim`, validator 1 votes 1. -/
def demo_claimable_vote : List (Env × Op) :=
  demo_claimable_claim ++ [ (demo_env 1, .verifyclaim 1 1 1) ]

/-- Worked example: after `demo_claimable_vote`, validator 2 votes 1. -/
def demo_claimable_votes : List (Env × Op) :=
  demo_claimable_vote ++ [ (demo_env 2, .verifyclaim 1 2 1) ]

/-- The action that `demo_claimable` stores. -/
def demo_action : action :=
  { id := 1, objective_id := 1, description := "a", reward := ⟨5, 7⟩, verifier_reward := ⟨0, 7⟩,
    deadline := 0, usages := 3, usages_left := 3, verifications := 2,
    verification_type := "claimable", is_completed := 0, creator := 1 }

/-- Worked example: an automatic action (id 1) with reward 5 and `usages = 0`
(unlimited). -/
def demo_unlimited_automatic : List (Env × Op) :=
  demo_community ++
  [ (demo_env 1, .upsertaction 0 1 "a" ⟨5, 7⟩ ⟨0, 7⟩ 0 0 0 0 "automatic" "" 0 1) ]

/-- Worked example: an automatic action (id 1) with reward 5 and `usages = 1`. -/
def demo_single_use : List (Env × Op) :=
  demo_community ++
  [ (demo_env 1, .upsertaction 0 1 "a" ⟨5, 7⟩ ⟨0, 7⟩ 0 1 0 0 "automatic" "" 0 1) ]

/-- Worked example: an automatic action (id 1) with reward 5 and `usages = 3`,
verified once for maker 2 by verifier 1. -/
def demo_triple_use_once : List (Env × Op) :=
  demo_community ++
  [ (demo_env 1, .upsertaction 0 1 "a" ⟨5, 7⟩ ⟨0, 7⟩ 0 3 0 0 "automatic" "" 0 1),
    (demo_env 1, .verifyaction 1 2 1) ]

/-- The preconditions of a vote as the specification lists them: the claim
exists and is not verified, the verifier is in the validator list of the
claim's action and a member of the action's community, the action is not
completed, its deadline (if any) is in the future, a usage is left when usages
are limited, and no check is stored for the pair (claim_id, verifier). -/
def listed_preconditions (U : Utils) (env : Env) (s : State) (claim_id : Nat)
    (verifier : Name) : Bool :=
  match s.claims.find? (fun c => decide (c.id = claim_id)) with
  | none => false
  | some claim =>
    decide (claim.is_verified = 0) &&
    match s.actions.find? (fun a => decide (a.id = claim.action_id)) with
    | none => false
    | some objact =>
      s.validators.any (fun v => decide (v.scope = objact.id ∧ v.validator = verifier)) &&
      (match s.objectives.find? (fun o => decide (o.id = objact.objective_id)) with
        | none => false
        | some obj =>
          match s.communities.find? (fun c => decide (c.symbol = obj.community)) with
          | none => false
          | some cmm =>
            s.networks.any (fun n => decide (n.id = U.gen_uuid cmm.symbol verifier))) &&
      decide (objact.is_completed = 0) &&
      decide (objact.deadline > 0 → objact.deadline > env.now) &&
      decide (objact.usages > 0 → objact.usages_left ≥ 1) &&
      !(s.checks.any (fun c => decide (c.claim_id = claim_id ∧ c.validator = verifier)))

/-- The fields of the stored actions that the usage counter is about. -/
def usage_rows (s : State) : List (Nat × Nat × Nat × Nat) :=
  s.actions.map (fun a => (a.id, a.usages, a.usages_left, a.is_completed))

/-- The field ranges `upsertaction` validates: `verifications` is 0 or at
least 2, `usages` is at most 1000 and both rewards are non-negative. -/
def action_ok (a : action) : Prop :=
  (a.verifications = 0 ∨ a.verifications ≥ 2) ∧ a.usages ≤ 1000 ∧
  a.reward.amount ≥ 0 ∧ a.verifier_reward.amount ≥ 0

/-- The action row the create branch of `upsertaction` stores under `id`. -/
def created_action (id objective_id : Nat) (description : String)
    (reward verifier_reward : Asset) (deadline usages verifications : Nat)
    (verification_type : String) (creator : Name) : action :=
  { id := id, objective_id := objective_id, description := description, reward := reward,
    verifier_reward := verifier_reward, deadline := deadline, usages := usages,
    usages_left := usages, verifications := verifications,
    verification_type := verification_type, is_completed := 0, creator := creator }

/-- What the replace branch of `upsertaction` makes of a stored row `a`. -/
def replaced_action (a : action) (description : String) (reward verifier_reward : Asset)
    (deadline usages usages_left verifications : Nat) (verification_type : String)
    (is_completed : Nat) : action :=
  { a with description := description, reward := reward, verifier_reward := verifier_reward,
           deadline := deadline, usages := usages, usages_left := usages_left,
           verifications := verifications, verification_type := verification_type,
           is_completed := is_completed }

/-- What `verifyaction` makes of a stored row of the verified action: the
counter is decremented, and the row is completed when the decremented counter
minus one is `<= 0` on `uint64_t`. -/
def verified_action (a : action) : action :=
  if dec64 (dec64 a.usages_left) ≤ 0
  then { a with usages_left := dec64 a.usages_left, is_completed := 1 }
  else { a with usages_left := dec64 a.usages_left }

/-- What a committed `verifyaction` leaves: the tables and the calls sent, from
the action row it read. -/
def verifyaction_commit (s : State) (objact : action) (maker : Name) : State × List Call :=
  ({ s with actions := s.actions.map (fun a => if a.id = objact.id then verified_action a else a) },
   if objact.reward.amount > 0 then [Call.issue maker objact.reward memo_action] else [])

/-- The preconditions `verifyaction(action_id, maker, verifier)` checks, with
the action row it reads. -/
def verifyaction_pre (U : Utils) (env : Env) (s : State) (action_id : Nat) (maker verifier : Name)
    (objact : action) : Prop :=
  env.is_account verifier = true ∧ env.is_account maker = true ∧ env.has_auth verifier = true ∧
  s.actions.find? (fun a => decide (a.id = action_id)) = some objact ∧
  (∃ obj cmm nv nm,
    s.objectives.find? (fun o => decide (o.id = objact.objective_id)) = some obj ∧
    s.communities.find? (fun c => decide (c.symbol = obj.community)) = some cmm ∧
    s.networks.find? (fun n => decide (n.id = U.gen_uuid cmm.symbol verifier)) = some nv ∧
    s.networks.find? (fun n => decide (n.id = U.gen_uuid cmm.symbol maker)) = some nm ∧
    env.token_exists (U.symbol_code cmm.symbol) = true) ∧
  objact.verification_type = "automatic" ∧
  objact.is_completed = 0 ∧
  (objact.usages > 0 → objact.usages_left ≥ 1)

/-- The membership edge `netlink` stores for `new_user` in the community with
symbol `symbol`. -/
def new_edge (U : Utils) (symbol : Symbol) (inviter new_user : Name) : network :=
  { id := U.gen_uuid symbol new_user, community := symbol, invited_user := new_user,
    invited_by := inviter }

/-- What `netlink` sends when it stores a new edge: the notification of the
new user and, unless inviter and new user are the same account, the inviter's
reward when positive and the new user's reward when positive, or else the
account initialisation. -/
def join_calls (cmm : community) (inviter new_user : Name) : List Call :=
  if inviter = new_user then [Call.notify new_user] else
  [Call.notify new_user] ++
  (if cmm.inviter_reward.amount > 0
    then [Call.issue inviter cmm.inviter_reward ("Thanks for helping " ++ cmm.name ++ " grow!"),
          Call.notify inviter]
    else []) ++
  (if cmm.invited_reward.amount > 0
    then [Call.issue new_user cmm.invited_reward ("Welcome to " ++ cmm.name ++ "!"),
          Call.notify new_user]
    else [Call.initacc cmm.invited_reward.symbol new_user])

/-- Worked example: after `demo_unlimited_automatic`, the action is replaced
with the same fields and `usages_left = 2`. -/
def demo_unlimited_two_left : List (Env × Op) :=
  demo_unlimited_automatic ++
  [ (demo_env 1, .upsertaction 1 1 "a" ⟨5, 7⟩ ⟨0, 7⟩ 0 0 2 0 "automatic" "" 0 1) ]

/-- Worked example: account 2 opens objective 2 in the community, and account
1 creates an automatic action (id 1) under objective 1. -/
def demo_two_objectives : List (Env × Op) :=
  demo_community ++
  [ (demo_env 2, .newobjective ⟨0, 7⟩ "p" 2),
    (demo_env 1, .upsertaction 0 1 "a" ⟨5, 7⟩ ⟨0, 7⟩ 0 3 0 0 "automatic" "" 0 1) ]

/-- The stored action `id` is completed (`is_completed` is not `false`). -/
def action_completed (s : State) (id : Nat) : Prop :=
  ∃ a, s.actions.find? (fun a => decide (a.id = id)) = some a ∧ a.is_completed ≠ 0

instance (s : State) (id : Nat) : Decidable (action_completed s id) :=
  decidable_of_iff
    (((s.actions.find? (fun a => decide (a.id = id))).any
        (fun a => decide (a.is_completed ≠ 0))) = true)
    (by
      unfold action_completed
      cases s.actions.find? (fun a => decide (a.id = id)) <;> simp)

/-- Whether a call is `upsertaction` with a non-zero `action_id`, the replace
branch. -/
def is_replace : Op → Bool
  | .upsertaction action_id _ _ _ _ _ _ _ _ _ _ _ _ => decide (action_id ≠ 0)
  | _ => false

/-- The operations of the verification engine other than the replace branch:
`upsertaction` with `action_id = 0`, `verifyaction`, `claimaction` and
`verifyclaim`. -/
def engine_without_replace : Op → Bool
  | .upsertaction action_id _ _ _ _ _ _ _ _ _ _ _ _ => decide (action_id = 0)
  | .verifyaction _ _ _ => true
  | .claimaction _ _ => true
  | .verifyclaim _ _ _ => true
  | _ => false

/-- The states the contract can be in when `upsertaction` is never called
with a non-zero `action_id`: every action of the dispatcher is allowed,
`upsertaction` only in its create branch. -/
inductive ReachableWithoutReplace (U : Utils) : State → Prop where
  | init : ReachableWithoutReplace U State.empty
  | step (env : Env) (op : Op) (s s1 : State) (calls : List Call) :
      ReachableWithoutReplace U s → is_replace op = false →
      apply U env s op = some (s1, calls) → ReachableWithoutReplace U s1

/-- Worked example: a claimable action (id 1) with reward 5, `verifications =
2`, `usages = 1` and validators 1, 2, 3; account 4 opens claim 1 and validators
1 and 2 vote 1, which verifies the claim and completes the action. -/
def demo_completed : List (Env × Op) :=
  demo_community ++
  [ (demo_env 1, .upsertaction 0 1 "a" ⟨5, 7⟩ ⟨0, 7⟩ 0 1 0 2 "claimable" "alice-bob-carol" 0 1),
    (demo_env 4, .claimaction 1 4),
    (demo_env 1, .verifyclaim 1 1 1),
    (demo_env 2, .verifyclaim 1 2 1) ]

/-- Worked example: after `demo_completed`, account 1 replaces the action
with the same fields, `usages_left = 1` and `is_completed = 0`. -/
def demo_reopened : List (Env × Op) :=
  demo_completed ++
  [ (demo_env 1, .upsertaction 1 1 "a" ⟨5, 7⟩ ⟨0, 7⟩ 0 1 1 2 "claimable" "alice-bob-carol" 0 1) ]

/-- Worked example: after `demo_claimable`, account 1 replaces the action
with `usages = 1` and `usages_left = 5`. -/
def demo_over_quota : List (Env × Op) :=
  demo_claimable ++
  [ (demo_env 1, .upsertaction 1 1 "a" ⟨5, 7⟩ ⟨0, 7⟩ 0 1 5 2 "claimable" "alice-bob-carol" 0 1) ]

/-- Helpers for the worked examples with two communities: as `demo_utils`,
with a second validator list tabulated (accounts 5 and 6). -/
def demo_utils_two : Utils :=
  { demo_utils with
    split := fun str _ =>
      if str = "alice-bob-carol" then ["alice", "bob", "carol"]
      else if str = "erin-frank" then ["erin", "frank"] else [str]
    string_to_name := fun str =>
      if str = "alice" then some 1 else if str = "bob" then some 2
      else if str = "carol" then some 3 else if str = "erin" then some 5
      else if str = "frank" then some 6 else none }

/-- The state a sequence of calls leaves when run on the empty chain state
with the helpers `demo_utils_two`. -/
def demo_state_two (prog : List (Env × Op)) : State := (run demo_utils_two State.empty prog).1

/-- Worked example with two communities.  Account 1 creates the community
with symbol 7, invites accounts 2, 3 and 4 and opens objective 1 in it; it
creates the community with symbol 8, invites accounts 5 and 6 and opens
objective 2 in it; then it creates a claimable action (id 1) under objective 1
with reward 5 of symbol 7 and validators 1, 2, 3. -/
def demo_two_communities : List (Env × Op) :=
  demo_community ++
  [ (demo_env 1, .create ⟨0, 8⟩ 1 "" "d" "" ⟨0, 8⟩ ⟨0, 8⟩),
    (demo_env 1, .netlink ⟨0, 8⟩ 1 5),
    (demo_env 1, .netlink ⟨0, 8⟩ 1 6),
    (demo_env 1, .newobjective ⟨0, 8⟩ "q" 1),
    (demo_env 1, .upsertaction 0 1 "a" ⟨5, 7⟩ ⟨0, 7⟩ 0 3 0 2 "claimable" "alice-bob-carol" 0 1) ]

/-- Worked example: after `demo_two_communities`, account 1 replaces action 1
naming objective 2, with rewards of symbol 8 and validators 5 and 6. -/
def demo_foreign_replace : List (Env × Op) :=
  demo_two_communities ++
  [ (demo_env 1, .upsertaction 1 2 "a" ⟨5, 8⟩ ⟨1, 8⟩ 0 3 3 2 "claimable" "erin-frank" 0 1) ]

/-- Whether `account` is a member of the community with symbol `symbol`: the
lookup of the membership edge by its key. -/
def is_member (U : Utils) (s : State) (symbol : Symbol) (account : Name) : Bool :=
  (s.networks.find? (fun n => decide (n.id = U.gen_uuid symbol account))).isSome

/-- The community symbol of the objective that the stored action row refers
to by its `objective_id`. -/
def action_community (s : State) (a : action) : Option Symbol :=
  (s.objectives.find? (fun o => decide (o.id = a.objective_id))).map (fun o => o.community)

/-- Worked example: account 1 creates the community with symbol 7 without
referral rewards and then updates it with an `invited_reward` of amount 0 and
symbol 9. -/
def demo_updated_community : List (Env × Op) :=
  [ (demo_env 1, .create ⟨0, 7⟩ 1 "" "c" "" ⟨0, 7⟩ ⟨0, 7⟩),
    (demo_env 1, .update ⟨0, 7⟩ "" "c" "" ⟨0, 7⟩ ⟨0, 9⟩) ]

/-- The membership edges stored for the pair `(symbol, account)`. -/
def edges_of (s : State) (symbol : Symbol) (account : Name) : List network :=
  s.networks.filter (fun n => decide (n.community = symbol ∧ n.invited_user = account))

/-- How many committed `netlink` calls for the pair `(symbol, account)` sent
anything (a notification, a reward or an account initialisation), over the log
of a run. -/
def join_effects (symbol : Symbol) (account : Name) : List (Op × Option (List Call)) → Nat
  | [] => 0
  | (Op.netlink a _ u, some calls) :: rest =>
    (if a.symbol = symbol ∧ u = account ∧ calls ≠ [] then 1 else 0)
      + join_effects symbol account rest
  | _ :: rest => join_effects symbol account rest

/-- Whether a call is `upsertaction` with `action_id = 0`, the create branch. -/
def is_create : Op → Bool
  | .upsertaction action_id _ _ _ _ _ _ _ _ _ _ _ _ => decide (action_id = 0)
  | _ => false

/-- Worked example with two communities and two owners.  Account 1 creates
the community with symbol 7, invites account 2 and opens objective 1; account
2 creates an automatic action (id 1) under objective 1; account 5 creates the
community with symbol 8 and opens objective 2 in it. -/
def demo_two_owners : List (Env × Op) :=
  [ (demo_env 1, .create ⟨0, 7⟩ 1 "" "c" "" ⟨0, 7⟩ ⟨0, 7⟩),
    (demo_env 1, .netlink ⟨0, 7⟩ 1 2),
    (demo_env 1, .newobjective ⟨0, 7⟩ "o" 1),
    (demo_env 2, .upsertaction 0 1 "a" ⟨5, 7⟩ ⟨0, 7⟩ 0 3 0 0 "automatic" "" 0 2),
    (demo_env 5, .create ⟨0, 8⟩ 5 "" "d" "" ⟨0, 8⟩ ⟨0, 8⟩),
    (demo_env 5, .newobjective ⟨0, 8⟩ "q" 5) ]

/-- Worked example: after `demo_two_claims`, validator 1 votes 2 on claim 1. -/
def demo_vote_two : List (Env × Op) :=
  demo_two_claims ++ [ (demo_env 1, .verifyclaim 1 1 2) ]

/-- The state with the stored deadline of the action rows with id `action_id`
set to `deadline`, everything else as it is. -/
def with_deadline (s : State) (action_id deadline : Nat) : State :=
  { s with actions := s.actions.map (fun a =>
      if a.id = action_id then { a with deadline := deadline } else a) }

/-- Worked example: an automatic action (id 1) and a claimable action (id 2),
both with reward 5 and deadline 20, stored at time 10; account 4 opens claim 1
on action 2 at time 10. -/
def demo_deadline : List (Env × Op) :=
  demo_community ++
  [ (demo_env 1, .upsertaction 0 1 "a" ⟨5, 7⟩ ⟨0, 7⟩ 20 3 0 0 "automatic" "" 0 1),
    (demo_env 1, .upsertaction 0 1 "b" ⟨5, 7⟩ ⟨0, 7⟩ 20 3 0 2 "claimable" "alice-bob-carol" 0 1),
    (demo_env 4, .claimaction 2 4) ]

/-- Chain context of the worked examples at time 30, after the deadline of
the actions of `demo_deadline`. -/
def demo_env_late (signer : Name) : Env := { demo_env signer with now := 30 }

/-- The symbol and creator of every stored community, in table order. -/
def roots (s : State) : List (Symbol × Name) :=
  s.communities.map (fun c => (c.symbol, c.creator))

/-- The creator of the community that a lookup by `symbol` finds. -/
def creator_of (s : State) (symbol : Symbol) : Option Name :=
  (s.communities.find? (fun c => decide (c.symbol = symbol))).map (fun c => c.creator)

/-- Helpers of the worked examples with `gen_uuid` the pairing function of the
natural numbers, which is injective on all inputs. -/
def demo_utils_pair : Utils := { demo_utils with gen_uuid := Nat.pair }

/-- Worked example: account 1 creates the community with symbol 7 and invites
account 2, and account 2 invites account 3. -/
def demo_chain : List (Env × Op) :=
  [ (demo_env 1, .create ⟨0, 7⟩ 1 "" "c" "" ⟨0, 7⟩ ⟨0, 7⟩),
    (demo_env 1, .netlink ⟨0, 7⟩ 1 2),
    (demo_env 2, .netlink ⟨0, 7⟩ 2 3) ]

/-! ## Lemmas and theorems -/

theorem byclaim_le_total (a b : check) : byclaim_le a b ∨ byclaim_le b a := by
  unfold byclaim_le
  omega

theorem byclaim_le_trans (a b c : check) (h1 : byclaim_le a b) (h2 : byclaim_le b c) :
    byclaim_le a c := by
  unfold byclaim_le at *
  omega

theorem byclaim_perm (cs : List check) : (byclaim cs).Perm cs :=
  List.perm_insertionSort byclaim_le cs

theorem byclaim_pairwise (cs : List check) :
    (byclaim cs).Pairwise (fun a b => a.claim_id ≤ b.claim_id) := by
  have h : (byclaim cs).Sorted byclaim_le :=
    @List.sorted_insertionSort _ byclaim_le _ ⟨byclaim_le_total⟩ ⟨byclaim_le_trans⟩ cs
  refine List.Pairwise.imp ?_ h
  intro a b hab
  unfold byclaim_le at hab
  omega

theorem dropWhile_eq_filter_of_pairwise (cid : Nat) :
    ∀ l : List check, l.Pairwise (fun a b => a.claim_id ≤ b.claim_id) →
      l.dropWhile (fun c => decide (c.claim_id < cid)) =
        l.filter (fun c => decide (cid ≤ c.claim_id))
  | [], _ => rfl
  | x :: xs, h => by
    have hx := List.pairwise_cons.mp h
    by_cases hlt : x.claim_id < cid
    · have hn : ¬ cid ≤ x.claim_id := by omega
      simp [List.dropWhile, List.filter, hlt, hn]
      simpa using dropWhile_eq_filter_of_pairwise cid xs hx.2
    · have hge : cid ≤ x.claim_id := by omega
      have hall : ∀ y ∈ xs, decide (cid ≤ y.claim_id) = true := by
        intro y hy
        have := hx.1 y hy
        simp
        omega
      simp [List.dropWhile, List.filter, hlt, hge]
      exact (List.filter_eq_self.mpr hall).symm

theorem byclaim_find_perm (cs : List check) (cid : Nat) :
    (byclaim_find cs cid).Perm
      (if ∃ y ∈ cs, y.claim_id = cid then cs.filter (fun c => decide (cid ≤ c.claim_id))
       else []) := by
  have hperm : ((byclaim cs).filter (fun c => decide (cid ≤ c.claim_id))).Perm
      (cs.filter (fun c => decide (cid ≤ c.claim_id))) := (byclaim_perm cs).filter _
  have hsorted : ((byclaim cs).filter (fun c => decide (cid ≤ c.claim_id))).Pairwise
      (fun a b => a.claim_id ≤ b.claim_id) := (byclaim_pairwise cs).filter _
  unfold byclaim_find
  rw [dropWhile_eq_filter_of_pairwise cid _ (byclaim_pairwise cs)]
  generalize hF : (byclaim cs).filter (fun c => decide (cid ≤ c.claim_id)) = F at hperm hsorted
  cases F with
  | nil =>
    have hnil : cs.filter (fun c => decide (cid ≤ c.claim_id)) = [] := hperm.symm.eq_nil
    simp [hnil]
  | cons c rest =>
    have hc : c ∈ cs.filter (fun c => decide (cid ≤ c.claim_id)) :=
      hperm.subset (List.mem_cons_self c rest)
    have hc2 := List.mem_filter.mp hc
    have hmin := (List.pairwise_cons.mp hsorted).1
    by_cases heq : c.claim_id = cid
    · have hex : ∃ y ∈ cs, y.claim_id = cid := ⟨c, hc2.1, heq⟩
      simp only [heq, if_true, if_pos hex]
      exact hperm
    · have hnex : ¬ ∃ y ∈ cs, y.claim_id = cid := by
        rintro ⟨y, hy, hyc⟩
        have hyF : y ∈ c :: rest :=
          hperm.symm.subset (List.mem_filter.mpr ⟨hy, by simp [hyc]⟩)
        have hcge : cid ≤ c.claim_id := by simpa using hc2.2
        rcases List.mem_cons.mp hyF with h1 | h1
        · exact heq (h1 ▸ hyc)
        · have := hmin y h1
          omega
      simp only [heq, if_false, if_neg hnex]
      exact List.Perm.refl _

theorem mem_byclaim_find (cs : List check) (cid : Nat) (c : check) :
    c ∈ byclaim_find cs cid ↔ c ∈ cs ∧ cid ≤ c.claim_id ∧ ∃ y ∈ cs, y.claim_id = cid := by
  rw [(byclaim_find_perm cs cid).mem_iff]
  by_cases hex : ∃ y ∈ cs, y.claim_id = cid
  · simp only [if_pos hex, List.mem_filter, decide_eq_true_eq]
    tauto
  · simp only [if_neg hex, List.not_mem_nil, false_iff]
    rintro ⟨_, _, h⟩
    exact hex h

theorem byclaim_find_any (cs : List check) (cid : Nat) (v : Name) :
    (byclaim_find cs cid).any (fun c => decide (c.validator = v)) = true ↔
      (∃ y ∈ cs, y.claim_id = cid) ∧ ∃ c ∈ cs, cid ≤ c.claim_id ∧ c.validator = v := by
  simp only [List.any_eq_true, mem_byclaim_find, decide_eq_true_eq]
  constructor
  · rintro ⟨c, ⟨hc, hge, hex⟩, hv⟩
    exact ⟨hex, c, hc, hge, hv⟩
  · rintro ⟨hex, c, hc, hge, hv⟩
    exact ⟨c, ⟨hc, hge, hex⟩, hv⟩

theorem byclaim_find_count (cs : List check) (cid : Nat) :
    ((byclaim_find cs cid).filter (fun c => decide (c.is_verified = 1))).length =
      if ∃ y ∈ cs, y.claim_id = cid then
        (cs.filter (fun c => decide (cid ≤ c.claim_id ∧ c.is_verified = 1))).length
      else 0 := by
  rw [((byclaim_find_perm cs cid).filter _).length_eq]
  by_cases hex : ∃ y ∈ cs, y.claim_id = cid
  · simp only [if_pos hex, List.filter_filter]
    congr 1
    apply List.filter_congr
    intro x _
    simp only [Bool.decide_and]
    exact Bool.and_comm _ _
  · simp [if_neg hex]

theorem claim_find_id (cs : List claim) (cid : Nat) (c : claim)
    (h : cs.find? (fun c => decide (c.id = cid)) = some c) : c.id = cid := by
  simpa using List.find?_some h

theorem validator_count_pos (vs : List action_validator) (aid : Nat) (verifier : Name) :
    (vs.filter (fun v => decide (v.scope = aid ∧ v.validator = verifier))).length > 0 ↔
      ∃ v ∈ vs, v.scope = aid ∧ v.validator = verifier := by
  rw [gt_iff_lt, List.length_pos, ne_eq, List.filter_eq_nil_iff]
  simp

theorem verifyclaim_eq_some_iff (U : Utils) (env : Env) (s : State) (cid : Nat) (v : Name)
    (vote : Nat) (r : State × List Call) :
    verifyclaim U env s cid v vote = some r ↔
      ∃ claim objact new_id, verifyclaim_pre U env s cid v claim objact new_id ∧
        r = verifyclaim_commit s cid v vote claim objact new_id := by
  constructor
  · intro h
    unfold verifyclaim at h
    cases hclaim : s.claims.find? (fun c => decide (c.id = cid)) with
    | none => rw [hclaim] at h; cases h
    | some claim =>
    rw [hclaim] at h
    dsimp only at h
    have hid : claim.id = cid := claim_find_id _ _ _ hclaim
    by_cases hver : claim.is_verified ≠ 0
    · rw [if_pos hver] at h; cases h
    rw [if_neg hver] at h
    cases hact : s.actions.find? (fun a => decide (a.id = claim.action_id)) with
    | none => rw [hact] at h; cases h
    | some objact =>
    rw [hact] at h
    dsimp only at h
    by_cases hval : ¬ (s.validators.filter
      (fun x => decide (x.scope = objact.id ∧ x.validator = v))).length > 0
    · rw [if_pos hval] at h; cases h
    rw [if_neg hval] at h
    cases hobj : s.objectives.find? (fun o => decide (o.id = objact.objective_id)) with
    | none => rw [hobj] at h; cases h
    | some obj =>
    rw [hobj] at h
    dsimp only at h
    cases hcmm : s.communities.find? (fun c => decide (c.symbol = obj.community)) with
    | none => rw [hcmm] at h; cases h
    | some cmm =>
    rw [hcmm] at h
    dsimp only at h
    cases hnw : s.networks.find? (fun n => decide (n.id = U.gen_uuid cmm.symbol v)) with
    | none => rw [hnw] at h; cases h
    | some nw =>
    rw [hnw] at h
    dsimp only at h
    by_cases hcompl : objact.is_completed ≠ 0
    · rw [if_pos hcompl] at h; cases h
    rw [if_neg hcompl] at h
    by_cases hdead : objact.deadline > 0 ∧ ¬ objact.deadline > env.now
    · rw [if_pos hdead] at h; cases h
    rw [if_neg hdead] at h
    by_cases husage : objact.usages > 0 ∧ ¬ objact.usages_left ≥ 1
    · rw [if_pos husage] at h; cases h
    rw [if_neg husage] at h
    by_cases hdup : (byclaim_find s.checks cid).any (fun c => decide (c.validator = v)) = true
    · rw [if_pos hdup] at h; cases h
    rw [if_neg hdup] at h
    cases hkey : available_primary_key (s.checks.map (fun c => c.id)) with
    | none => rw [hkey] at h; cases h
    | some new_id =>
    rw [hkey] at h
    dsimp only at h
    refine ⟨claim, objact, new_id, ⟨hclaim, by omega, hact, ?_, ⟨obj, cmm, nw, hobj, hcmm, hnw⟩,
      by omega, by omega, by omega, by simpa using hdup, hkey⟩, ?_⟩
    · exact (validator_count_pos _ _ _).mp (not_not.mp hval)
    · unfold verifyclaim_commit verifies check_counter new_check
      rw [hid] at h
      by_cases hv0 : vote = 0
      · rw [if_pos hv0] at h
        rw [← Option.some.inj h]
        simp [hv0]
      · rw [if_neg hv0] at h
        by_cases hcnt : ((byclaim_find (s.checks ++ [(⟨new_id, cid, v, vote⟩ : check)]) cid).filter
              (fun c => decide (c.is_verified = 1))).length ≥ objact.verifications
        · rw [if_pos hcnt] at h
          by_cases hdone : objact.usages > 0 ∧ dec64 objact.usages_left ≤ 0
          · rw [if_pos hdone] at h
            have hz : dec64 objact.usages_left = 0 := by omega
            rw [← Option.some.inj h]
            simp [hv0, hcnt, hdone.1, hz]
          · rw [if_neg hdone] at h
            have hz : ¬ (objact.usages > 0 ∧ dec64 objact.usages_left = 0) := by omega
            rw [← Option.some.inj h]
            simp [hv0, hcnt, hz]
        · rw [if_neg hcnt] at h
          rw [← Option.some.inj h]
          simp [hv0, hcnt]
  · rintro ⟨claim, objact, new_id, ⟨hclaim, hver, hact, hval, ⟨obj, cmm, nw, hobj, hcmm, hnw⟩,
      hcompl, hdead, husage, hdup, hkey⟩, rfl⟩
    have hid : claim.id = cid := claim_find_id _ _ _ hclaim
    unfold verifyclaim
    rw [hclaim]
    dsimp only
    rw [if_neg (by omega), hact]
    dsimp only
    rw [if_neg (not_not.mpr ((validator_count_pos _ _ _).mpr hval)), hobj]
    dsimp only
    rw [hcmm]
    dsimp only
    rw [hnw]
    dsimp only
    rw [if_neg (by omega), if_neg (by omega), if_neg (by omega), if_neg (by simp [hdup]), hkey]
    dsimp only
    unfold verifyclaim_commit verifies check_counter new_check
    rw [hid]
    by_cases hv0 : vote = 0
    · rw [if_pos hv0]
      simp [hv0]
    · rw [if_neg hv0]
      by_cases hcnt : ((byclaim_find (s.checks ++ [(⟨new_id, cid, v, vote⟩ : check)]) cid).filter
            (fun c => decide (c.is_verified = 1))).length ≥ objact.verifications
      · rw [if_pos hcnt]
        by_cases hdone : objact.usages > 0 ∧ dec64 objact.usages_left ≤ 0
        · rw [if_pos hdone]
          have hz : dec64 objact.usages_left = 0 := by omega
          simp [hv0, hcnt, hdone.1, hz]
        · rw [if_neg hdone]
          have hz : ¬ (objact.usages > 0 ∧ dec64 objact.usages_left = 0) := by omega
          simp [hv0, hcnt, hz]
      · rw [if_neg hcnt]
        simp [hv0, hcnt]

theorem get_available_id_frame (s s1 : State) (t : String) (id : Nat)
    (h : get_available_id s t = some (id, s1)) :
    s1.checks = s.checks ∧ s1.claims = s.claims ∧ s1.actions = s.actions ∧
      s1.validators = s.validators ∧ s1.objectives = s.objectives ∧ s1.networks = s.networks ∧
      s1.communities = s.communities ∧ s1.sales = s.sales := by
  unfold get_available_id at h
  repeat' split at h
  all_goals cases h
  all_goals simp

theorem netlink_votes_frame (U : Utils) (env : Env) (s s1 : State) (a : Asset) (i u : Name)
    (k : List Call) (h : netlink U env s a i u = some (s1, k)) :
    s1.checks = s.checks ∧ s1.claims = s.claims := by
  unfold netlink at h
  repeat' split at h
  all_goals cases h
  all_goals simp

theorem create_votes_frame (U : Utils) (env : Env) (s s1 : State) (a : Asset) (c : Name)
    (l n d : String) (r1 r2 : Asset)
    (k : List Call) (h : create U env s a c l n d r1 r2 = some (s1, k)) :
    s1.checks = s.checks ∧ s1.claims = s.claims := by
  unfold create at h
  simp only [Option.ite_none_left_eq_some] at h
  repeat (rcases h with ⟨-, h⟩)
  split at h
  · cases h
  · split at h
    · cases h
    · rename_i hn
      cases h
      have := netlink_votes_frame _ _ _ _ _ _ _ _ hn
      simpa using this

theorem update_votes_frame (env : Env) (s s1 : State) (a : Asset)
    (l n d : String) (r1 r2 : Asset)
    (k : List Call) (h : update env s a l n d r1 r2 = some (s1, k)) :
    s1.checks = s.checks ∧ s1.claims = s.claims := by
  unfold update at h
  repeat' split at h
  all_goals cases h
  all_goals simp

theorem newobjective_votes_frame  (U : Utils) (env : Env) (s s1 : State) (a : Asset) (d : String)
    (c : Name) (k : List Call) (h : newobjective U env s a d c = some (s1, k)) :
    s1.checks = s.checks ∧ s1.claims = s.claims := by
  unfold newobjective at h
  simp only [Option.ite_none_left_eq_some] at h
  repeat (rcases h with ⟨-, h⟩)
  split at h
  · cases h
  split at h
  · cases h
  split at h
  · cases h
  rename_i hn
  simp only [Option.ite_none_left_eq_some] at h
  rcases h with ⟨-, h⟩
  cases h
  have := get_available_id_frame _ _ _ _ hn
  exact ⟨this.1, this.2.1⟩

theorem updobjective_votes_frame (U : Utils) (env : Env) (s s1 : State) (o : Nat) (d : String)
    (e : Name) (k : List Call) (h : updobjective U env s o d e = some (s1, k)) :
    s1.checks = s.checks ∧ s1.claims = s.claims := by
  unfold updobjective at h
  repeat' split at h
  all_goals cases h
  all_goals simp

theorem verifyaction_votes_frame (U : Utils) (env : Env) (s s1 : State) (a : Nat) (m v : Name)
    (k : List Call) (h : verifyaction U env s a m v = some (s1, k)) :
    s1.checks = s.checks ∧ s1.claims = s.claims := by
  unfold verifyaction at h
  repeat' split at h
  all_goals cases h
  all_goals simp

theorem createsale_votes_frame (U : Utils) (env : Env) (s s1 : State) (f : Name) (t d : String)
    (q : Asset) (i : String) (ts u : Nat)
    (k : List Call) (h : createsale U env s f t d q i ts u = some (s1, k)) :
    s1.checks = s.checks ∧ s1.claims = s.claims := by
  unfold createsale at h
  simp only [Option.ite_none_left_eq_some] at h
  repeat (rcases h with ⟨-, h⟩)
  split at h
  · cases h
  split at h
  · cases h
  rename_i hn
  simp only [Option.ite_none_left_eq_some] at h
  rcases h with ⟨-, h⟩
  cases h
  have := get_available_id_frame _ _ _ _ hn
  exact ⟨this.1, this.2.1⟩

theorem updatesale_votes_frame (U : Utils) (env : Env) (s s1 : State) (sid : Nat) (t d : String)
    (q : Asset) (i : String) (ts u : Nat)
    (k : List Call) (h : updatesale U env s sid t d q i ts u = some (s1, k)) :
    s1.checks = s.checks ∧ s1.claims = s.claims := by
  unfold updatesale at h
  repeat' split at h
  all_goals cases h
  all_goals simp

theorem deletesale_votes_frame (env : Env) (s s1 : State) (sid : Nat)
    (k : List Call) (h : deletesale env s sid = some (s1, k)) :
    s1.checks = s.checks ∧ s1.claims = s.claims := by
  unfold deletesale at h
  repeat' split at h
  all_goals cases h
  all_goals simp

theorem reactsale_votes_frame (U : Utils) (env : Env) (s s1 : State) (sid : Nat) (f : Name)
    (t : String) (k : List Call) (h : reactsale U env s sid f t = some (s1, k)) :
    s1.checks = s.checks ∧ s1.claims = s.claims := by
  unfold reactsale at h
  repeat' split at h
  all_goals cases h
  all_goals simp

theorem transfersale_votes_frame (U : Utils) (env : Env) (s s1 : State) (sid : Nat) (f t : Name)
    (q : Asset) (u : Nat) (k : List Call) (h : transfersale U env s sid f t q u = some (s1, k)) :
    s1.checks = s.checks ∧ s1.claims = s.claims := by
  unfold transfersale at h
  repeat' split at h
  all_goals cases h
  all_goals simp

theorem setindices_votes_frame (U : Utils) (env : Env) (s s1 : State) (a b c d : Nat)
    (k : List Call) (h : setindices U env s a b c d = some (s1, k)) :
    s1.checks = s.checks ∧ s1.claims = s.claims := by
  unfold setindices at h
  repeat' split at h
  all_goals cases h
  all_goals simp

theorem deleteact_votes_frame (U : Utils) (env : Env) (s s1 : State) (i : Nat)
    (k : List Call) (h : deleteact U env s i = some (s1, k)) :
    s1.checks = s.checks ∧ s1.claims = s.claims := by
  unfold deleteact at h
  repeat' split at h
  all_goals cases h
  all_goals simp

theorem upsertaction_votes_frame (U : Utils) (env : Env) (s s1 : State) (a o : Nat) (d : String)
    (r vr : Asset) (dl us ul v : Nat) (vt vs : String) (ic : Nat) (c : Name)
    (k : List Call) (h : upsertaction U env s a o d r vr dl us ul v vt vs ic c = some (s1, k)) :
    s1.checks = s.checks ∧ s1.claims = s.claims := by
  unfold upsertaction at h
  simp only [Option.ite_none_left_eq_some] at h
  repeat (rcases h with ⟨-, h⟩)
  split at h
  · cases h
  split at h
  · cases h
  split at h
  · cases h
  simp only [Option.ite_none_left_eq_some] at h
  repeat (rcases h with ⟨-, h⟩)
  split at h
  · cases h
  rename_i act_id s2 hup
  have hs2 : s2.checks = s.checks ∧ s2.claims = s.claims := by
    split at hup
    · split at hup
      · cases hup
      · rename_i hn
        simp only [Option.ite_none_left_eq_some] at hup
        rcases hup with ⟨-, hup⟩
        cases hup
        have := get_available_id_frame _ _ _ _ hn
        exact ⟨this.1, this.2.1⟩
    · split at hup
      · cases hup
      · cases hup
        simp
  split at h
  · simp only [Option.ite_none_left_eq_some] at h
    repeat (rcases h with ⟨-, h⟩)
    split at h
    · cases h
    · cases h
      exact hs2
  · cases h
    exact hs2

theorem claimaction_eq_some (U : Utils) (env : Env) (s s1 : State) (aid : Nat) (maker : Name)
    (k : List Call) (h : claimaction U env s aid maker = some (s1, k)) :
    k = [] ∧
    s1 = { s with
            curr_indexes := { s.curr_indexes with
              last_used_claim_id := inc64 s.curr_indexes.last_used_claim_id },
            claims := s.claims ++ [{ id := inc64 s.curr_indexes.last_used_claim_id,
                                     action_id := aid, claimer := maker, is_verified := 0 }] } ∧
    (∀ c ∈ s.claims, c.id ≠ inc64 s.curr_indexes.last_used_claim_id) := by
  unfold claimaction at h
  simp only [Option.ite_none_left_eq_some] at h
  repeat (rcases h with ⟨-, h⟩)
  split at h
  · cases h
  simp only [Option.ite_none_left_eq_some] at h
  repeat (rcases h with ⟨-, h⟩)
  split at h
  · cases h
  split at h
  · cases h
  split at h
  · cases h
  split at h
  · cases h
  rename_i hn
  simp only [Option.ite_none_left_eq_some] at h
  rcases h with ⟨hfresh, h⟩
  cases h
  have hg : get_available_id s "claims" = some (inc64 s.curr_indexes.last_used_claim_id,
      { s with curr_indexes := { s.curr_indexes with
          last_used_claim_id := inc64 s.curr_indexes.last_used_claim_id } }) := by
    unfold get_available_id
    simp
  rw [hg] at hn
  cases hn
  refine ⟨rfl, rfl, ?_⟩
  intro c hc hcid
  apply hfresh
  simp only [List.any_eq_true, decide_eq_true_eq]
  exact ⟨c, hc, hcid⟩

theorem verifyclaim_checks (U : Utils) (env : Env) (s s1 : State) (cid : Nat) (v : Name)
    (vote : Nat) (k : List Call) (h : verifyclaim U env s cid v vote = some (s1, k)) :
    (∃ new_id, s1.checks = s.checks ++ [new_check new_id cid v vote]) ∧
      ¬ ∃ c ∈ s.checks, c.claim_id = cid ∧ c.validator = v := by
  obtain ⟨claim, objact, new_id, hpre, hr⟩ := (verifyclaim_eq_some_iff _ _ _ _ _ _ _).mp h
  obtain ⟨-, -, -, -, -, -, -, -, hdup, -⟩ := hpre
  constructor
  · refine ⟨new_id, ?_⟩
    by_cases hv : verifies s cid objact new_id v vote
    · simp only [verifyclaim_commit, if_pos hv] at hr
      cases hr
      rfl
    · simp only [verifyclaim_commit, if_neg hv] at hr
      cases hr
      rfl
  · rintro ⟨c, hc, hcid, hv⟩
    have : (byclaim_find s.checks cid).any (fun c => decide (c.validator = v)) = true :=
      (byclaim_find_any _ _ _).mpr ⟨⟨c, hc, hcid⟩, c, hc, by omega, hv⟩
    rw [this] at hdup
    cases hdup

theorem verifyclaim_claims (U : Utils) (env : Env) (s s1 : State) (cid : Nat) (v : Name)
    (vote : Nat) (k : List Call) (h : verifyclaim U env s cid v vote = some (s1, k)) :
    s1.claims = s.claims ∨
      s1.claims = s.claims.map (fun c => if c.id = cid then { c with is_verified := 1 } else c) := by
  obtain ⟨claim, objact, new_id, -, hr⟩ := (verifyclaim_eq_some_iff _ _ _ _ _ _ _).mp h
  by_cases hv : verifies s cid objact new_id v vote
  · simp only [verifyclaim_commit, if_pos hv] at hr
    cases hr
    exact Or.inr rfl
  · simp only [verifyclaim_commit, if_neg hv] at hr
    cases hr
    exact Or.inl rfl

theorem apply_checks (U : Utils) (env : Env) (s s1 : State) (op : Op) (k : List Call)
    (h : apply U env s op = some (s1, k)) :
    s1.checks = s.checks ∨
      ∃ cid v vote new_id, s1.checks = s.checks ++ [new_check new_id cid v vote] ∧
        ¬ ∃ c ∈ s.checks, c.claim_id = cid ∧ c.validator = v := by
  cases op with
  | create a c l n d r1 r2 => exact Or.inl (create_votes_frame _ _ _ _ _ _ _ _ _ _ _ _ h).1
  | update a l n d r1 r2 => exact Or.inl (update_votes_frame _ _ _ _ _ _ _ _ _ _ h).1
  | netlink a i u => exact Or.inl (netlink_votes_frame _ _ _ _ _ _ _ _ h).1
  | newobjective a d c => exact Or.inl (newobjective_votes_frame _ _ _ _ _ _ _ _ h).1
  | updobjective o d e => exact Or.inl (updobjective_votes_frame _ _ _ _ _ _ _ _ h).1
  | upsertaction a o d r vr dl us ul v vt vs ic c =>
    exact Or.inl (upsertaction_votes_frame _ _ _ _ _ _ _ _ _ _ _ _ _ _ _ _ _ _ h).1
  | verifyaction a m v => exact Or.inl (verifyaction_votes_frame _ _ _ _ _ _ _ _ h).1
  | claimaction a m =>
    obtain ⟨-, hs, -⟩ := claimaction_eq_some _ _ _ _ _ _ _ h
    rw [hs]
    exact Or.inl rfl
  | verifyclaim c v vote =>
    obtain ⟨⟨new_id, hn⟩, hdup⟩ := verifyclaim_checks _ _ _ _ _ _ _ _ h
    exact Or.inr ⟨c, v, vote, new_id, hn, hdup⟩
  | createsale f t d q i ts u => exact Or.inl (createsale_votes_frame _ _ _ _ _ _ _ _ _ _ _ _ h).1
  | updatesale sid t d q i ts u =>
    exact Or.inl (updatesale_votes_frame _ _ _ _ _ _ _ _ _ _ _ _ h).1
  | deletesale sid => exact Or.inl (deletesale_votes_frame _ _ _ _ _ h).1
  | reactsale sid f t => exact Or.inl (reactsale_votes_frame _ _ _ _ _ _ _ _ h).1
  | transfersale sid f t q u => exact Or.inl (transfersale_votes_frame _ _ _ _ _ _ _ _ _ _ h).1
  | setindices a b c d => exact Or.inl (setindices_votes_frame _ _ _ _ _ _ _ _ _ h).1
  | deleteact i => exact Or.inl (deleteact_votes_frame _ _ _ _ _ _ h).1

theorem apply_claims (U : Utils) (env : Env) (s s1 : State) (op : Op) (k : List Call)
    (h : apply U env s op = some (s1, k)) :
    s1.claims = s.claims ∨
      (∃ new : claim, s1.claims = s.claims ++ [new]) ∨
      ∃ cid, s1.claims =
        s.claims.map (fun c => if c.id = cid then { c with is_verified := 1 } else c) := by
  cases op with
  | create a c l n d r1 r2 => exact Or.inl (create_votes_frame _ _ _ _ _ _ _ _ _ _ _ _ h).2
  | update a l n d r1 r2 => exact Or.inl (update_votes_frame _ _ _ _ _ _ _ _ _ _ h).2
  | netlink a i u => exact Or.inl (netlink_votes_frame _ _ _ _ _ _ _ _ h).2
  | newobjective a d c => exact Or.inl (newobjective_votes_frame _ _ _ _ _ _ _ _ h).2
  | updobjective o d e => exact Or.inl (updobjective_votes_frame _ _ _ _ _ _ _ _ h).2
  | upsertaction a o d r vr dl us ul v vt vs ic c =>
    exact Or.inl (upsertaction_votes_frame _ _ _ _ _ _ _ _ _ _ _ _ _ _ _ _ _ _ h).2
  | verifyaction a m v => exact Or.inl (verifyaction_votes_frame _ _ _ _ _ _ _ _ h).2
  | claimaction a m =>
    obtain ⟨-, hs, -⟩ := claimaction_eq_some _ _ _ _ _ _ _ h
    rw [hs]
    exact Or.inr (Or.inl ⟨_, rfl⟩)
  | verifyclaim c v vote =>
    rcases verifyclaim_claims _ _ _ _ _ _ _ _ h with h1 | h1
    · exact Or.inl h1
    · exact Or.inr (Or.inr ⟨c, h1⟩)
  | createsale f t d q i ts u => exact Or.inl (createsale_votes_frame _ _ _ _ _ _ _ _ _ _ _ _ h).2
  | updatesale sid t d q i ts u =>
    exact Or.inl (updatesale_votes_frame _ _ _ _ _ _ _ _ _ _ _ _ h).2
  | deletesale sid => exact Or.inl (deletesale_votes_frame _ _ _ _ _ h).2
  | reactsale sid f t => exact Or.inl (reactsale_votes_frame _ _ _ _ _ _ _ _ h).2
  | transfersale sid f t q u => exact Or.inl (transfersale_votes_frame _ _ _ _ _ _ _ _ _ _ h).2
  | setindices a b c d => exact Or.inl (setindices_votes_frame _ _ _ _ _ _ _ _ _ h).2
  | deleteact i => exact Or.inl (deleteact_votes_frame _ _ _ _ _ _ h).2

theorem run_reachable (U : Utils) (prog : List (Env × Op)) :
    ∀ s, Reachable U s → Reachable U (run U s prog).1 := by
  induction prog with
  | nil => intro s hs; exact hs
  | cons step rest ih =>
    intro s hs
    obtain ⟨env, op⟩ := step
    unfold run
    cases happ : apply U env s op with
    | none => exact ih s hs
    | some r =>
      obtain ⟨s1, calls⟩ := r
      exact ih s1 (Reachable.step env op s s1 calls hs happ)

theorem verified_blocks_votes (U : Utils) (env : Env) (s : State) (cid : Nat) (v : Name)
    (vote : Nat) (h : claim_verified s cid) : verifyclaim U env s cid v vote = none := by
  obtain ⟨c, hc, hv⟩ := h
  cases hres : verifyclaim U env s cid v vote with
  | none => rfl
  | some r =>
    obtain ⟨claim, objact, new_id, hpre, -⟩ := (verifyclaim_eq_some_iff _ _ _ _ _ _ _).mp hres
    rw [hpre.1] at hc
    cases hc
    exact absurd hpre.2.1 hv

theorem claim_verified_step (U : Utils) (env : Env) (s s1 : State) (op : Op) (k : List Call)
    (cid : Nat) (h : apply U env s op = some (s1, k)) (hv : claim_verified s cid) :
    claim_verified s1 cid := by
  obtain ⟨c, hc, hcv⟩ := hv
  rcases apply_claims _ _ _ _ _ _ h with h1 | ⟨new, h1⟩ | ⟨cid1, h1⟩
  · exact ⟨c, by rw [h1]; exact hc, hcv⟩
  · refine ⟨c, ?_, hcv⟩
    rw [h1, List.find?_append, hc]
    rfl
  · refine ⟨if c.id = cid1 then { c with is_verified := 1 } else c, ?_, ?_⟩
    · rw [h1, List.find?_map]
      have hfun : ((fun c : claim => decide (c.id = cid)) ∘
          (fun c : claim => if c.id = cid1 then { c with is_verified := 1 } else c)) =
          (fun c : claim => decide (c.id = cid)) := by
        funext x
        simp only [Function.comp]
        split <;> rfl
      rw [hfun, hc]
      rfl
    · split
      · simp
      · exact hcv

theorem exists_of_any {α : Type} (o : Option α) (P : α → Prop) [DecidablePred P]
    (h : o.any (fun r => decide (P r)) = true) : ∃ r, o = some r ∧ P r := by
  cases o with
  | none => cases h
  | some r => exact ⟨r, rfl, by simpa using h⟩

/-- C1, the code at the failing input.  In a reachable state with claims 1
and 2 on an action with `verifications = 2`, where the only stored check is a
vote 1 on claim 2, validator 2 votes 1 on claim 1: the call commits and sets
claim 1 verified, although claim 1 has a single check with vote 1 (the one
just stored).  The counter also counted the check of claim 2. -/
theorem verifyclaim_counts_checks_of_later_claims :
    Reachable demo_utils (demo_state demo_vote_on_later_claim) ∧
    ¬ claim_verified (demo_state demo_vote_on_later_claim) 1 ∧
    ((demo_state demo_vote_on_later_claim).actions.map
      (fun a => (a.id, a.verifications))) = [(1, 2)] ∧
    ∃ r,
      verifyclaim demo_utils (demo_env 2)
        (demo_state demo_vote_on_later_claim) 1 2 1 = some r ∧
      claim_verified r.1 1 ∧ (positive_checks r.1 1).length = 1 :=
  ⟨run_reachable _ _ _ Reachable.init, by decide, by decide,
    exists_of_any _ (fun r => claim_verified r.1 1 ∧ (positive_checks r.1 1).length = 1)
      (by decide)⟩

theorem checks_of_append (s : State) (n : check) (cid : Nat) (v : Name) :
    (({ s with checks := s.checks ++ [n] } : State).checks.filter
      (fun c => decide (c.claim_id = cid ∧ c.validator = v))).length =
    (checks_of s cid v).length + (if n.claim_id = cid ∧ n.validator = v then 1 else 0) := by
  unfold checks_of
  simp only [List.filter_append, List.length_append]
  by_cases hn : n.claim_id = cid ∧ n.validator = v
  · simp [List.filter, hn]
  · simp [List.filter, hn]

theorem checks_of_le_one (U : Utils) (s : State) (h : Reachable U s) (cid : Nat) (v : Name) :
    (checks_of s cid v).length ≤ 1 := by
  induction h with
  | init => simp [checks_of, State.empty]
  | step env op s s1 calls _ happ ih =>
    rcases apply_checks _ _ _ _ _ _ happ with h1 | ⟨cid1, v1, vote, new_id, h1, hdup⟩
    · unfold checks_of at *
      rw [h1]
      exact ih
    · have happend := checks_of_append s (new_check new_id cid1 v1 vote) cid v
      unfold checks_of at *
      rw [h1]
      simp only [new_check] at happend ⊢
      rw [happend]
      by_cases hn : cid1 = cid ∧ v1 = v
      · obtain ⟨rfl, rfl⟩ := hn
        have hnil : s.checks.filter (fun c => decide (c.claim_id = cid1 ∧ c.validator = v1)) = [] := by
          rw [List.filter_eq_nil_iff]
          intro c hc hcv
          exact hdup ⟨c, hc, by simpa using hcv⟩
        rw [hnil]
        simp
      · simp only [if_neg hn, Nat.add_zero]
        exact ih

/-- C2.  In every reachable state the check table has at most one row for
any pair (claim_id, validator), and a `verifyclaim` call by a validator who
already has a check on that claim aborts, whatever the vote. -/
theorem vote_uniqueness (U : Utils) (s : State) (h : Reachable U s) :
    (∀ cid v, (checks_of s cid v).length ≤ 1) ∧
    (∀ env cid v vote, checks_of s cid v ≠ [] → verifyclaim U env s cid v vote = none) := by
  refine ⟨fun cid v => checks_of_le_one U s h cid v, ?_⟩
  intro env cid v vote hne
  obtain ⟨c, hc⟩ := List.exists_mem_of_ne_nil _ hne
  unfold checks_of at hc
  obtain ⟨hmem, hcv⟩ := List.mem_filter.mp hc
  cases hres : verifyclaim U env s cid v vote with
  | none => rfl
  | some r =>
    obtain ⟨s1, k⟩ := r
    exact absurd ⟨c, hmem, by simpa using hcv⟩ (verifyclaim_checks _ _ _ _ _ _ _ _ hres).2

/-- C2 at a reachable state that holds a check of validator 1 on claim 2. -/
theorem vote_uniqueness_witness :
    Reachable demo_utils (demo_state demo_vote_on_later_claim) ∧
    ((∀ cid v, (checks_of (demo_state demo_vote_on_later_claim) cid v).length
        ≤ 1) ∧
     (∀ env cid v vote,
        checks_of (demo_state demo_vote_on_later_claim) cid v ≠ [] →
        verifyclaim demo_utils env (demo_state demo_vote_on_later_claim)
          cid v vote = none)) :=
  ⟨run_reachable _ _ _ Reachable.init,
   vote_uniqueness demo_utils _ (run_reachable _ _ _ Reachable.init)⟩

theorem verifyclaim_rewards (U : Utils) (env : Env) (s s1 : State) (cid : Nat) (v : Name)
    (vote : Nat) (k : List Call) (h : verifyclaim U env s cid v vote = some (s1, k)) :
    (k.filter is_action_reward).length ≤ 1 ∧
      ((k.filter is_action_reward).length ≠ 0 → claim_verified s1 cid) := by
  obtain ⟨claim, objact, new_id, hpre, hr⟩ := (verifyclaim_eq_some_iff _ _ _ _ _ _ _).mp h
  have hmemo : decide (memo_verification = memo_action) = false := by decide
  by_cases hv : verifies s cid objact new_id v vote
  · simp only [verifyclaim_commit, if_pos hv] at hr
    cases hr
    constructor
    · by_cases h1 : objact.verifier_reward.amount > 0 <;>
        by_cases h2 : objact.reward.amount > 0 <;>
        simp [h1, h2, List.filter, is_action_reward, hmemo]
    · intro _
      refine ⟨{ claim with is_verified := 1 }, ?_, by simp⟩
      simp only
      rw [List.find?_map]
      have hfun : ((fun c : bespiral.claim => decide (c.id = cid)) ∘
          (fun c : bespiral.claim => if c.id = cid then { c with is_verified := 1 } else c)) =
          (fun c : bespiral.claim => decide (c.id = cid)) := by
        funext x
        simp only [Function.comp]
        split <;> rfl
      rw [hfun, hpre.1]
      simp [claim_find_id _ _ _ hpre.1]
  · simp only [verifyclaim_commit, if_neg hv] at hr
    cases hr
    by_cases h1 : objact.verifier_reward.amount > 0 <;>
      simp [h1, List.filter, is_action_reward, hmemo]

theorem claim_verified_run (U : Utils) (cid : Nat) (prog : List (Env × Op)) :
    ∀ s, claim_verified s cid →
      claim_verified (run U s prog).1 cid ∧ claimer_rewards cid (run U s prog).2 = 0 := by
  induction prog with
  | nil => intro s hs; exact ⟨hs, rfl⟩
  | cons step rest ih =>
    intro s hs
    obtain ⟨env, op⟩ := step
    unfold run
    cases happ : apply U env s op with
    | none =>
      refine ⟨(ih s hs).1, ?_⟩
      simp only
      cases op <;> simp [claimer_rewards, (ih s hs).2]
    | some r =>
      obtain ⟨s1, calls⟩ := r
      have hs1 := claim_verified_step _ _ _ _ _ _ _ happ hs
      refine ⟨(ih s1 hs1).1, ?_⟩
      simp only
      cases op with
      | verifyclaim c v vote =>
        by_cases hc : c = cid
        · subst hc
          have := verified_blocks_votes U env s c v vote hs
          simp only [apply] at happ
          rw [this] at happ
          cases happ
        · simp [claimer_rewards, hc, (ih s1 hs1).2]
      | _ => simp [claimer_rewards, (ih s1 hs1).2]

theorem claimer_rewards_le_one (U : Utils) (cid : Nat) (prog : List (Env × Op)) :
    ∀ s, claimer_rewards cid (run U s prog).2 ≤ 1 := by
  induction prog with
  | nil => intro s; simp [run, claimer_rewards]
  | cons step rest ih =>
    intro s
    obtain ⟨env, op⟩ := step
    unfold run
    cases happ : apply U env s op with
    | none =>
      simp only
      cases op <;> simp [claimer_rewards, ih s]
    | some r =>
      obtain ⟨s1, calls⟩ := r
      simp only
      cases op with
      | verifyclaim c v vote =>
        by_cases hc : c = cid
        · subst hc
          simp only [apply] at happ
          obtain ⟨hle, hver⟩ := verifyclaim_rewards _ _ _ _ _ _ _ _ happ
          simp only [claimer_rewards, if_true]
          by_cases hz : (calls.filter is_action_reward).length = 0
          · rw [hz]
            have := ih s1
            omega
          · have := (claim_verified_run U c rest s1 (hver hz)).2
            omega
        · simp [claimer_rewards, hc, ih s1]
      | _ => simp [claimer_rewards, ih s1]

/-- C3.  Claim verification is one-shot.  For every state and every sequence
of calls of the contract run from it: a claim that is verified is still
verified afterwards, every `verifyclaim` on it after the sequence aborts, and
over the whole sequence the committed `verifyclaim` calls on one claim issue
the action reward at most once. -/
theorem claim_verified_once (U : Utils) (s : State) (prog : List (Env × Op)) (cid : Nat) :
    (claim_verified s cid →
      claim_verified (run U s prog).1 cid ∧
      ∀ env v vote, verifyclaim U env (run U s prog).1 cid v vote = none) ∧
    claimer_rewards cid (run U s prog).2 ≤ 1 := by
  refine ⟨fun hs => ?_, claimer_rewards_le_one U cid prog s⟩
  have h := (claim_verified_run U cid prog s hs).1
  exact ⟨h, fun env v vote => verified_blocks_votes U env _ cid v vote h⟩

theorem action_find_id (l : List action) (aid : Nat) (a : action)
    (h : l.find? (fun a => decide (a.id = aid)) = some a) : a.id = aid := by
  simpa using List.find?_some h

theorem verified_after_commit (s : State) (cid : Nat) (c : claim)
    (hc : s.claims.find? (fun c => decide (c.id = cid)) = some c) :
    (s.claims.map (fun c => if c.id = cid then { c with is_verified := 1 } else c)).find?
      (fun c => decide (c.id = cid)) = some { c with is_verified := 1 } := by
  rw [List.find?_map]
  have hfun : ((fun c : claim => decide (c.id = cid)) ∘
      (fun c : claim => if c.id = cid then { c with is_verified := 1 } else c)) =
      (fun c : claim => decide (c.id = cid)) := by
    funext x
    simp only [Function.comp]
    split <;> rfl
  rw [hfun, hc]
  simp [claim_find_id _ _ _ hc]

theorem action_after_commit (l : List action) (aid : Nat) (a : action) (f : action → action)
    (hf : ∀ x, (f x).id = x.id)
    (ha : l.find? (fun a => decide (a.id = aid)) = some a) :
    (l.map (fun x => if x.id = aid then f x else x)).find? (fun a => decide (a.id = aid)) =
      some (f a) := by
  rw [List.find?_map]
  have hfun : ((fun a : action => decide (a.id = aid)) ∘
      (fun x : action => if x.id = aid then f x else x)) =
      (fun a : action => decide (a.id = aid)) := by
    funext x
    simp only [Function.comp]
    split
    · rw [hf]
    · rfl
  rw [hfun, ha]
  simp [action_find_id _ _ _ ha]

theorem verifyclaim_verified_iff (U : Utils) (env : Env) (s : State) (cid : Nat) (v : Name)
    (vote : Nat) (claim : claim) (objact : action) (new_id : Nat)
    (hpre : verifyclaim_pre U env s cid v claim objact new_id) :
    claim_verified (verifyclaim_commit s cid v vote claim objact new_id).1 cid ↔
      verifies s cid objact new_id v vote := by
  by_cases hv : verifies s cid objact new_id v vote
  · simp only [verifyclaim_commit, if_pos hv]
    refine ⟨fun _ => hv, fun _ => ?_⟩
    exact ⟨_, verified_after_commit s cid claim hpre.1, by simp⟩
  · simp only [verifyclaim_commit, if_neg hv]
    refine ⟨fun hcl => ?_, fun h => absurd h hv⟩
    exfalso
    obtain ⟨c, hc, hcv⟩ := hcl
    rw [hpre.1] at hc
    cases hc
    exact hcv hpre.2.1

/-- C7.  A committed `verifyclaim` issues the action's `verifier_reward` to
the verifier once when its amount is positive and not at all otherwise,
whatever the vote.  With `vote = 0` it does nothing else than append the one
check `(claim_id, verifier, 0)`: the claim table, the action table and every
other table are as before, and the verifier reward is the only call sent. -/
theorem negative_vote_effect (U : Utils) (env : Env) (s s1 : State) (cid : Nat) (v : Name)
    (vote : Nat) (calls : List Call) (h : verifyclaim U env s cid v vote = some (s1, calls)) :
    ∃ claim objact new_id,
      s.claims.find? (fun c => decide (c.id = cid)) = some claim ∧
      s.actions.find? (fun a => decide (a.id = claim.action_id)) = some objact ∧
      calls.count (Call.issue v objact.verifier_reward memo_verification) =
        (if objact.verifier_reward.amount > 0 then 1 else 0) ∧
      (vote = 0 →
        s1 = { s with checks := s.checks ++ [new_check new_id cid v 0] } ∧
        s1.claims = s.claims ∧ s1.actions = s.actions ∧
        calls = if objact.verifier_reward.amount > 0
          then [Call.issue v objact.verifier_reward memo_verification] else []) := by
  obtain ⟨claim, objact, new_id, hpre, hr⟩ := (verifyclaim_eq_some_iff _ _ _ _ _ _ _).mp h
  refine ⟨claim, objact, new_id, hpre.1, hpre.2.2.1, ?_, ?_⟩
  · have hmemo : ¬ memo_verification = memo_action := by decide
    have hother : (if objact.reward.amount > 0
        then [Call.issue claim.claimer objact.reward memo_action] else []).count
          (Call.issue v objact.verifier_reward memo_verification) = 0 := by
      rw [List.count_eq_zero]
      intro hmem
      split at hmem
      · rw [List.mem_singleton] at hmem
        injection hmem with _ _ hm
        exact hmemo hm
      · cases hmem
    by_cases hv : verifies s cid objact new_id v vote
    · simp only [verifyclaim_commit, if_pos hv] at hr
      cases hr
      rw [List.count_append, hother]
      by_cases h1 : objact.verifier_reward.amount > 0 <;> simp [h1]
    · simp only [verifyclaim_commit, if_neg hv] at hr
      cases hr
      by_cases h1 : objact.verifier_reward.amount > 0 <;> simp [h1]
  · intro hv0
    have hv : ¬ verifies s cid objact new_id v vote := fun hv => hv.1 hv0
    simp only [verifyclaim_commit, if_neg hv] at hr
    cases hr
    subst hv0
    exact ⟨rfl, rfl, rfl, rfl⟩

/-- C10.  A committed `verifyclaim` runs on a claim that is not verified and
an action that is not completed.  When it verifies the claim it stores, for
the claim's action, `usages_left - 1` (the `uint64_t` decrement: exactly one
less than a previous value of at least 1) and sets `is_completed` to 1 exactly
when `usages > 0` and the decremented `usages_left` is zero, leaving it 0
otherwise; every other field and every other action row is as before.  When
it does not verify the claim the action table is unchanged. -/
theorem claimable_completion (U : Utils) (env : Env) (s s1 : State) (cid : Nat) (v : Name)
    (vote : Nat) (calls : List Call) (h : verifyclaim U env s cid v vote = some (s1, calls)) :
    ∃ claim objact,
      s.claims.find? (fun c => decide (c.id = cid)) = some claim ∧
      claim.is_verified = 0 ∧
      s.actions.find? (fun a => decide (a.id = claim.action_id)) = some objact ∧
      objact.is_completed = 0 ∧
      (claim_verified s1 cid →
        s1.actions = s.actions.map (fun a => if a.id = objact.id then
          { a with usages_left := dec64 objact.usages_left,
                   is_completed := if objact.usages > 0 ∧ dec64 objact.usages_left = 0 then 1
                                   else a.is_completed }
          else a) ∧
        ∃ a1, s1.actions.find? (fun a => decide (a.id = objact.id)) = some a1 ∧
          a1.usages_left = dec64 objact.usages_left ∧
          (1 ≤ objact.usages_left → objact.usages_left < UINT64 →
            a1.usages_left + 1 = objact.usages_left) ∧
          (a1.is_completed = 1 ↔ objact.usages > 0 ∧ a1.usages_left = 0) ∧
          (a1.is_completed = 1 ∨ a1.is_completed = 0) ∧
          a1 = { objact with usages_left := a1.usages_left, is_completed := a1.is_completed }) ∧
      (¬ claim_verified s1 cid → s1.actions = s.actions) := by
  obtain ⟨claim, objact, new_id, hpre, hr⟩ := (verifyclaim_eq_some_iff _ _ _ _ _ _ _).mp h
  have hiff := verifyclaim_verified_iff U env s cid v vote claim objact new_id hpre
  rw [← hr] at hiff
  simp only at hiff
  have haid : objact.id = claim.action_id := action_find_id _ _ _ hpre.2.2.1
  have hcompl : objact.is_completed = 0 := hpre.2.2.2.2.2.1
  refine ⟨claim, objact, hpre.1, hpre.2.1, hpre.2.2.1, hcompl, ?_, ?_⟩
  · intro hver
    have hv := hiff.mp hver
    simp only [verifyclaim_commit, if_pos hv] at hr
    cases hr
    refine ⟨rfl, ?_⟩
    have hfind := action_after_commit s.actions objact.id objact
      (fun a => { a with usages_left := dec64 objact.usages_left,
                         is_completed := if objact.usages > 0 ∧ dec64 objact.usages_left = 0
                                         then 1 else a.is_completed })
      (fun _ => rfl) (by rw [haid]; exact hpre.2.2.1)
    refine ⟨_, hfind, rfl, ?_, ?_, ?_, rfl⟩
    · intro h1 h2
      simp only [dec64, UINT64] at *
      omega
    · simp only [hcompl]
      by_cases hc : objact.usages > 0 ∧ dec64 objact.usages_left = 0
      · simp [hc]
      · simp only [if_neg hc]
        constructor
        · intro h0; cases h0
        · intro h1; exact absurd h1 hc
    · simp only [hcompl]
      by_cases hc : objact.usages > 0 ∧ dec64 objact.usages_left = 0
      · simp [hc]
      · simp [hc]
  · intro hver
    have hv : ¬ verifies s cid objact new_id v vote := fun hv => hver (hiff.mpr hv)
    simp only [verifyclaim_commit, if_neg hv] at hr
    cases hr
    rfl

/-- C4, the code at the failing input.  In a reachable state with claims 1
and 2 on one action, validator 3 has voted on claim 2 only and validator 1 on
claim 1 only.  Every listed precondition of `verifyclaim(1, 3, 1)` holds, yet
the call aborts: the scan for an earlier check of the verifier runs from the
first check of claim 1 to the end of the index and meets the verifier's check
on claim 2. -/
theorem verifyclaim_rejects_for_check_of_later_claim :
    Reachable demo_utils (demo_state demo_negative_on_both_claims) ∧
    listed_preconditions demo_utils (demo_env 3)
      (demo_state demo_negative_on_both_claims) 1 3 = true ∧
    (demo_state demo_negative_on_both_claims).checks =
      [new_check 0 2 3 0, new_check 1 1 1 0] ∧
    verifyclaim demo_utils (demo_env 3)
      (demo_state demo_negative_on_both_claims) 1 3 1 = none :=
  ⟨run_reachable _ _ _ Reachable.init, by decide, by decide, by decide⟩

/-- C6, the code at the failing input.  In a reachable state where validator
3 has voted on claim 2 and claim 1 has no check, `verifyclaim(1, 3, 1)` would
commit.  After the committed negative vote `verifyclaim(1, 1, 0)` of validator
1 the same call aborts. -/
theorem negative_vote_blocks_other_validator :
    Reachable demo_utils (demo_state demo_negative_on_later_claim) ∧
    (verifyclaim demo_utils (demo_env 3)
      (demo_state demo_negative_on_later_claim) 1 3 1).isSome = true ∧
    ∃ r, verifyclaim demo_utils (demo_env 1)
        (demo_state demo_negative_on_later_claim) 1 1 0 = some r ∧
      verifyclaim demo_utils (demo_env 3) r.1 1 3 1 = none :=
  ⟨run_reachable _ _ _ Reachable.init, by decide,
    exists_of_any _ (fun r => verifyclaim demo_utils (demo_env 3) r.1 1 3 1 = none) (by decide)⟩

/-- C8, the code at the failing input.  An unlimited automatic action is
created with `usages = 0` and `usages_left = 0`; its first committed
`verifyaction` stores `usages_left = 2^64 - 1`, which is greater than the value
before the call. -/
theorem verifyaction_wraps_usages_left :
    Reachable demo_utils (demo_state demo_unlimited_automatic) ∧
    usage_rows (demo_state demo_unlimited_automatic) = [(1, 0, 0, 0)] ∧
    ∃ r, verifyaction demo_utils (demo_env 1)
        (demo_state demo_unlimited_automatic) 1 2 1 = some r ∧
      usage_rows r.1 = [(1, 0, 18446744073709551615, 0)] :=
  ⟨run_reachable _ _ _ Reachable.init, by decide,
    exists_of_any _ (fun r => usage_rows r.1 = [(1, 0, 18446744073709551615, 0)]) (by decide)⟩

/-- C9, the code at the failing input.  An automatic action with `usages = 1`
is not completed by its first committed `verifyaction` although `usages_left`
is then 0; an automatic action with `usages = 3` is completed by its second
committed `verifyaction` although `usages_left` is then 1. -/
theorem verifyaction_completes_one_early :
    Reachable demo_utils (demo_state demo_single_use) ∧
    usage_rows (demo_state demo_single_use) = [(1, 1, 1, 0)] ∧
    (∃ r, verifyaction demo_utils (demo_env 1)
        (demo_state demo_single_use) 1 2 1 = some r ∧
      usage_rows r.1 = [(1, 1, 0, 0)]) ∧
    Reachable demo_utils (demo_state demo_triple_use_once) ∧
    usage_rows (demo_state demo_triple_use_once) = [(1, 3, 2, 0)] ∧
    (∃ r, verifyaction demo_utils (demo_env 1)
        (demo_state demo_triple_use_once) 1 2 1 = some r ∧
      usage_rows r.1 = [(1, 3, 1, 1)]) :=
  ⟨run_reachable _ _ _ Reachable.init, by decide,
    exists_of_any _ (fun r => usage_rows r.1 = [(1, 1, 0, 0)]) (by decide),
    run_reachable _ _ _ Reachable.init, by decide,
    exists_of_any _ (fun r => usage_rows r.1 = [(1, 3, 1, 1)]) (by decide)⟩

theorem find?_append_fresh (l : List claim) (n : claim) (cid : Nat)
    (h : ∀ c ∈ l, c.id ≠ cid) (hn : n.id = cid) :
    (l ++ [n]).find? (fun c => decide (c.id = cid)) = some n := by
  rw [List.find?_append]
  have hnone : l.find? (fun c => decide (c.id = cid)) = none := by
    rw [List.find?_eq_none]
    intro c hc
    simpa using h c hc
  rw [hnone]
  simp [hn]

theorem check_counter_first (cid : Nat) (v : Name) :
    check_counter ([] ++ [new_check 0 cid v 1]) cid = 1 := by
  unfold check_counter
  rw [byclaim_find_count]
  simp [new_check]

theorem check_counter_second (cid : Nat) (v1 v2 : Name) :
    check_counter ([new_check 0 cid v1 1] ++ [new_check 1 cid v2 1]) cid = 2 := by
  unfold check_counter
  rw [byclaim_find_count]
  simp [new_check]

/-- C5, as amended.  Take a stored action with `verifications = 2`, `usages >
0` and a `uint64_t` value of `usages_left`, an empty check table, a committed `claimaction` on the action and
then two committed `verifyclaim` calls with vote 1 on the new claim.  The claim
is not verified after the first vote and is verified after the second; over
the two votes the action reward is issued exactly once, to the claimer, when
its amount is positive, and not at all when it is zero; the action's
`usages_left` ends exactly one less than before. -/
theorem two_of_three (U : Utils) (env0 env1 env2 : Env) (s s1 s2 s3 : State)
    (k0 k1 k2 : List Call) (a : action) (maker v1 v2 : Name)
    (hact : s.actions.find? (fun x => decide (x.id = a.id)) = some a)
    (hver : a.verifications = 2) (husages : a.usages > 0) (hrange : a.usages_left < UINT64)
    (hchecks : s.checks = [])
    (hclaim : claimaction U env0 s a.id maker = some (s1, k0))
    (hv1 : verifyclaim U env1 s1 (inc64 s.curr_indexes.last_used_claim_id) v1 1 = some (s2, k1))
    (hv2 : verifyclaim U env2 s2 (inc64 s.curr_indexes.last_used_claim_id) v2 1 = some (s3, k2)) :
    ¬ claim_verified s2 (inc64 s.curr_indexes.last_used_claim_id) ∧
    claim_verified s3 (inc64 s.curr_indexes.last_used_claim_id) ∧
    (k1 ++ k2).filter is_action_reward =
      (if a.reward.amount > 0 then [Call.issue maker a.reward memo_action] else []) ∧
    ∃ a3, s3.actions.find? (fun x => decide (x.id = a.id)) = some a3 ∧
      a3.usages_left + 1 = a.usages_left := by
  obtain ⟨-, hs1, hfresh⟩ := claimaction_eq_some _ _ _ _ _ _ _ hclaim
  generalize inc64 s.curr_indexes.last_used_claim_id = cid at *
  have hmemo : decide (memo_verification = memo_action) = false := by decide
  -- the first vote
  obtain ⟨c1, o1, id1, hpre1, hr1⟩ := (verifyclaim_eq_some_iff _ _ _ _ _ _ _).mp hv1
  have hc1 : c1 = { id := cid, action_id := a.id, claimer := maker, is_verified := 0 } := by
    have h := hpre1.1
    rw [hs1] at h
    simp only at h
    rw [find?_append_fresh s.claims _ cid hfresh rfl] at h
    exact (Option.some.inj h).symm
  have ho1 : o1 = a := by
    have h := hpre1.2.2.1
    rw [hs1, hc1] at h
    simp only at h
    rw [hact] at h
    exact (Option.some.inj h).symm
  have hid1 : id1 = 0 := by
    have h := hpre1.2.2.2.2.2.2.2.2.2
    rw [hs1] at h
    simp only [hchecks, List.map_nil] at h
    exact (Option.some.inj h).symm
  have hleft : a.usages_left ≥ 1 := by
    have h := hpre1.2.2.2.2.2.2.2.1
    rw [ho1] at h
    exact h husages
  subst ho1 hid1
  have hnv1 : ¬ verifies s1 cid o1 0 v1 1 := by
    intro h
    have h2 := h.2
    rw [hs1] at h2
    simp only [hchecks] at h2
    rw [check_counter_first, hver] at h2
    omega
  simp only [verifyclaim_commit, if_neg hnv1] at hr1
  cases hr1
  -- the second vote
  obtain ⟨c2, o2, id2, hpre2, hr2⟩ := (verifyclaim_eq_some_iff _ _ _ _ _ _ _).mp hv2
  have hclaims2 : s1.claims.find? (fun c => decide (c.id = cid)) = some c1 := hpre1.1
  have hc2 : c2 = c1 := by
    have h := hpre2.1
    simp only at h
    rw [hclaims2] at h
    exact (Option.some.inj h).symm
  have ho2 : o2 = o1 := by
    have h := hpre2.2.2.1
    simp only at h
    rw [hc2, hpre1.2.2.1] at h
    exact (Option.some.inj h).symm
  have hid2 : id2 = 1 := by
    have h := hpre2.2.2.2.2.2.2.2.2.2
    rw [hs1] at h
    simp only [hchecks, List.nil_append, List.map_cons, List.map_nil, new_check] at h
    exact (Option.some.inj h).symm
  subst hc2 ho2 hid2
  have hv2' : verifies { s1 with checks := s1.checks ++ [new_check 0 cid v1 1] } cid o2 1 v2 1 := by
    refine ⟨by omega, ?_⟩
    rw [hs1]
    simp only [hchecks, List.nil_append]
    rw [check_counter_second, hver]
  simp only [verifyclaim_commit, if_pos hv2'] at hr2
  cases hr2
  have hs1a : s1.actions = s.actions := by rw [hs1]
  refine ⟨?_, ?_, ?_, ?_⟩
  · rintro ⟨c, hc, hcv⟩
    simp only at hc
    rw [hclaims2] at hc
    cases hc
    exact hcv hpre1.2.1
  · exact ⟨_, verified_after_commit _ cid c2 hclaims2, by simp⟩
  · rw [hc1]
    by_cases h1 : o2.verifier_reward.amount > 0 <;>
      by_cases h2 : o2.reward.amount > 0 <;>
      simp [h1, h2, List.filter, is_action_reward, hmemo]
  · have hfind := action_after_commit s.actions o2.id o2
      (fun x => { x with usages_left := dec64 o2.usages_left,
                         is_completed := if o2.usages > 0 ∧ dec64 o2.usages_left = 0
                                         then 1 else x.is_completed })
      (fun _ => rfl) hact
    refine ⟨_, by simp only [hs1a]; exact hfind, ?_⟩
    simp only [dec64, UINT64] at *
    omega

theorem demo_state_reachable (prog : List (Env × Op)) : Reachable demo_utils (demo_state prog) :=
  run_reachable demo_utils prog State.empty Reachable.init

/-- C3 at a state where claim 2 is verified, followed by another vote on
claim 2 and a new claim. -/
theorem claim_verified_once_witness :
    claim_verified (demo_state demo_later_claim_verified) 2 ∧
    (claim_verified
        (run demo_utils (demo_state demo_later_claim_verified)
          [(demo_env 3, .verifyclaim 2 3 1), (demo_env 4, .claimaction 1 4)]).1 2 ∧
      ∀ env v vote, verifyclaim demo_utils env
        (run demo_utils (demo_state demo_later_claim_verified)
          [(demo_env 3, .verifyclaim 2 3 1), (demo_env 4, .claimaction 1 4)]).1 2 v vote = none) ∧
    claimer_rewards 2
      (run demo_utils (demo_state demo_later_claim_verified)
        [(demo_env 3, .verifyclaim 2 3 1), (demo_env 4, .claimaction 1 4)]).2 ≤ 1 :=
  ⟨by decide,
   (claim_verified_once demo_utils (demo_state demo_later_claim_verified)
      [(demo_env 3, .verifyclaim 2 3 1), (demo_env 4, .claimaction 1 4)] 2).1 (by decide),
   (claim_verified_once demo_utils (demo_state demo_later_claim_verified)
      [(demo_env 3, .verifyclaim 2 3 1), (demo_env 4, .claimaction 1 4)] 2).2⟩

/-- C5 as stated fails when the reward is zero: the action has `verifications
= 2`, `usages = 3`, reward 0 and validators 1, 2, 3, no check is stored,
account 4 opens claim 1 and validators 1 and 2 vote 1.  Both votes commit and
the second verifies the claim, but neither sends any call: the action reward is
issued to nobody. -/
theorem zero_reward_is_not_issued :
    Reachable demo_utils (demo_state demo_zero_reward) ∧
    (demo_state demo_zero_reward).actions.map
      (fun a => (a.id, a.reward, a.verifications, a.usages, a.usages_left)) =
      [(1, ⟨0, 7⟩, 2, 3, 3)] ∧
    (demo_state demo_zero_reward).validators.map (fun v => (v.scope, v.validator)) =
      [(1, 1), (1, 2), (1, 3)] ∧
    (demo_state demo_zero_reward).checks = [] ∧
    claimaction demo_utils (demo_env 4) (demo_state demo_zero_reward) 1 4 =
      some (demo_state demo_zero_reward_claim, []) ∧
    verifyclaim demo_utils (demo_env 1) (demo_state demo_zero_reward_claim) 1 1 1 =
      some (demo_state demo_zero_reward_vote, []) ∧
    verifyclaim demo_utils (demo_env 2) (demo_state demo_zero_reward_vote) 1 2 1 =
      some (demo_state demo_zero_reward_votes, []) ∧
    ¬ claim_verified (demo_state demo_zero_reward_vote) 1 ∧
    claim_verified (demo_state demo_zero_reward_votes) 1 :=
  ⟨demo_state_reachable _, by decide, by decide, by decide, by decide, by decide, by decide,
   by decide, by decide⟩

/-- C5 as amended, at the worked example with reward 5: validators 1 and 2
vote 1 on the claim of account 4. -/
theorem two_of_three_witness :
    ((demo_state demo_claimable).actions.find? (fun x => decide (x.id = demo_action.id)) =
        some demo_action ∧
      (demo_state demo_claimable).checks = [] ∧
      claimaction demo_utils (demo_env 4) (demo_state demo_claimable) demo_action.id 4 =
        some (demo_state demo_claimable_claim, []) ∧
      verifyclaim demo_utils (demo_env 1) (demo_state demo_claimable_claim)
        (inc64 (demo_state demo_claimable).curr_indexes.last_used_claim_id) 1 1 =
        some (demo_state demo_claimable_vote, []) ∧
      verifyclaim demo_utils (demo_env 2) (demo_state demo_claimable_vote)
        (inc64 (demo_state demo_claimable).curr_indexes.last_used_claim_id) 2 1 =
        some (demo_state demo_claimable_votes, [Call.issue 4 ⟨5, 7⟩ memo_action])) ∧
    (¬ claim_verified (demo_state demo_claimable_vote)
        (inc64 (demo_state demo_claimable).curr_indexes.last_used_claim_id) ∧
      claim_verified (demo_state demo_claimable_votes)
        (inc64 (demo_state demo_claimable).curr_indexes.last_used_claim_id) ∧
      ([] ++ [Call.issue 4 ⟨5, 7⟩ memo_action]).filter is_action_reward =
        (if demo_action.reward.amount > 0 then [Call.issue 4 demo_action.reward memo_action]
         else []) ∧
      ∃ a3, (demo_state demo_claimable_votes).actions.find?
          (fun x => decide (x.id = demo_action.id)) = some a3 ∧
        a3.usages_left + 1 = demo_action.usages_left) :=
  ⟨⟨by decide, by decide, by decide, by decide, by decide⟩,
   two_of_three demo_utils (demo_env 4) (demo_env 1) (demo_env 2)
     (demo_state demo_claimable) (demo_state demo_claimable_claim)
     (demo_state demo_claimable_vote) (demo_state demo_claimable_votes)
     [] [] [Call.issue 4 ⟨5, 7⟩ memo_action] demo_action 4 1 2
     (by decide) (by decide) (by decide) (by decide) (by decide) (by decide) (by decide)
     (by decide)⟩

/-- C7 at the worked example: validator 1 votes 0 on claim 1. -/
theorem negative_vote_effect_witness :
    verifyclaim demo_utils (demo_env 1) (demo_state demo_negative_on_later_claim) 1 1 0 =
      some (demo_state demo_negative_on_both_claims, []) ∧
    ∃ claim objact new_id,
      (demo_state demo_negative_on_later_claim).claims.find? (fun c => decide (c.id = 1)) =
        some claim ∧
      (demo_state demo_negative_on_later_claim).actions.find?
        (fun a => decide (a.id = claim.action_id)) = some objact ∧
      ([] : List Call).count (Call.issue 1 objact.verifier_reward memo_verification) =
        (if objact.verifier_reward.amount > 0 then 1 else 0) ∧
      ((0 : Nat) = 0 →
        demo_state demo_negative_on_both_claims =
          { demo_state demo_negative_on_later_claim with
            checks := (demo_state demo_negative_on_later_claim).checks ++
              [new_check new_id 1 1 0] } ∧
        (demo_state demo_negative_on_both_claims).claims =
          (demo_state demo_negative_on_later_claim).claims ∧
        (demo_state demo_negative_on_both_claims).actions =
          (demo_state demo_negative_on_later_claim).actions ∧
        ([] : List Call) = if objact.verifier_reward.amount > 0
          then [Call.issue 1 objact.verifier_reward memo_verification] else []) :=
  ⟨by decide,
   negative_vote_effect demo_utils (demo_env 1) (demo_state demo_negative_on_later_claim)
     (demo_state demo_negative_on_both_claims) 1 1 0 [] (by decide)⟩

/-- C10 at the worked example: the second vote 1 on claim 2 verifies it. -/
theorem claimable_completion_witness :
    verifyclaim demo_utils (demo_env 2) (demo_state demo_vote_on_later_claim) 2 2 1 =
      some (demo_state demo_later_claim_verified, [Call.issue 4 ⟨5, 7⟩ memo_action]) ∧
    ∃ claim objact,
      (demo_state demo_vote_on_later_claim).claims.find? (fun c => decide (c.id = 2)) =
        some claim ∧
      claim.is_verified = 0 ∧
      (demo_state demo_vote_on_later_claim).actions.find?
        (fun a => decide (a.id = claim.action_id)) = some objact ∧
      objact.is_completed = 0 ∧
      (claim_verified (demo_state demo_later_claim_verified) 2 →
        (demo_state demo_later_claim_verified).actions =
          (demo_state demo_vote_on_later_claim).actions.map (fun a =>
            if a.id = objact.id then
              { a with usages_left := dec64 objact.usages_left,
                       is_completed := if objact.usages > 0 ∧ dec64 objact.usages_left = 0 then 1
                                       else a.is_completed }
            else a) ∧
        ∃ a1, (demo_state demo_later_claim_verified).actions.find?
            (fun a => decide (a.id = objact.id)) = some a1 ∧
          a1.usages_left = dec64 objact.usages_left ∧
          (1 ≤ objact.usages_left → objact.usages_left < UINT64 →
            a1.usages_left + 1 = objact.usages_left) ∧
          (a1.is_completed = 1 ↔ objact.usages > 0 ∧ a1.usages_left = 0) ∧
          (a1.is_completed = 1 ∨ a1.is_completed = 0) ∧
          a1 = { objact with usages_left := a1.usages_left, is_completed := a1.is_completed }) ∧
      (¬ claim_verified (demo_state demo_later_claim_verified) 2 →
        (demo_state demo_later_claim_verified).actions =
          (demo_state demo_vote_on_later_claim).actions) :=
  ⟨by decide,
   claimable_completion demo_utils (demo_env 2) (demo_state demo_vote_on_later_claim)
     (demo_state demo_later_claim_verified) 2 2 1 [Call.issue 4 ⟨5, 7⟩ memo_action] (by decide)⟩

theorem upsertaction_actions (U : Utils) (env : Env) (s s1 : State) (action_id objective_id : Nat)
    (description : String) (reward verifier_reward : Asset)
    (deadline usages usages_left verifications : Nat)
    (verification_type validators_str : String) (is_completed : Nat) (creator : Name)
    (k : List Call)
    (h : upsertaction U env s action_id objective_id description reward verifier_reward deadline
      usages usages_left verifications verification_type validators_str is_completed creator
        = some (s1, k)) :
    k = [] ∧
    reward.amount ≥ 0 ∧ verifier_reward.amount ≥ 0 ∧ usages ≤ 1000 ∧
    (verifications = 0 ∨ verifications ≥ 2) ∧
    (∃ obj, s.objectives.find? (fun o => decide (o.id = objective_id)) = some obj ∧
      reward.symbol = obj.community ∧ verifier_reward.symbol = obj.community) ∧
    (action_id = 0 →
      s1.actions = s.actions ++
        [created_action (inc64 s.curr_indexes.last_used_action_id) objective_id description
          reward verifier_reward deadline usages verifications verification_type creator] ∧
      (∀ a ∈ s.actions, a.id ≠ inc64 s.curr_indexes.last_used_action_id) ∧
      s1.curr_indexes = { s.curr_indexes with
        last_used_action_id := inc64 s.curr_indexes.last_used_action_id }) ∧
    (action_id ≠ 0 →
      (∃ a, s.actions.find? (fun a => decide (a.id = action_id)) = some a) ∧
      s1.actions = s.actions.map (fun a => if a.id = action_id then
        replaced_action a description reward verifier_reward deadline usages usages_left
          verifications verification_type is_completed else a) ∧
      s1.curr_indexes = s.curr_indexes) := by
  unfold upsertaction at h
  simp only [Option.ite_none_left_eq_some] at h
  obtain ⟨-, -, h⟩ := h
  split at h
  · cases h
  rename_i obj hobj
  split at h
  · cases h
  split at h
  · cases h
  simp only [Option.ite_none_left_eq_some] at h
  obtain ⟨-, hr, hrs, -, hvr, hvrs, -, -, hus, -, hv, h⟩ := h
  have hr' : reward.amount ≥ 0 := not_not.mp hr
  have hvr' : verifier_reward.amount ≥ 0 := not_not.mp hvr
  have hus' : usages ≤ 1000 := by omega
  have hv' : verifications = 0 ∨ verifications ≥ 2 := by omega
  split at h
  · cases h
  rename_i act_id s2 hup
  have hfin : k = [] ∧ s1.actions = s2.actions ∧ s1.curr_indexes = s2.curr_indexes := by
    split at h
    · simp only [Option.ite_none_left_eq_some] at h
      obtain ⟨-, -, -, h⟩ := h
      split at h
      · cases h
      · cases h
        exact ⟨rfl, rfl, rfl⟩
    · cases h
      exact ⟨rfl, rfl, rfl⟩
  refine ⟨hfin.1, hr', hvr', hus', hv', ⟨obj, hobj, not_not.mp hrs, not_not.mp hvrs⟩, ?_, ?_⟩
  · intro h0
    rw [if_pos h0] at hup
    have hg : get_available_id s "actions" = some (inc64 s.curr_indexes.last_used_action_id,
        { s with curr_indexes := { s.curr_indexes with
            last_used_action_id := inc64 s.curr_indexes.last_used_action_id } }) := by
      unfold get_available_id
      simp
    rw [hg] at hup
    simp only [Option.ite_none_left_eq_some] at hup
    obtain ⟨hfresh, hup⟩ := hup
    cases hup
    rw [hfin.2.1, hfin.2.2]
    refine ⟨rfl, ?_, rfl⟩
    intro a ha hid
    apply hfresh
    simp only [List.any_eq_true, decide_eq_true_eq]
    exact ⟨a, ha, hid⟩
  · intro h0
    rw [if_neg h0] at hup
    split at hup
    · cases hup
    · rename_i a ha
      cases hup
      rw [hfin.2.1, hfin.2.2]
      exact ⟨⟨a, ha⟩, rfl, rfl⟩

theorem verifyaction_eq_some_iff (U : Utils) (env : Env) (s : State) (aid : Nat) (maker verifier : Name)
    (r : State × List Call) :
    verifyaction U env s aid maker verifier = some r ↔
      ∃ objact, verifyaction_pre U env s aid maker verifier objact ∧
        r = verifyaction_commit s objact maker := by
  constructor
  · intro h
    unfold verifyaction at h
    simp only [Option.ite_none_left_eq_some] at h
    obtain ⟨h1, h2, h3, h⟩ := h
    split at h
    · cases h
    rename_i objact hact
    split at h
    · cases h
    rename_i obj hobj
    split at h
    · cases h
    rename_i cmm hcmm
    split at h
    · cases h
    rename_i nv hnv
    split at h
    · cases h
    rename_i nm hnm
    simp only [Option.ite_none_left_eq_some] at h
    obtain ⟨h4, h5, h6, h7, h⟩ := h
    refine ⟨objact, ⟨not_not.mp h1, not_not.mp h2, not_not.mp h3, hact,
      ⟨obj, cmm, nv, nm, hobj, hcmm, hnv, hnm, not_not.mp h7⟩, not_not.mp h4, by omega, by omega⟩, ?_⟩
    rw [← Option.some.inj h]
    rfl
  · rintro ⟨objact, ⟨h1, h2, h3, hact, ⟨obj, cmm, nv, nm, hobj, hcmm, hnv, hnm, h7⟩, h4, h5, h6⟩, rfl⟩
    have h6' : ¬ (objact.usages > 0 ∧ ¬ objact.usages_left ≥ 1) := by omega
    unfold verifyaction
    rw [if_neg (not_not.mpr h1), if_neg (not_not.mpr h2), if_neg (not_not.mpr h3), hact]
    dsimp only
    rw [hobj]
    dsimp only
    rw [hcmm]
    dsimp only
    rw [hnv]
    dsimp only
    rw [hnm]
    dsimp only
    rw [if_neg (not_not.mpr h4), if_neg (by omega), if_neg h6', if_neg (not_not.mpr h7)]
    rfl

theorem netlink_eq_some (U : Utils) (env : Env) (s s1 : State) (a : Asset) (i u : Name)
    (k : List Call) (h : netlink U env s a i u = some (s1, k)) :
    ∃ cmm, s.communities.find? (fun c => decide (c.symbol = a.symbol)) = some cmm ∧
      (((∃ n, s.networks.find? (fun n => decide (n.id = U.gen_uuid a.symbol u)) = some n) ∧
          s1 = s ∧ k = []) ∨
       (s.networks.find? (fun n => decide (n.id = U.gen_uuid a.symbol u)) = none ∧
          (cmm.creator = i ∨
            ∃ n, s.networks.find? (fun n => decide (n.id = U.gen_uuid cmm.symbol i)) = some n) ∧
          s1 = { s with networks := s.networks ++ [new_edge U a.symbol i u] } ∧
          k = join_calls cmm i u)) := by
  unfold netlink at h
  simp only [Option.ite_none_left_eq_some] at h
  obtain ⟨-, -, h⟩ := h
  split at h
  · cases h
  rename_i cmm hcmm
  refine ⟨cmm, hcmm, ?_⟩
  split at h
  · rename_i n hn
    cases h
    exact Or.inl ⟨⟨n, hn⟩, rfl, rfl⟩
  · rename_i hn
    simp only [Option.ite_none_left_eq_some] at h
    obtain ⟨hinv, h⟩ := h
    refine Or.inr ⟨hn, ?_, ?_⟩
    · by_cases hc : cmm.creator = i
      · exact Or.inl hc
      · right
        cases hf : s.networks.find? (fun n => decide (n.id = U.gen_uuid cmm.symbol i)) with
        | none => exact absurd ⟨hc, hf⟩ hinv
        | some n => exact ⟨n, rfl⟩
    · unfold join_calls new_edge
      by_cases hiu : i = u
      · rw [if_pos hiu] at h
        cases h
        simp [hiu]
      · rw [if_neg hiu] at h
        cases h
        simp [hiu]

theorem netlink_frame (U : Utils) (env : Env) (s s1 : State) (a : Asset) (i u : Name)
    (k : List Call) (h : netlink U env s a i u = some (s1, k)) :
    s1.actions = s.actions ∧ s1.objectives = s.objectives ∧ s1.communities = s.communities ∧
      s1.validators = s.validators ∧ s1.sales = s.sales ∧ s1.curr_indexes = s.curr_indexes := by
  obtain ⟨cmm, -, h1 | h1⟩ := netlink_eq_some _ _ _ _ _ _ _ _ h
  · rw [h1.2.1]
    simp
  · rw [h1.2.2.1]
    simp

theorem create_frame (U : Utils) (env : Env) (s s1 : State) (a : Asset) (c : Name)
    (l n d : String) (r1 r2 : Asset)
    (k : List Call) (h : create U env s a c l n d r1 r2 = some (s1, k)) :
    s1.actions = s.actions ∧ s1.objectives = s.objectives ∧
      s1.validators = s.validators ∧ s1.sales = s.sales ∧ s1.curr_indexes = s.curr_indexes := by
  unfold create at h
  simp only [Option.ite_none_left_eq_some] at h
  repeat (rcases h with ⟨-, h⟩)
  split at h
  · cases h
  · split at h
    · cases h
    · rename_i hn
      cases h
      have := netlink_frame _ _ _ _ _ _ _ _ hn
      simp only at this
      tauto

theorem update_frame (env : Env) (s s1 : State) (a : Asset)
    (l n d : String) (r1 r2 : Asset)
    (k : List Call) (h : update env s a l n d r1 r2 = some (s1, k)) :
    s1.actions = s.actions ∧ s1.networks = s.networks ∧ s1.objectives = s.objectives ∧
      s1.validators = s.validators ∧ s1.sales = s.sales ∧ s1.curr_indexes = s.curr_indexes := by
  unfold update at h
  repeat' split at h
  all_goals cases h
  all_goals simp

theorem newobjective_frame  (U : Utils) (env : Env) (s s1 : State) (a : Asset) (d : String)
    (c : Name) (k : List Call) (h : newobjective U env s a d c = some (s1, k)) :
    s1.actions = s.actions ∧ s1.networks = s.networks ∧ s1.communities = s.communities ∧
      s1.validators = s.validators ∧ s1.sales = s.sales := by
  unfold newobjective at h
  simp only [Option.ite_none_left_eq_some] at h
  repeat (rcases h with ⟨-, h⟩)
  split at h
  · cases h
  split at h
  · cases h
  split at h
  · cases h
  rename_i hn
  simp only [Option.ite_none_left_eq_some] at h
  rcases h with ⟨-, h⟩
  cases h
  have := get_available_id_frame _ _ _ _ hn
  simp only
  tauto

theorem updobjective_frame (U : Utils) (env : Env) (s s1 : State) (o : Nat) (d : String)
    (e : Name) (k : List Call) (h : updobjective U env s o d e = some (s1, k)) :
    s1.actions = s.actions ∧ s1.networks = s.networks ∧ s1.communities = s.communities ∧
      s1.validators = s.validators ∧ s1.sales = s.sales ∧ s1.curr_indexes = s.curr_indexes := by
  unfold updobjective at h
  repeat' split at h
  all_goals cases h
  all_goals simp

theorem createsale_frame (U : Utils) (env : Env) (s s1 : State) (f : Name) (t d : String)
    (q : Asset) (i : String) (ts u : Nat)
    (k : List Call) (h : createsale U env s f t d q i ts u = some (s1, k)) :
    s1.actions = s.actions ∧ s1.networks = s.networks ∧ s1.communities = s.communities ∧
      s1.validators = s.validators ∧ s1.objectives = s.objectives := by
  unfold createsale at h
  simp only [Option.ite_none_left_eq_some] at h
  repeat (rcases h with ⟨-, h⟩)
  split at h
  · cases h
  split at h
  · cases h
  rename_i hn
  simp only [Option.ite_none_left_eq_some] at h
  rcases h with ⟨-, h⟩
  cases h
  have := get_available_id_frame _ _ _ _ hn
  simp only
  tauto

theorem updatesale_frame (U : Utils) (env : Env) (s s1 : State) (sid : Nat) (t d : String)
    (q : Asset) (i : String) (ts u : Nat)
    (k : List Call) (h : updatesale U env s sid t d q i ts u = some (s1, k)) :
    s1.actions = s.actions ∧ s1.networks = s.networks ∧ s1.communities = s.communities ∧
      s1.validators = s.validators ∧ s1.objectives = s.objectives ∧
      s1.curr_indexes = s.curr_indexes := by
  unfold updatesale at h
  repeat' split at h
  all_goals cases h
  all_goals simp

theorem deletesale_frame (env : Env) (s s1 : State) (sid : Nat)
    (k : List Call) (h : deletesale env s sid = some (s1, k)) :
    s1.actions = s.actions ∧ s1.networks = s.networks ∧ s1.communities = s.communities ∧
      s1.validators = s.validators ∧ s1.objectives = s.objectives ∧
      s1.curr_indexes = s.curr_indexes := by
  unfold deletesale at h
  repeat' split at h
  all_goals cases h
  all_goals simp

theorem reactsale_frame (U : Utils) (env : Env) (s s1 : State) (sid : Nat) (f : Name)
    (t : String) (k : List Call) (h : reactsale U env s sid f t = some (s1, k)) :
    s1 = s := by
  unfold reactsale at h
  repeat' split at h
  all_goals cases h
  all_goals rfl

theorem transfersale_frame (U : Utils) (env : Env) (s s1 : State) (sid : Nat) (f t : Name)
    (q : Asset) (u : Nat) (k : List Call) (h : transfersale U env s sid f t q u = some (s1, k)) :
    s1.actions = s.actions ∧ s1.networks = s.networks ∧ s1.communities = s.communities ∧
      s1.validators = s.validators ∧ s1.objectives = s.objectives ∧
      s1.curr_indexes = s.curr_indexes := by
  unfold transfersale at h
  repeat' split at h
  all_goals cases h
  all_goals simp

theorem setindices_frame (U : Utils) (env : Env) (s s1 : State) (a b c d : Nat)
    (k : List Call) (h : setindices U env s a b c d = some (s1, k)) :
    s1.actions = s.actions ∧ s1.networks = s.networks ∧ s1.communities = s.communities ∧
      s1.validators = s.validators ∧ s1.objectives = s.objectives ∧ s1.sales = s.sales := by
  unfold setindices at h
  repeat' split at h
  all_goals cases h
  all_goals simp

theorem deleteact_frame (U : Utils) (env : Env) (s s1 : State) (i : Nat)
    (k : List Call) (h : deleteact U env s i = some (s1, k)) :
    s1.actions = s.actions.filter (fun a => decide (a.id ≠ i)) ∧
      s1.networks = s.networks ∧ s1.communities = s.communities ∧
      s1.validators = s.validators ∧ s1.objectives = s.objectives ∧ s1.sales = s.sales ∧
      s1.curr_indexes = s.curr_indexes := by
  unfold deleteact at h
  repeat' split at h
  all_goals cases h
  all_goals simp

theorem upsertaction_frame (U : Utils) (env : Env) (s s1 : State) (a o : Nat) (d : String)
    (r vr : Asset) (dl us ul v : Nat) (vt vs : String) (ic : Nat) (c : Name)
    (k : List Call) (h : upsertaction U env s a o d r vr dl us ul v vt vs ic c = some (s1, k)) :
    s1.networks = s.networks ∧ s1.communities = s.communities ∧
      s1.objectives = s.objectives ∧ s1.sales = s.sales := by
  unfold upsertaction at h
  simp only [Option.ite_none_left_eq_some] at h
  repeat (rcases h with ⟨-, h⟩)
  split at h
  · cases h
  split at h
  · cases h
  split at h
  · cases h
  simp only [Option.ite_none_left_eq_some] at h
  repeat (rcases h with ⟨-, h⟩)
  split at h
  · cases h
  rename_i act_id s2 hup
  have hs2 : s2.networks = s.networks ∧ s2.communities = s.communities ∧
      s2.objectives = s.objectives ∧ s2.sales = s.sales := by
    split at hup
    · split at hup
      · cases hup
      · rename_i hn
        simp only [Option.ite_none_left_eq_some] at hup
        rcases hup with ⟨-, hup⟩
        cases hup
        have := get_available_id_frame _ _ _ _ hn
        simp only
        tauto
    · split at hup
      · cases hup
      · cases hup
        simp
  split at h
  · simp only [Option.ite_none_left_eq_some] at h
    repeat (rcases h with ⟨-, h⟩)
    split at h
    · cases h
    · cases h
      exact hs2
  · cases h
    exact hs2

/-- C11, the code at the failing input.  An unlimited automatic action
(`usages = 0`) stored with `usages_left = 2` and `is_completed = 0` is
completed by a committed `verifyaction`: the call stores `usages_left = 1` and
`is_completed = 1`. -/
theorem verifyaction_completes_unlimited_action :
    Reachable demo_utils (demo_state demo_unlimited_two_left) ∧
    usage_rows (demo_state demo_unlimited_two_left) = [(1, 0, 2, 0)] ∧
    ∃ r, verifyaction demo_utils (demo_env 1) (demo_state demo_unlimited_two_left) 1 2 1 =
        some r ∧
      usage_rows r.1 = [(1, 0, 1, 1)] :=
  ⟨demo_state_reachable _, by decide,
    exists_of_any _ (fun r => usage_rows r.1 = [(1, 0, 1, 1)]) (by decide)⟩

/-- C13.  A committed `upsertaction` with `action_id = 0` appends one action
row and leaves the stored rows as they were.  The id of the new row is the
last used action id plus 1 on `uint64_t` (exactly one more unless the counter
is at `2^64 - 1`), no stored row had that id, and the counter is set to it;
its `usages_left` is the `usages` argument and its `is_completed` is 0,
whatever the `usages_left` and `is_completed` arguments; its other fields are
the arguments. -/
theorem upsertaction_create (U : Utils) (env : Env) (s s1 : State) (objective_id : Nat)
    (description : String) (reward verifier_reward : Asset)
    (deadline usages usages_left verifications : Nat)
    (verification_type validators_str : String) (is_completed : Nat) (creator : Name)
    (k : List Call)
    (h : upsertaction U env s 0 objective_id description reward verifier_reward deadline
      usages usages_left verifications verification_type validators_str is_completed creator
        = some (s1, k)) :
    ∃ new : action,
      s1.actions = s.actions ++ [new] ∧
      new.id = inc64 s.curr_indexes.last_used_action_id ∧
      (s.curr_indexes.last_used_action_id + 1 < UINT64 →
        new.id = s.curr_indexes.last_used_action_id + 1) ∧
      (∀ a ∈ s.actions, a.id ≠ new.id) ∧
      s1.curr_indexes.last_used_action_id = new.id ∧
      new.usages_left = usages ∧ new.is_completed = 0 ∧
      new = created_action new.id objective_id description reward verifier_reward deadline
        usages verifications verification_type creator := by
  obtain ⟨-, -, -, -, -, -, hcreate, -⟩ := upsertaction_actions _ _ _ _ _ _ _ _ _ _ _ _ _ _ _ _ _ _ h
  obtain ⟨hact, hfresh, hidx⟩ := hcreate rfl
  refine ⟨_, hact, rfl, ?_, hfresh, by rw [hidx]; rfl, rfl, rfl, rfl⟩
  intro hlt
  simp only [created_action, inc64]
  exact Nat.mod_eq_of_lt hlt

/-- C13 at the worked example: the first action of the community. -/
theorem upsertaction_create_witness :
    upsertaction demo_utils (demo_env 1) (demo_state demo_community) 0 1 "a" ⟨5, 7⟩ ⟨0, 7⟩ 0 3 9
        2 "claimable" "alice-bob-carol" 1 1 = some (demo_state demo_claimable, []) ∧
    ∃ new : action,
      (demo_state demo_claimable).actions = (demo_state demo_community).actions ++ [new] ∧
      new.id = inc64 (demo_state demo_community).curr_indexes.last_used_action_id ∧
      ((demo_state demo_community).curr_indexes.last_used_action_id + 1 < UINT64 →
        new.id = (demo_state demo_community).curr_indexes.last_used_action_id + 1) ∧
      (∀ a ∈ (demo_state demo_community).actions, a.id ≠ new.id) ∧
      (demo_state demo_claimable).curr_indexes.last_used_action_id = new.id ∧
      new.usages_left = 3 ∧ new.is_completed = 0 ∧
      new = created_action new.id 1 "a" ⟨5, 7⟩ ⟨0, 7⟩ 0 3 2 "claimable" 1 :=
  ⟨by decide,
   upsertaction_create demo_utils (demo_env 1) (demo_state demo_community)
     (demo_state demo_claimable) 1 "a" ⟨5, 7⟩ ⟨0, 7⟩ 0 3 9 2 "claimable" "alice-bob-carol" 1 1 []
     (by decide)⟩

theorem find?_map_id (l : List action) (x : Nat) (f : action → action)
    (hf : ∀ a, (f a).id = a.id) :
    (l.map f).find? (fun a => decide (a.id = x)) =
      (l.find? (fun a => decide (a.id = x))).map f := by
  rw [List.find?_map]
  have hfun : ((fun a : action => decide (a.id = x)) ∘ f) =
      (fun a : action => decide (a.id = x)) := by
    funext a
    simp only [Function.comp, hf]
  rw [hfun]

/-- C14, as amended.  A committed `upsertaction` with a non-zero `action_id`
N rewrites the stored action N: description, reward, verifier_reward, deadline,
usages, usages_left, verifications, verification_type and is_completed are the
call's arguments, while id, objective_id and creator are kept as stored.  Rows
with another id are as before. -/
theorem upsertaction_replace (U : Utils) (env : Env) (s s1 : State) (action_id objective_id : Nat)
    (description : String) (reward verifier_reward : Asset)
    (deadline usages usages_left verifications : Nat)
    (verification_type validators_str : String) (is_completed : Nat) (creator : Name)
    (k : List Call) (hN : action_id ≠ 0)
    (h : upsertaction U env s action_id objective_id description reward verifier_reward deadline
      usages usages_left verifications verification_type validators_str is_completed creator
        = some (s1, k)) :
    ∃ a a1,
      s.actions.find? (fun x => decide (x.id = action_id)) = some a ∧
      s1.actions.find? (fun x => decide (x.id = action_id)) = some a1 ∧
      a1.description = description ∧ a1.reward = reward ∧
      a1.verifier_reward = verifier_reward ∧ a1.deadline = deadline ∧ a1.usages = usages ∧
      a1.usages_left = usages_left ∧ a1.verifications = verifications ∧
      a1.verification_type = verification_type ∧ a1.is_completed = is_completed ∧
      a1.id = action_id ∧ a1.objective_id = a.objective_id ∧ a1.creator = a.creator ∧
      s1.actions = s.actions.map (fun x => if x.id = action_id then
        replaced_action x description reward verifier_reward deadline usages usages_left
          verifications verification_type is_completed else x) := by
  obtain ⟨-, -, -, -, -, -, -, hrep⟩ := upsertaction_actions _ _ _ _ _ _ _ _ _ _ _ _ _ _ _ _ _ _ h
  obtain ⟨⟨a, ha⟩, hact, -⟩ := hrep hN
  have hfind := action_after_commit s.actions action_id a
    (fun x => replaced_action x description reward verifier_reward deadline usages usages_left
      verifications verification_type is_completed) (fun _ => rfl) ha
  refine ⟨a, replaced_action a description reward verifier_reward deadline usages usages_left
    verifications verification_type is_completed, ha, by rw [hact]; exact hfind,
    rfl, rfl, rfl, rfl, rfl, rfl, rfl, rfl, rfl, ?_, rfl, rfl, hact⟩
  exact action_find_id _ _ a ha

/-- C14 as stated fails for objective_id and creator: action 1 is stored
under objective 1 with creator 1; account 2 replaces it with `objective_id = 2`
and `creator = 2`.  The call commits and rewrites description and rewards, but
the stored objective_id and creator are still 1. -/
theorem upsertaction_keeps_objective_and_creator :
    Reachable demo_utils (demo_state demo_two_objectives) ∧
    (demo_state demo_two_objectives).actions =
      [created_action 1 1 "a" ⟨5, 7⟩ ⟨0, 7⟩ 0 3 0 "automatic" 1] ∧
    ∃ r, upsertaction demo_utils (demo_env 2) (demo_state demo_two_objectives) 1 2 "b" ⟨6, 7⟩
        ⟨1, 7⟩ 0 4 4 0 "automatic" "" 0 2 = some r ∧
      r.1.actions =
        [{ id := 1, objective_id := 1, description := "b", reward := ⟨6, 7⟩,
           verifier_reward := ⟨1, 7⟩, deadline := 0, usages := 4, usages_left := 4,
           verifications := 0, verification_type := "automatic", is_completed := 0,
           creator := 1 }] :=
  ⟨demo_state_reachable _, by decide,
    exists_of_any _
      (fun r : State × List Call => r.1.actions =
        [{ id := 1, objective_id := 1, description := "b", reward := ⟨6, 7⟩,
           verifier_reward := ⟨1, 7⟩, deadline := 0, usages := 4, usages_left := 4,
           verifications := 0, verification_type := "automatic", is_completed := 0,
           creator := 1 }])
      (by decide)⟩

/-- C14 as amended, at the worked example: account 2 replaces action 1. -/
theorem upsertaction_replace_witness :
    (1 : Nat) ≠ 0 ∧
    ∃ r, upsertaction demo_utils (demo_env 2) (demo_state demo_two_objectives) 1 2 "b" ⟨6, 7⟩
        ⟨1, 7⟩ 0 4 4 0 "automatic" "" 0 2 = some r ∧
      ∃ a a1,
        (demo_state demo_two_objectives).actions.find? (fun x => decide (x.id = 1)) = some a ∧
        r.1.actions.find? (fun x => decide (x.id = 1)) = some a1 ∧
        a1.description = "b" ∧ a1.reward = ⟨6, 7⟩ ∧
        a1.verifier_reward = ⟨1, 7⟩ ∧ a1.deadline = 0 ∧ a1.usages = 4 ∧
        a1.usages_left = 4 ∧ a1.verifications = 0 ∧
        a1.verification_type = "automatic" ∧ a1.is_completed = 0 ∧
        a1.id = 1 ∧ a1.objective_id = a.objective_id ∧ a1.creator = a.creator ∧
        r.1.actions = (demo_state demo_two_objectives).actions.map (fun x => if x.id = 1 then
          replaced_action x "b" ⟨6, 7⟩ ⟨1, 7⟩ 0 4 4 0 "automatic" 0 else x) := by
  refine ⟨by decide, ?_⟩
  obtain ⟨r, hr, -⟩ := exists_of_any
    (upsertaction demo_utils (demo_env 2) (demo_state demo_two_objectives) 1 2 "b" ⟨6, 7⟩
        ⟨1, 7⟩ 0 4 4 0 "automatic" "" 0 2) (fun _ => True) (by decide)
  exact ⟨r, hr, upsertaction_replace demo_utils (demo_env 2) (demo_state demo_two_objectives)
    r.1 1 2 "b" ⟨6, 7⟩ ⟨1, 7⟩ 0 4 4 0 "automatic" "" 0 2 r.2 (by decide) hr⟩

theorem verified_action_ok (a : action) (h : action_ok a) : action_ok (verified_action a) := by
  obtain ⟨h1, h2, h3, h4⟩ := h
  unfold verified_action
  split <;> exact ⟨h1, h2, h3, h4⟩

theorem apply_action_ok (U : Utils) (env : Env) (s s1 : State) (op : Op) (k : List Call)
    (h : apply U env s op = some (s1, k)) (hok : ∀ a ∈ s.actions, action_ok a) :
    ∀ a ∈ s1.actions, action_ok a := by
  cases op with
  | create a c l n d r1 r2 => rw [(create_frame _ _ _ _ _ _ _ _ _ _ _ _ h).1]; exact hok
  | update a l n d r1 r2 => rw [(update_frame _ _ _ _ _ _ _ _ _ _ h).1]; exact hok
  | netlink a i u => rw [(netlink_frame _ _ _ _ _ _ _ _ h).1]; exact hok
  | newobjective a d c => rw [(newobjective_frame _ _ _ _ _ _ _ _ h).1]; exact hok
  | updobjective o d e => rw [(updobjective_frame _ _ _ _ _ _ _ _ h).1]; exact hok
  | upsertaction aid o d r vr dl us ul v vt vs ic c =>
    obtain ⟨-, h1, h2, h3, h4, -, hcreate, hrep⟩ :=
      upsertaction_actions _ _ _ _ _ _ _ _ _ _ _ _ _ _ _ _ _ _ h
    by_cases h0 : aid = 0
    · rw [(hcreate h0).1]
      intro a ha
      rcases List.mem_append.mp ha with ha | ha
      · exact hok a ha
      · rw [List.mem_singleton] at ha
        subst ha
        exact ⟨h4, h3, h1, h2⟩
    · rw [(hrep h0).2.1]
      intro a ha
      obtain ⟨b, hb, rfl⟩ := List.mem_map.mp ha
      split
      · exact ⟨h4, h3, h1, h2⟩
      · exact hok b hb
  | verifyaction aid m v =>
    obtain ⟨objact, -, hr⟩ := (verifyaction_eq_some_iff _ _ _ _ _ _ _).mp h
    cases hr
    intro a ha
    obtain ⟨b, hb, rfl⟩ := List.mem_map.mp ha
    split
    · exact verified_action_ok b (hok b hb)
    · exact hok b hb
  | claimaction aid m =>
    obtain ⟨-, hs, -⟩ := claimaction_eq_some _ _ _ _ _ _ _ h
    rw [hs]
    exact hok
  | verifyclaim c v vote =>
    obtain ⟨claim, objact, new_id, -, hr⟩ := (verifyclaim_eq_some_iff _ _ _ _ _ _ _).mp h
    by_cases hv : verifies s c objact new_id v vote
    · simp only [verifyclaim_commit, if_pos hv] at hr
      cases hr
      intro a ha
      obtain ⟨b, hb, rfl⟩ := List.mem_map.mp ha
      obtain ⟨h1, h2, h3, h4⟩ := hok b hb
      split
      · exact ⟨h1, h2, h3, h4⟩
      · exact ⟨h1, h2, h3, h4⟩
    · simp only [verifyclaim_commit, if_neg hv] at hr
      cases hr
      exact hok
  | createsale f t d q i ts u => rw [(createsale_frame _ _ _ _ _ _ _ _ _ _ _ _ h).1]; exact hok
  | updatesale sid t d q i ts u => rw [(updatesale_frame _ _ _ _ _ _ _ _ _ _ _ _ h).1]; exact hok
  | deletesale sid => rw [(deletesale_frame _ _ _ _ _ h).1]; exact hok
  | reactsale sid f t => rw [reactsale_frame _ _ _ _ _ _ _ _ h]; exact hok
  | transfersale sid f t q u => rw [(transfersale_frame _ _ _ _ _ _ _ _ _ _ h).1]; exact hok
  | setindices a b c d => rw [(setindices_frame _ _ _ _ _ _ _ _ _ h).1]; exact hok
  | deleteact i =>
    rw [(deleteact_frame _ _ _ _ _ _ h).1]
    intro a ha
    exact hok a (List.mem_filter.mp ha).1

theorem reachable_action_ok (U : Utils) (s : State) (h : Reachable U s) :
    ∀ a ∈ s.actions, action_ok a := by
  induction h with
  | init => intro a ha; cases ha
  | step env op s s1 calls _ happ ih => exact apply_action_ok U env s s1 op calls happ ih

/-- C15.  In every reachable state every stored action has `verifications`
equal to 0 or at least 2, `usages` at most 1000 and non-negative `reward` and
`verifier_reward` amounts; and in every state `upsertaction` aborts when
`verifications = 1`, `usages > 1000` or one of the two amounts is negative. -/
theorem action_field_ranges (U : Utils) (s : State) (h : Reachable U s) :
    (∀ a ∈ s.actions,
      (a.verifications = 0 ∨ a.verifications ≥ 2) ∧ a.usages ≤ 1000 ∧
      a.reward.amount ≥ 0 ∧ a.verifier_reward.amount ≥ 0) ∧
    (∀ (env : Env) (action_id objective_id : Nat) (description : String)
        (reward verifier_reward : Asset) (deadline usages usages_left verifications : Nat)
        (verification_type validators_str : String) (is_completed : Nat) (creator : Name),
      (verifications = 1 ∨ usages > 1000 ∨ reward.amount < 0 ∨ verifier_reward.amount < 0) →
      upsertaction U env s action_id objective_id description reward verifier_reward deadline
        usages usages_left verifications verification_type validators_str is_completed creator
          = none) := by
  refine ⟨reachable_action_ok U s h, ?_⟩
  intro env action_id objective_id description reward verifier_reward deadline usages
    usages_left verifications verification_type validators_str is_completed creator hbad
  cases hres : upsertaction U env s action_id objective_id description reward verifier_reward
      deadline usages usages_left verifications verification_type validators_str is_completed
      creator with
  | none => rfl
  | some r =>
    obtain ⟨s1, k⟩ := r
    obtain ⟨-, h1, h2, h3, h4, -⟩ := upsertaction_actions _ _ _ _ _ _ _ _ _ _ _ _ _ _ _ _ _ _ hres
    omega

/-- C15 at the reachable state of the worked example with one claimable
action. -/
theorem action_field_ranges_witness :
    Reachable demo_utils (demo_state demo_claimable) ∧
    ((∀ a ∈ (demo_state demo_claimable).actions,
      (a.verifications = 0 ∨ a.verifications ≥ 2) ∧ a.usages ≤ 1000 ∧
      a.reward.amount ≥ 0 ∧ a.verifier_reward.amount ≥ 0) ∧
    (∀ (env : Env) (action_id objective_id : Nat) (description : String)
        (reward verifier_reward : Asset) (deadline usages usages_left verifications : Nat)
        (verification_type validators_str : String) (is_completed : Nat) (creator : Name),
      (verifications = 1 ∨ usages > 1000 ∨ reward.amount < 0 ∨ verifier_reward.amount < 0) →
      upsertaction demo_utils env (demo_state demo_claimable) action_id objective_id description
        reward verifier_reward deadline usages usages_left verifications verification_type
        validators_str is_completed creator = none)) :=
  ⟨demo_state_reachable _, action_field_ranges demo_utils _ (demo_state_reachable _)⟩

theorem completed_of_actions_eq (s s1 : State) (id : Nat) (h : s1.actions = s.actions)
    (hc : action_completed s id) : action_completed s1 id := by
  unfold action_completed at *
  rw [h]
  exact hc

theorem completed_of_map (s s1 : State) (id : Nat) (objact : action) (f : action → action)
    (hf : ∀ a, (f a).id = a.id)
    (hact : s.actions.find? (fun a => decide (a.id = objact.id)) = some objact)
    (hopen : objact.is_completed = 0)
    (h : s1.actions = s.actions.map (fun a => if a.id = objact.id then f a else a))
    (hc : action_completed s id) : action_completed s1 id := by
  obtain ⟨a, ha, hac⟩ := hc
  have hne : id ≠ objact.id := by
    intro heq
    rw [heq, hact] at ha
    cases ha
    exact hac hopen
  have haid : a.id = id := action_find_id _ _ _ ha
  refine ⟨a, ?_, hac⟩
  rw [h, find?_map_id _ _ _ (fun x => by split; exact hf x; rfl), ha]
  simp only [Option.map_some', Option.some.injEq]
  rw [if_neg (by rw [haid]; exact hne)]

theorem completed_step (U : Utils) (env : Env) (s s1 : State) (op : Op) (k : List Call)
    (id : Nat) (hop : engine_without_replace op = true)
    (h : apply U env s op = some (s1, k)) (hc : action_completed s id) :
    action_completed s1 id := by
  cases op with
  | upsertaction aid o d r vr dl us ul v vt vs ic c =>
    have h0 : aid = 0 := by simpa [engine_without_replace] using hop
    obtain ⟨-, -, -, -, -, -, hcreate, -⟩ :=
      upsertaction_actions _ _ _ _ _ _ _ _ _ _ _ _ _ _ _ _ _ _ h
    obtain ⟨a, ha, hac⟩ := hc
    refine ⟨a, ?_, hac⟩
    rw [(hcreate h0).1, List.find?_append, ha]
    rfl
  | verifyaction aid m v =>
    obtain ⟨objact, hpre, hr⟩ := (verifyaction_eq_some_iff _ _ _ _ _ _ _).mp h
    cases hr
    have hact := hpre.2.2.2.1
    have haid : objact.id = aid := action_find_id _ _ _ hact
    refine completed_of_map s _ id objact verified_action ?_ (by rw [haid]; exact hact)
      hpre.2.2.2.2.2.2.1 rfl hc
    intro a
    unfold verified_action
    split <;> rfl
  | claimaction aid m =>
    obtain ⟨-, hs, -⟩ := claimaction_eq_some _ _ _ _ _ _ _ h
    exact completed_of_actions_eq s s1 id (by rw [hs]) hc
  | verifyclaim c v vote =>
    obtain ⟨claim, objact, new_id, hpre, hr⟩ := (verifyclaim_eq_some_iff _ _ _ _ _ _ _).mp h
    have hact := hpre.2.2.1
    have haid : objact.id = claim.action_id := action_find_id _ _ _ hact
    by_cases hv : verifies s c objact new_id v vote
    · simp only [verifyclaim_commit, if_pos hv] at hr
      cases hr
      exact completed_of_map s _ id objact
        (fun a => { a with usages_left := dec64 objact.usages_left,
                           is_completed := if objact.usages > 0 ∧ dec64 objact.usages_left = 0
                                           then 1 else a.is_completed })
        (fun _ => rfl) (by rw [haid]; exact hact) hpre.2.2.2.2.2.1 rfl hc
    · simp only [verifyclaim_commit, if_neg hv] at hr
      cases hr
      exact completed_of_actions_eq s _ id rfl hc
  | _ => simp [engine_without_replace] at hop

/-- C12, as amended.  For every state and every sequence of `verifyaction`,
`claimaction`, `verifyclaim` calls and `upsertaction` calls with `action_id =
0` run from it: an action that is stored completed is still stored completed
afterwards. -/
theorem completion_terminal (U : Utils) (prog : List (Env × Op)) (id : Nat) :
    ∀ s : State, (∀ e ∈ prog, engine_without_replace e.2 = true) → action_completed s id →
      action_completed (run U s prog).1 id := by
  induction prog with
  | nil => intro s _ hc; exact hc
  | cons step rest ih =>
    intro s hops hc
    obtain ⟨env, op⟩ := step
    have hrest : ∀ e ∈ rest, engine_without_replace e.2 = true :=
      fun e he => hops e (List.mem_cons_of_mem _ he)
    unfold run
    cases happ : apply U env s op with
    | none => exact ih s hrest hc
    | some r =>
      obtain ⟨s1, calls⟩ := r
      exact ih s1 hrest
        (completed_step U env s s1 op calls id (hops (env, op) (List.mem_cons_self _ _)) happ hc)

/-- C12 as stated fails for `upsertaction`: the action of the worked example
is completed by the verification of its only usage; a committed `upsertaction`
on its id with `is_completed = 0` stores it open again. -/
theorem upsertaction_reopens_completed_action :
    Reachable demo_utils (demo_state demo_completed) ∧
    usage_rows (demo_state demo_completed) = [(1, 1, 0, 1)] ∧
    action_completed (demo_state demo_completed) 1 ∧
    ∃ r, upsertaction demo_utils (demo_env 1) (demo_state demo_completed) 1 1 "a" ⟨5, 7⟩ ⟨0, 7⟩
        0 1 1 2 "claimable" "alice-bob-carol" 0 1 = some r ∧
      usage_rows r.1 = [(1, 1, 1, 0)] ∧ ¬ action_completed r.1 1 :=
  ⟨demo_state_reachable _, by decide, by decide,
    exists_of_any _
      (fun r : State × List Call => usage_rows r.1 = [(1, 1, 1, 0)] ∧ ¬ action_completed r.1 1)
      (by decide)⟩

/-- C12 as amended, at the worked example: after the action is completed,
another claim, a vote, a verification and the creation of a second action. -/
theorem completion_terminal_witness :
    (∀ e ∈ [(demo_env 4, Op.claimaction 1 4), (demo_env 3, Op.verifyclaim 1 3 1),
            (demo_env 1, Op.verifyaction 1 2 1),
            (demo_env 1, Op.upsertaction 0 1 "b" ⟨5, 7⟩ ⟨0, 7⟩ 0 3 0 0 "automatic" "" 0 1)],
      engine_without_replace e.2 = true) ∧
    action_completed (demo_state demo_completed) 1 ∧
    action_completed
      (run demo_utils (demo_state demo_completed)
        [(demo_env 4, Op.claimaction 1 4), (demo_env 3, Op.verifyclaim 1 3 1),
         (demo_env 1, Op.verifyaction 1 2 1),
         (demo_env 1, Op.upsertaction 0 1 "b" ⟨5, 7⟩ ⟨0, 7⟩ 0 3 0 0 "automatic" "" 0 1)]).1 1 :=
  ⟨by decide, by decide,
   completion_terminal demo_utils
     [(demo_env 4, Op.claimaction 1 4), (demo_env 3, Op.verifyclaim 1 3 1),
      (demo_env 1, Op.verifyaction 1 2 1),
      (demo_env 1, Op.upsertaction 0 1 "b" ⟨5, 7⟩ ⟨0, 7⟩ 0 3 0 0 "automatic" "" 0 1)] 1
     (demo_state demo_completed) (by decide) (by decide)⟩

theorem map_id_of_map (l : List action) (f : action → action) (hf : ∀ a, (f a).id = a.id) :
    (l.map f).map (fun a => a.id) = l.map (fun a => a.id) := by
  rw [List.map_map]
  apply List.map_congr_left
  intro a _
  exact hf a

theorem eq_of_nodup_id (l : List action) (h : (l.map (fun a => a.id)).Nodup) (a b : action)
    (ha : a ∈ l) (hb : b ∈ l) (hid : a.id = b.id) : a = b :=
  List.inj_on_of_nodup_map h ha hb hid

theorem dec64_lt (x : Nat) : dec64 x < UINT64 := by
  unfold dec64 UINT64
  omega

theorem dec64_of_pos (x : Nat) (h1 : 1 ≤ x) (h2 : x < UINT64) : dec64 x = x - 1 := by
  unfold dec64 UINT64 at *
  omega

/-- The quota invariant together with what its proof carries along: primary
keys are unique and the counters are `uint64_t` values. -/
theorem quota_step (U : Utils) (env : Env) (s s1 : State) (op : Op) (k : List Call)
    (hop : is_replace op = false) (h : apply U env s op = some (s1, k))
    (hq : (s.actions.map (fun a => a.id)).Nodup ∧
      ∀ a ∈ s.actions, a.usages_left < UINT64 ∧ (a.usages > 0 → a.usages_left ≤ a.usages)) :
    (s1.actions.map (fun a => a.id)).Nodup ∧
      ∀ a ∈ s1.actions, a.usages_left < UINT64 ∧ (a.usages > 0 → a.usages_left ≤ a.usages) := by
  obtain ⟨hnd, hq⟩ := hq
  cases op with
  | create a c l n d r1 r2 => rw [(create_frame _ _ _ _ _ _ _ _ _ _ _ _ h).1]; exact ⟨hnd, hq⟩
  | update a l n d r1 r2 => rw [(update_frame _ _ _ _ _ _ _ _ _ _ h).1]; exact ⟨hnd, hq⟩
  | netlink a i u => rw [(netlink_frame _ _ _ _ _ _ _ _ h).1]; exact ⟨hnd, hq⟩
  | newobjective a d c => rw [(newobjective_frame _ _ _ _ _ _ _ _ h).1]; exact ⟨hnd, hq⟩
  | updobjective o d e => rw [(updobjective_frame _ _ _ _ _ _ _ _ h).1]; exact ⟨hnd, hq⟩
  | upsertaction aid o d r vr dl us ul v vt vs ic c =>
    have h0 : aid = 0 := by simpa [is_replace] using hop
    obtain ⟨-, -, -, h3, -, -, hcreate, -⟩ :=
      upsertaction_actions _ _ _ _ _ _ _ _ _ _ _ _ _ _ _ _ _ _ h
    obtain ⟨hact, hfresh, -⟩ := hcreate h0
    rw [hact]
    constructor
    · rw [List.map_append, List.nodup_append]
      refine ⟨hnd, List.nodup_singleton _, ?_⟩
      intro x hx hx2
      rw [List.map_singleton, List.mem_singleton] at hx2
      obtain ⟨a, ha, rfl⟩ := List.mem_map.mp hx
      exact hfresh a ha hx2
    · intro a ha
      rcases List.mem_append.mp ha with ha | ha
      · exact hq a ha
      · rw [List.mem_singleton] at ha
        subst ha
        simp only [created_action, UINT64]
        omega
  | verifyaction aid m v =>
    obtain ⟨objact, hpre, hr⟩ := (verifyaction_eq_some_iff _ _ _ _ _ _ _).mp h
    cases hr
    have hact := hpre.2.2.2.1
    have hmem : objact ∈ s.actions := List.mem_of_find?_eq_some hact
    have hleft := hpre.2.2.2.2.2.2.2
    have hfid : ∀ a : action, (if a.id = objact.id then verified_action a else a).id = a.id := by
      intro a
      unfold verified_action
      split
      · split <;> rfl
      · rfl
    constructor
    · simp only [verifyaction_commit]
      rw [map_id_of_map _ _ hfid]
      exact hnd
    · intro a ha
      simp only [verifyaction_commit] at ha
      obtain ⟨b, hb, rfl⟩ := List.mem_map.mp ha
      by_cases hid : b.id = objact.id
      · have hbo : b = objact := eq_of_nodup_id _ hnd b objact hb hmem hid
        subst hbo
        obtain ⟨hlt, hle⟩ := hq b hb
        rw [if_pos rfl]
        have hdec := dec64_lt b.usages_left
        unfold verified_action
        split
        · refine ⟨hdec, fun hu => ?_⟩
          have := dec64_of_pos b.usages_left (hleft hu) hlt
          have := hle hu
          simp only
          omega
        · refine ⟨hdec, fun hu => ?_⟩
          have := dec64_of_pos b.usages_left (hleft hu) hlt
          have := hle hu
          simp only
          omega
      · rw [if_neg hid]
        exact hq b hb
  | claimaction aid m =>
    obtain ⟨-, hs, -⟩ := claimaction_eq_some _ _ _ _ _ _ _ h
    rw [hs]
    exact ⟨hnd, hq⟩
  | verifyclaim c v vote =>
    obtain ⟨claim, objact, new_id, hpre, hr⟩ := (verifyclaim_eq_some_iff _ _ _ _ _ _ _).mp h
    have hact := hpre.2.2.1
    have hmem : objact ∈ s.actions := List.mem_of_find?_eq_some hact
    have hleft := hpre.2.2.2.2.2.2.2.1
    by_cases hv : verifies s c objact new_id v vote
    · simp only [verifyclaim_commit, if_pos hv] at hr
      cases hr
      constructor
      · simp only
        rw [map_id_of_map _ _ (fun a => by split <;> rfl)]
        exact hnd
      · intro a ha
        simp only at ha
        obtain ⟨b, hb, rfl⟩ := List.mem_map.mp ha
        by_cases hid : b.id = objact.id
        · have hbo : b = objact := eq_of_nodup_id _ hnd b objact hb hmem hid
          subst hbo
          obtain ⟨hlt, hle⟩ := hq b hb
          rw [if_pos rfl]
          refine ⟨dec64_lt _, fun hu => ?_⟩
          have := dec64_of_pos b.usages_left (hleft hu) hlt
          have := hle hu
          simp only
          omega
        · rw [if_neg hid]
          exact hq b hb
    · simp only [verifyclaim_commit, if_neg hv] at hr
      cases hr
      exact ⟨hnd, hq⟩
  | createsale f t d q i ts u => rw [(createsale_frame _ _ _ _ _ _ _ _ _ _ _ _ h).1]; exact ⟨hnd, hq⟩
  | updatesale sid t d q i ts u =>
    rw [(updatesale_frame _ _ _ _ _ _ _ _ _ _ _ _ h).1]; exact ⟨hnd, hq⟩
  | deletesale sid => rw [(deletesale_frame _ _ _ _ _ h).1]; exact ⟨hnd, hq⟩
  | reactsale sid f t => rw [reactsale_frame _ _ _ _ _ _ _ _ h]; exact ⟨hnd, hq⟩
  | transfersale sid f t q u =>
    rw [(transfersale_frame _ _ _ _ _ _ _ _ _ _ h).1]; exact ⟨hnd, hq⟩
  | setindices a b c d => rw [(setindices_frame _ _ _ _ _ _ _ _ _ h).1]; exact ⟨hnd, hq⟩
  | deleteact i =>
    rw [(deleteact_frame _ _ _ _ _ _ h).1]
    constructor
    · exact hnd.sublist ((List.filter_sublist _).map _)
    · intro a ha
      exact hq a (List.mem_filter.mp ha).1

/-- C17, as amended.  In every state reachable through the contract's actions
with `upsertaction` called only with `action_id = 0`, every stored action with
`usages > 0` has `usages_left <= usages`. -/
theorem quota_invariant (U : Utils) (s : State) (h : ReachableWithoutReplace U s) :
    ∀ a ∈ s.actions, a.usages > 0 → a.usages_left ≤ a.usages := by
  have hq : (s.actions.map (fun a => a.id)).Nodup ∧
      ∀ a ∈ s.actions, a.usages_left < UINT64 ∧ (a.usages > 0 → a.usages_left ≤ a.usages) := by
    induction h with
    | init => exact ⟨List.nodup_nil, fun a ha => by cases ha⟩
    | step env op s s1 calls _ hop happ ih => exact quota_step U env s s1 op calls hop happ ih
  exact fun a ha => (hq.2 a ha).2

theorem run_reachable_without_replace (U : Utils) (prog : List (Env × Op)) :
    ∀ s, (∀ e ∈ prog, is_replace e.2 = false) → ReachableWithoutReplace U s →
      ReachableWithoutReplace U (run U s prog).1 := by
  induction prog with
  | nil => intro s _ hs; exact hs
  | cons step rest ih =>
    intro s hops hs
    obtain ⟨env, op⟩ := step
    have hrest : ∀ e ∈ rest, is_replace e.2 = false :=
      fun e he => hops e (List.mem_cons_of_mem _ he)
    unfold run
    cases happ : apply U env s op with
    | none => exact ih s hrest hs
    | some r =>
      obtain ⟨s1, calls⟩ := r
      exact ih s1 hrest (ReachableWithoutReplace.step env op s s1 calls hs
        (hops (env, op) (List.mem_cons_self _ _)) happ)

/-- C17 as stated fails for `upsertaction`: a committed `upsertaction` on the
id of the stored action with `usages = 1` and `usages_left = 5` stores both as
given, so `usages_left` exceeds `usages` in a reachable state. -/
theorem upsertaction_stores_usages_left_over_usages :
    Reachable demo_utils (demo_state demo_over_quota) ∧
    usage_rows (demo_state demo_over_quota) = [(1, 1, 5, 0)] :=
  ⟨demo_state_reachable _, by decide⟩

/-- C17 as amended, at the worked example where the only usage of an action
has been verified. -/
theorem quota_invariant_witness :
    ReachableWithoutReplace demo_utils (demo_state demo_completed) ∧
    ∀ a ∈ (demo_state demo_completed).actions, a.usages > 0 → a.usages_left ≤ a.usages :=
  ⟨run_reachable_without_replace demo_utils demo_completed State.empty (by decide)
     ReachableWithoutReplace.init,
   quota_invariant demo_utils (demo_state demo_completed)
     (run_reachable_without_replace demo_utils demo_completed State.empty (by decide)
       ReachableWithoutReplace.init)⟩

theorem demo_state_two_reachable (prog : List (Env × Op)) :
    Reachable demo_utils_two (demo_state_two prog) :=
  run_reachable demo_utils_two prog State.empty Reachable.init

/-- C16, the code at the failing input.  Action 1 is stored under objective
1, whose community has symbol 7.  A committed `upsertaction` on its id that
names objective 2 (community symbol 8) with rewards of symbol 8 leaves the
stored `objective_id` at 1 and stores the rewards: in the reachable state
after it, the action's rewards have symbol 8 and its objective's community has
symbol 7. -/
theorem upsertaction_stores_foreign_token :
    Reachable demo_utils_two (demo_state_two demo_foreign_replace) ∧
    (demo_state_two demo_two_communities).actions.map
      (fun a => (a.objective_id, a.reward.symbol, a.verifier_reward.symbol)) = [(1, 7, 7)] ∧
    (demo_state_two demo_foreign_replace).actions.map
      (fun a => (a.objective_id, a.reward.symbol, a.verifier_reward.symbol)) = [(1, 8, 8)] ∧
    (demo_state_two demo_foreign_replace).actions.map
      (fun a => action_community (demo_state_two demo_foreign_replace) a) = [some 7] :=
  ⟨demo_state_two_reachable _, by decide, by decide, by decide⟩

/-- C18, the code at the failing input.  Action 1 is stored under objective
1, in the community with symbol 7.  A committed claimable `upsertaction` on
its id that names objective 2 rebuilds its validator table with accounts 5 and
6, which are members of the community with symbol 8 and not of the action's
community. -/
theorem upsertaction_stores_validators_of_other_community :
    Reachable demo_utils_two (demo_state_two demo_foreign_replace) ∧
    (demo_state_two demo_foreign_replace).actions.map
      (fun a => (a.id, action_community (demo_state_two demo_foreign_replace) a)) =
      [(1, some 7)] ∧
    (demo_state_two demo_foreign_replace).validators.map (fun v => (v.scope, v.validator)) =
      [(1, 5), (1, 6)] ∧
    is_member demo_utils_two (demo_state_two demo_foreign_replace) 7 5 = false ∧
    is_member demo_utils_two (demo_state_two demo_foreign_replace) 7 6 = false ∧
    is_member demo_utils_two (demo_state_two demo_foreign_replace) 8 5 = true ∧
    is_member demo_utils_two (demo_state_two demo_foreign_replace) 8 6 = true :=
  ⟨demo_state_two_reachable _, by decide, by decide, by decide, by decide, by decide,
   by decide⟩

/-- C20, the code at the failing input.  After `update` stored an
`invited_reward` of amount 0 and symbol 9 for the community with symbol 7, a
committed `netlink` of account 2 invited by account 1 inserts the edge and
sends the account initialisation for symbol 9, not for the community symbol. -/
theorem netlink_initialises_account_for_other_symbol :
    Reachable demo_utils (demo_state demo_updated_community) ∧
    (demo_state demo_updated_community).communities.map
      (fun c => (c.symbol, c.inviter_reward, c.invited_reward)) = [(7, ⟨0, 7⟩, ⟨0, 9⟩)] ∧
    ∃ r, netlink demo_utils (demo_env 1) (demo_state demo_updated_community) ⟨0, 7⟩ 1 2 =
        some r ∧
      r.1.networks = (demo_state demo_updated_community).networks ++
        [new_edge demo_utils 7 1 2] ∧
      r.2 = [Call.notify 2, Call.initacc 9 2] :=
  ⟨demo_state_reachable _, by decide,
    exists_of_any _
      (fun r : State × List Call =>
        r.1.networks = (demo_state demo_updated_community).networks ++
          [new_edge demo_utils 7 1 2] ∧
        r.2 = [Call.notify 2, Call.initacc 9 2])
      (by decide)⟩

theorem apply_networks (U : Utils) (env : Env) (s s1 : State) (op : Op) (k : List Call)
    (h : apply U env s op = some (s1, k)) :
    s1.networks = s.networks ∨
      ∃ sym i u, s1.networks = s.networks ++ [new_edge U sym i u] ∧
        s.networks.find? (fun n => decide (n.id = U.gen_uuid sym u)) = none := by
  cases op with
  | create a c l n d r1 r2 =>
    simp only [apply] at h
    unfold create at h
    simp only [Option.ite_none_left_eq_some] at h
    repeat (rcases h with ⟨-, h⟩)
    split at h
    · cases h
    · split at h
      · cases h
      · rename_i hn
        cases h
        obtain ⟨cmm, -, h1 | h1⟩ := netlink_eq_some _ _ _ _ _ _ _ _ hn
        · left
          rw [h1.2.1]
        · right
          refine ⟨a.symbol, c, c, ?_, h1.1⟩
          rw [h1.2.2.1]
  | update a l n d r1 r2 => exact Or.inl (update_frame _ _ _ _ _ _ _ _ _ _ h).2.1
  | netlink a i u =>
    obtain ⟨cmm, -, h1 | h1⟩ := netlink_eq_some _ _ _ _ _ _ _ _ h
    · left
      rw [h1.2.1]
    · right
      refine ⟨a.symbol, i, u, ?_, h1.1⟩
      rw [h1.2.2.1]
  | newobjective a d c => exact Or.inl (newobjective_frame _ _ _ _ _ _ _ _ h).2.1
  | updobjective o d e => exact Or.inl (updobjective_frame _ _ _ _ _ _ _ _ h).2.1
  | upsertaction aid o d r vr dl us ul v vt vs ic c =>
    exact Or.inl (upsertaction_frame _ _ _ _ _ _ _ _ _ _ _ _ _ _ _ _ _ _ h).1
  | verifyaction aid m v =>
    obtain ⟨objact, -, hr⟩ := (verifyaction_eq_some_iff _ _ _ _ _ _ _).mp h
    cases hr
    exact Or.inl rfl
  | claimaction aid m =>
    obtain ⟨-, hs, -⟩ := claimaction_eq_some _ _ _ _ _ _ _ h
    rw [hs]
    exact Or.inl rfl
  | verifyclaim c v vote =>
    obtain ⟨claim, objact, new_id, -, hr⟩ := (verifyclaim_eq_some_iff _ _ _ _ _ _ _).mp h
    by_cases hv : verifies s c objact new_id v vote
    · simp only [verifyclaim_commit, if_pos hv] at hr
      cases hr
      exact Or.inl rfl
    · simp only [verifyclaim_commit, if_neg hv] at hr
      cases hr
      exact Or.inl rfl
  | createsale f t d q i ts u => exact Or.inl (createsale_frame _ _ _ _ _ _ _ _ _ _ _ _ h).2.1
  | updatesale sid t d q i ts u => exact Or.inl (updatesale_frame _ _ _ _ _ _ _ _ _ _ _ _ h).2.1
  | deletesale sid => exact Or.inl (deletesale_frame _ _ _ _ _ h).2.1
  | reactsale sid f t => rw [reactsale_frame _ _ _ _ _ _ _ _ h]; exact Or.inl rfl
  | transfersale sid f t q u => exact Or.inl (transfersale_frame _ _ _ _ _ _ _ _ _ _ h).2.1
  | setindices a b c d => exact Or.inl (setindices_frame _ _ _ _ _ _ _ _ _ h).2.1
  | deleteact i => exact Or.inl (deleteact_frame _ _ _ _ _ _ h).2.1

theorem edges_invariant (U : Utils) (s : State) (h : Reachable U s) :
    (∀ n ∈ s.networks, n.id = U.gen_uuid n.community n.invited_user) ∧
      ∀ sym acc, (edges_of s sym acc).length ≤ 1 := by
  induction h with
  | init => exact ⟨fun n hn => (by cases hn), fun sym acc => (by simp [edges_of, State.empty])⟩
  | step env op s s1 calls _ happ ih =>
    obtain ⟨hkey, hone⟩ := ih
    rcases apply_networks _ _ _ _ _ _ happ with h1 | ⟨sym1, i, u, h1, hnone⟩
    · unfold edges_of
      rw [h1]
      exact ⟨hkey, hone⟩
    · have hno : ∀ n ∈ s.networks, ¬ (n.community = sym1 ∧ n.invited_user = u) := by
        intro n hn hpair
        have hid := hkey n hn
        rw [hpair.1, hpair.2] at hid
        have := List.find?_eq_none.mp hnone n hn
        simp [hid] at this
      constructor
      · intro n hn
        rw [h1] at hn
        rcases List.mem_append.mp hn with hn | hn
        · exact hkey n hn
        · rw [List.mem_singleton] at hn
          subst hn
          rfl
      · intro sym acc
        unfold edges_of
        rw [h1, List.filter_append, List.length_append]
        by_cases hp : sym1 = sym ∧ u = acc
        · obtain ⟨rfl, rfl⟩ := hp
          have hnil : s.networks.filter
              (fun n => decide (n.community = sym1 ∧ n.invited_user = u)) = [] := by
            rw [List.filter_eq_nil_iff]
            intro n hn hcv
            exact hno n hn (by simpa using hcv)
          rw [hnil]
          simp [new_edge, List.filter]
        · have hnil : [new_edge U sym1 i u].filter
              (fun n => decide (n.community = sym ∧ n.invited_user = acc)) = [] := by
            simp [new_edge, List.filter, hp]
          rw [hnil]
          exact hone sym acc

theorem member_step (U : Utils) (env : Env) (s s1 : State) (op : Op) (k : List Call)
    (sym : Symbol) (acc : Name) (h : apply U env s op = some (s1, k))
    (hm : is_member U s sym acc = true) : is_member U s1 sym acc = true := by
  unfold is_member at *
  rcases apply_networks _ _ _ _ _ _ h with h1 | ⟨sym1, i, u, h1, -⟩
  · rw [h1]
    exact hm
  · rw [h1, List.find?_append]
    cases hf : s.networks.find? (fun n => decide (n.id = U.gen_uuid sym acc)) with
    | none => rw [hf] at hm; cases hm
    | some n => rfl

theorem netlink_of_member (U : Utils) (env : Env) (s s1 : State) (a : Asset) (i u : Name)
    (k : List Call) (hm : is_member U s a.symbol u = true)
    (h : netlink U env s a i u = some (s1, k)) : s1 = s ∧ k = [] := by
  obtain ⟨cmm, -, h1 | h1⟩ := netlink_eq_some _ _ _ _ _ _ _ _ h
  · exact h1.2
  · unfold is_member at hm
    rw [h1.1] at hm
    cases hm

theorem netlink_makes_member (U : Utils) (env : Env) (s s1 : State) (a : Asset) (i u : Name)
    (k : List Call) (h : netlink U env s a i u = some (s1, k)) :
    is_member U s1 a.symbol u = true := by
  obtain ⟨cmm, -, h1 | h1⟩ := netlink_eq_some _ _ _ _ _ _ _ _ h
  · obtain ⟨⟨n, hn⟩, hs, -⟩ := h1
    unfold is_member
    rw [hs, hn]
    rfl
  · unfold is_member
    rw [h1.2.2.1]
    simp only
    rw [List.find?_append, h1.1]
    simp [new_edge]

theorem join_effects_of_member (U : Utils) (sym : Symbol) (acc : Name)
    (prog : List (Env × Op)) :
    ∀ s, is_member U s sym acc = true → join_effects sym acc (run U s prog).2 = 0 := by
  induction prog with
  | nil => intro s _; rfl
  | cons step rest ih =>
    intro s hs
    obtain ⟨env, op⟩ := step
    unfold run
    cases happ : apply U env s op with
    | none =>
      simp only
      cases op <;> simp [join_effects, ih s hs]
    | some r =>
      obtain ⟨s1, calls⟩ := r
      have hs1 := member_step _ _ _ _ _ _ _ _ happ hs
      simp only
      cases op with
      | netlink a i u =>
        by_cases hp : a.symbol = sym ∧ u = acc
        · obtain ⟨rfl, rfl⟩ := hp
          simp only [apply] at happ
          have := (netlink_of_member U env s s1 a i u calls hs happ).2
          simp [join_effects, this, ih s1 hs1]
        · have hp' : ¬ (a.symbol = sym ∧ u = acc ∧ calls ≠ []) := fun h => hp ⟨h.1, h.2.1⟩
          simp only [join_effects, if_neg hp', ih s1 hs1]
      | _ => simp [join_effects, ih s1 hs1]

theorem join_effects_le_one (U : Utils) (sym : Symbol) (acc : Name) (prog : List (Env × Op)) :
    ∀ s, join_effects sym acc (run U s prog).2 ≤ 1 := by
  induction prog with
  | nil => intro s; simp [run, join_effects]
  | cons step rest ih =>
    intro s
    obtain ⟨env, op⟩ := step
    unfold run
    cases happ : apply U env s op with
    | none =>
      simp only
      cases op <;> simp [join_effects, ih s]
    | some r =>
      obtain ⟨s1, calls⟩ := r
      simp only
      cases op with
      | netlink a i u =>
        by_cases hp : a.symbol = sym ∧ u = acc
        · obtain ⟨rfl, rfl⟩ := hp
          simp only [apply] at happ
          have hm := netlink_makes_member U env s s1 a i u calls happ
          have h0 := join_effects_of_member U a.symbol u rest s1 hm
          simp only [join_effects, h0]
          split <;> omega
        · have hp' : ¬ (a.symbol = sym ∧ u = acc ∧ calls ≠ []) := fun h => hp ⟨h.1, h.2.1⟩
          simp only [join_effects, if_neg hp']
          have := ih s1
          omega
      | _ => simp [join_effects, ih s1]

/-- C19.  In every reachable state: when a membership edge for the pair
(community, new_user) is stored, a `netlink` call for that pair that does not
abort leaves every table as it was, the membership table with it, and sends
nothing; there is at most one edge per pair (community, account); and over
every sequence of calls run from the state at most one committed `netlink`
call for a pair sends anything, so the join rewards of a pair are issued by at
most one call. -/
theorem join_idempotent (U : Utils) (s : State) (h : Reachable U s) :
    (∀ (env : Env) (a : Asset) (i u : Name) (r : State × List Call),
      (∃ n ∈ s.networks, n.community = a.symbol ∧ n.invited_user = u) →
      netlink U env s a i u = some r → r = (s, [])) ∧
    (∀ sym acc, (edges_of s sym acc).length ≤ 1) ∧
    (∀ (prog : List (Env × Op)) sym acc, join_effects sym acc (run U s prog).2 ≤ 1) := by
  obtain ⟨hkey, hone⟩ := edges_invariant U s h
  refine ⟨?_, hone, fun prog sym acc => join_effects_le_one U sym acc prog s⟩
  rintro env a i u ⟨s1, k⟩ ⟨n, hn, hc, hu⟩ hres
  have hm : is_member U s a.symbol u = true := by
    unfold is_member
    cases hf : s.networks.find? (fun n => decide (n.id = U.gen_uuid a.symbol u)) with
    | some x => rfl
    | none =>
      have := List.find?_eq_none.mp hf n hn
      have hid := hkey n hn
      rw [hc, hu] at hid
      simp [hid] at this
  obtain ⟨h1, h2⟩ := netlink_of_member U env s s1 a i u k hm hres
  rw [h1, h2]

/-- C19 at the reachable state of the worked example, where accounts 1 to 4
are members of the community with symbol 7. -/
theorem join_idempotent_witness :
    Reachable demo_utils (demo_state demo_community) ∧
    ((∀ (env : Env) (a : Asset) (i u : Name) (r : State × List Call),
      (∃ n ∈ (demo_state demo_community).networks, n.community = a.symbol ∧ n.invited_user = u) →
      netlink demo_utils env (demo_state demo_community) a i u = some r →
      r = (demo_state demo_community, [])) ∧
    (∀ sym acc, (edges_of (demo_state demo_community) sym acc).length ≤ 1) ∧
    (∀ (prog : List (Env × Op)) sym acc,
      join_effects sym acc (run demo_utils (demo_state demo_community) prog).2 ≤ 1)) :=
  ⟨demo_state_reachable _, join_idempotent demo_utils _ (demo_state_reachable _)⟩

/-- C26.  The outcome of `verifyclaim` (abort or commit, the tables and the
calls sent) does not depend on the authorization oracle: it is the same for
any two results of `has_auth`, everything else being equal. -/
theorem verifyclaim_ignores_authorization (U : Utils) (env : Env) (s : State) (cid : Nat)
    (v : Name) (vote : Nat) (auth1 auth2 : Name → Bool) :
    verifyclaim U { env with has_auth := auth1 } s cid v vote =
      verifyclaim U { env with has_auth := auth2 } s cid v vote := rfl

theorem apply_action_ids (U : Utils) (env : Env) (s s1 : State) (op : Op) (k : List Call)
    (h : apply U env s op = some (s1, k)) :
    ∀ a ∈ s1.actions, (∃ b ∈ s.actions, b.id = a.id) ∨
      (is_create op = true ∧ a.id = inc64 s.curr_indexes.last_used_action_id) := by
  have hsame : s1.actions = s.actions →
      ∀ a ∈ s1.actions, (∃ b ∈ s.actions, b.id = a.id) ∨
        (is_create op = true ∧ a.id = inc64 s.curr_indexes.last_used_action_id) := by
    intro heq a ha
    rw [heq] at ha
    exact Or.inl ⟨a, ha, rfl⟩
  have hmap : ∀ f : action → action, (∀ a, (f a).id = a.id) → s1.actions = s.actions.map f →
      ∀ a ∈ s1.actions, (∃ b ∈ s.actions, b.id = a.id) ∨
        (is_create op = true ∧ a.id = inc64 s.curr_indexes.last_used_action_id) := by
    intro f hf heq a ha
    rw [heq] at ha
    obtain ⟨b, hb, rfl⟩ := List.mem_map.mp ha
    exact Or.inl ⟨b, hb, (hf b).symm⟩
  cases op with
  | create a c l n d r1 r2 => exact hsame (create_frame _ _ _ _ _ _ _ _ _ _ _ _ h).1
  | update a l n d r1 r2 => exact hsame (update_frame _ _ _ _ _ _ _ _ _ _ h).1
  | netlink a i u => exact hsame (netlink_frame _ _ _ _ _ _ _ _ h).1
  | newobjective a d c => exact hsame (newobjective_frame _ _ _ _ _ _ _ _ h).1
  | updobjective o d e => exact hsame (updobjective_frame _ _ _ _ _ _ _ _ h).1
  | upsertaction aid o d r vr dl us ul v vt vs ic c =>
    obtain ⟨-, -, -, -, -, -, hcreate, hrep⟩ :=
      upsertaction_actions _ _ _ _ _ _ _ _ _ _ _ _ _ _ _ _ _ _ h
    by_cases h0 : aid = 0
    · intro a ha
      rw [(hcreate h0).1] at ha
      rcases List.mem_append.mp ha with ha | ha
      · exact Or.inl ⟨a, ha, rfl⟩
      · rw [List.mem_singleton] at ha
        subst ha
        exact Or.inr ⟨by simp [is_create, h0], rfl⟩
    · exact hmap _ (fun a => by split <;> rfl) (hrep h0).2.1
  | verifyaction aid m v =>
    obtain ⟨objact, -, hr⟩ := (verifyaction_eq_some_iff _ _ _ _ _ _ _).mp h
    cases hr
    refine hmap _ (fun a => ?_) rfl
    unfold verified_action
    split
    · split <;> rfl
    · rfl
  | claimaction aid m =>
    obtain ⟨-, hs, -⟩ := claimaction_eq_some _ _ _ _ _ _ _ h
    exact hsame (by rw [hs])
  | verifyclaim c v vote =>
    obtain ⟨claim, objact, new_id, -, hr⟩ := (verifyclaim_eq_some_iff _ _ _ _ _ _ _).mp h
    by_cases hv : verifies s c objact new_id v vote
    · simp only [verifyclaim_commit, if_pos hv] at hr
      cases hr
      exact hmap _ (fun a => by split <;> rfl) rfl
    · simp only [verifyclaim_commit, if_neg hv] at hr
      cases hr
      exact hsame rfl
  | createsale f t d q i ts u => exact hsame (createsale_frame _ _ _ _ _ _ _ _ _ _ _ _ h).1
  | updatesale sid t d q i ts u => exact hsame (updatesale_frame _ _ _ _ _ _ _ _ _ _ _ _ h).1
  | deletesale sid => exact hsame (deletesale_frame _ _ _ _ _ h).1
  | reactsale sid f t => exact hsame (by rw [reactsale_frame _ _ _ _ _ _ _ _ h])
  | transfersale sid f t q u => exact hsame (transfersale_frame _ _ _ _ _ _ _ _ _ _ h).1
  | setindices a b c d => exact hsame (setindices_frame _ _ _ _ _ _ _ _ _ h).1
  | deleteact i =>
    intro a ha
    rw [(deleteact_frame _ _ _ _ _ _ h).1] at ha
    exact Or.inl ⟨a, (List.mem_filter.mp ha).1, rfl⟩

/-- C28.  In every state, `upsertaction` with a non-zero `action_id` that is
not the id of a stored action aborts, so it stores no action row, allocates no
id and writes no validator row.  And whatever call commits, every action row
stored afterwards has the id of a row stored before, or the call is
`upsertaction` with `action_id = 0` and the row has the id the allocator
issues (the last used action id plus 1). -/
theorem replace_of_unknown_action_fails (U : Utils) (s : State) :
    (∀ (env : Env) (action_id objective_id : Nat) (description : String)
        (reward verifier_reward : Asset) (deadline usages usages_left verifications : Nat)
        (verification_type validators_str : String) (is_completed : Nat) (creator : Name),
      action_id ≠ 0 → (∀ a ∈ s.actions, a.id ≠ action_id) →
      upsertaction U env s action_id objective_id description reward verifier_reward deadline
        usages usages_left verifications verification_type validators_str is_completed creator
          = none) ∧
    (∀ (env : Env) (op : Op) (s1 : State) (k : List Call), apply U env s op = some (s1, k) →
      ∀ a ∈ s1.actions, (∃ b ∈ s.actions, b.id = a.id) ∨
        (is_create op = true ∧ a.id = inc64 s.curr_indexes.last_used_action_id)) := by
  refine ⟨?_, fun env op s1 k h => apply_action_ids U env s s1 op k h⟩
  intro env action_id objective_id description reward verifier_reward deadline usages
    usages_left verifications verification_type validators_str is_completed creator hN hunknown
  cases hres : upsertaction U env s action_id objective_id description reward verifier_reward
      deadline usages usages_left verifications verification_type validators_str is_completed
      creator with
  | none => rfl
  | some r =>
    obtain ⟨s1, k⟩ := r
    obtain ⟨-, -, -, -, -, -, -, hrep⟩ := upsertaction_actions _ _ _ _ _ _ _ _ _ _ _ _ _ _ _ _ _ _ hres
    obtain ⟨⟨a, ha⟩, -⟩ := hrep hN
    exact absurd (action_find_id _ _ _ ha) (hunknown a (List.mem_of_find?_eq_some ha))

/-- C28 at the worked example: action id 2 is not stored, and creating a
second action stores it under id 2. -/
theorem replace_of_unknown_action_fails_witness :
    ((2 : Nat) ≠ 0 ∧ (∀ a ∈ (demo_state demo_claimable).actions, a.id ≠ 2) ∧
      upsertaction demo_utils (demo_env 1) (demo_state demo_claimable) 2 1 "b" ⟨5, 7⟩ ⟨0, 7⟩ 0 3
        3 0 "automatic" "" 0 1 = none) ∧
    (∃ r, apply demo_utils (demo_env 1) (demo_state demo_claimable)
        (.upsertaction 0 1 "b" ⟨5, 7⟩ ⟨0, 7⟩ 0 3 3 0 "automatic" "" 0 1) = some r ∧
      ∀ a ∈ r.1.actions, (∃ b ∈ (demo_state demo_claimable).actions, b.id = a.id) ∨
        (is_create (.upsertaction 0 1 "b" ⟨5, 7⟩ ⟨0, 7⟩ 0 3 3 0 "automatic" "" 0 1) = true ∧
          a.id = inc64 (demo_state demo_claimable).curr_indexes.last_used_action_id)) := by
  refine ⟨⟨by decide, by decide,
    (replace_of_unknown_action_fails demo_utils (demo_state demo_claimable)).1 (demo_env 1) 2 1
      "b" ⟨5, 7⟩ ⟨0, 7⟩ 0 3 3 0 "automatic" "" 0 1 (by decide) (by decide)⟩, ?_⟩
  obtain ⟨r, hr, -⟩ := exists_of_any
    (apply demo_utils (demo_env 1) (demo_state demo_claimable)
      (.upsertaction 0 1 "b" ⟨5, 7⟩ ⟨0, 7⟩ 0 3 3 0 "automatic" "" 0 1)) (fun _ => True)
    (by decide)
  exact ⟨r, hr, (replace_of_unknown_action_fails demo_utils (demo_state demo_claimable)).2
    (demo_env 1) _ r.1 r.2 hr⟩

/-- C29.  There is a reachable state with an action (id 1) created by account
2 under objective 1 of the community with symbol 7, whose creator is account
1, and an account 5, not a member of that community but the creator and a
member of the community with symbol 8 with objective 2, such that
`upsertaction(1, 2, ..., creator = 5)` signed by account 5 commits.  It
overwrites reward, usages_left and is_completed of action 1 and leaves its
stored objective_id (1) and creator (2) unchanged. -/
theorem replace_by_foreign_account :
    Reachable demo_utils (demo_state demo_two_owners) ∧
    (demo_state demo_two_owners).actions =
      [created_action 1 1 "a" ⟨5, 7⟩ ⟨0, 7⟩ 0 3 0 "automatic" 2] ∧
    (demo_state demo_two_owners).objectives.map (fun o => (o.id, o.community)) =
      [(1, 7), (2, 8)] ∧
    (demo_state demo_two_owners).communities.map (fun c => (c.symbol, c.creator)) =
      [(7, 1), (8, 5)] ∧
    is_member demo_utils (demo_state demo_two_owners) 7 5 = false ∧
    is_member demo_utils (demo_state demo_two_owners) 8 5 = true ∧
    ∃ r, upsertaction demo_utils (demo_env 5) (demo_state demo_two_owners) 1 2 "x" ⟨9, 8⟩ ⟨0, 8⟩
        0 3 7 0 "automatic" "" 1 5 = some r ∧
      r.1.actions =
        [{ id := 1, objective_id := 1, description := "x", reward := ⟨9, 8⟩,
           verifier_reward := ⟨0, 8⟩, deadline := 0, usages := 3, usages_left := 7,
           verifications := 0, verification_type := "automatic", is_completed := 1,
           creator := 2 }] :=
  ⟨demo_state_reachable _, by decide, by decide, by decide, by decide, by decide,
    exists_of_any _
      (fun r : State × List Call => r.1.actions =
        [{ id := 1, objective_id := 1, description := "x", reward := ⟨9, 8⟩,
           verifier_reward := ⟨0, 8⟩, deadline := 0, usages := 3, usages_left := 7,
           verifications := 0, verification_type := "automatic", is_completed := 1,
           creator := 2 }])
      (by decide)⟩

theorem claimaction_checks (U : Utils) (env : Env) (s s1 : State) (aid : Nat) (maker : Name)
    (k : List Call) (h : claimaction U env s aid maker = some (s1, k)) :
    env.is_account maker = true ∧ env.has_auth maker = true ∧
    ∃ objact, s.actions.find? (fun a => decide (a.id = aid)) = some objact ∧
      objact.is_completed = 0 ∧
      (objact.deadline > 0 → objact.deadline > env.now) ∧
      (objact.usages > 0 → objact.usages_left ≥ 1) ∧
      objact.verification_type = "claimable" ∧
      ∃ obj cmm nw,
        s.objectives.find? (fun o => decide (o.id = objact.objective_id)) = some obj ∧
        s.communities.find? (fun c => decide (c.symbol = obj.community)) = some cmm ∧
        s.networks.find? (fun n => decide (n.id = U.gen_uuid cmm.symbol maker)) = some nw := by
  unfold claimaction at h
  simp only [Option.ite_none_left_eq_some] at h
  obtain ⟨h1, h2, h⟩ := h
  split at h
  · cases h
  rename_i objact hact
  simp only [Option.ite_none_left_eq_some] at h
  obtain ⟨h3, h4, h5, h6, h⟩ := h
  split at h
  · cases h
  rename_i obj hobj
  split at h
  · cases h
  rename_i cmm hcmm
  split at h
  · cases h
  rename_i nw hnw
  refine ⟨not_not.mp h1, not_not.mp h2, objact, hact, not_not.mp h3, ?_, ?_, not_not.mp h6,
    obj, cmm, nw, hobj, hcmm, hnw⟩
  · intro hd
    by_contra hc
    exact h4 ⟨hd, hc⟩
  · intro hu
    by_contra hc
    exact h5 ⟨hu, hc⟩

/-- C24.  A committed `claimaction(action_id, maker)` found the action, not
completed, with `deadline = 0` or `deadline > now`, with `usages = 0` or
`usages_left >= 1` and with verification type "claimable", and found `maker`
a member of the community of the action's objective.  It appends exactly one
claim `(id, action_id, maker, 0)` whose id is the last used claim id plus 1 on
`uint64_t` (exactly one more unless the counter is at `2^64 - 1`), leaves the
stored claims and the action, check and validator tables as they were, and
sends nothing. -/
theorem claimaction_contract (U : Utils) (env : Env) (s s1 : State) (action_id : Nat)
    (maker : Name) (k : List Call)
    (h : claimaction U env s action_id maker = some (s1, k)) :
    (∃ objact, s.actions.find? (fun a => decide (a.id = action_id)) = some objact ∧
      objact.is_completed = 0 ∧
      (objact.deadline = 0 ∨ objact.deadline > env.now) ∧
      (objact.usages = 0 ∨ objact.usages_left ≥ 1) ∧
      objact.verification_type = "claimable" ∧
      ∃ symbol, action_community s objact = some symbol ∧
        is_member U s symbol maker = true) ∧
    s1.claims = s.claims ++
      [{ id := inc64 s.curr_indexes.last_used_claim_id, action_id := action_id,
         claimer := maker, is_verified := 0 }] ∧
    (s.curr_indexes.last_used_claim_id + 1 < UINT64 →
      inc64 s.curr_indexes.last_used_claim_id = s.curr_indexes.last_used_claim_id + 1) ∧
    s1.actions = s.actions ∧ s1.checks = s.checks ∧ s1.validators = s.validators ∧
    k = [] := by
  obtain ⟨-, -, objact, hact, hc, hd, hu, ht, obj, cmm, nw, hobj, hcmm, hnw⟩ :=
    claimaction_checks _ _ _ _ _ _ _ h
  obtain ⟨hk, hs, -⟩ := claimaction_eq_some _ _ _ _ _ _ _ h
  have hsym : cmm.symbol = obj.community := by simpa using List.find?_some hcmm
  refine ⟨⟨objact, hact, hc, ?_, ?_, ht, obj.community, ?_, ?_⟩, by rw [hs], ?_, by rw [hs],
    by rw [hs], by rw [hs], hk⟩
  · rcases Nat.eq_zero_or_pos objact.deadline with h0 | h0
    · exact Or.inl h0
    · exact Or.inr (hd h0)
  · rcases Nat.eq_zero_or_pos objact.usages with h0 | h0
    · exact Or.inl h0
    · exact Or.inr (hu h0)
  · simp only [action_community, hobj, Option.map_some']
  · rw [hsym] at hnw
    simp only [is_member, hnw, Option.isSome_some]
  · intro hlt
    exact Nat.mod_eq_of_lt hlt

/-- C24 at the worked example: account 4 opens the first claim on action 1. -/
theorem claimaction_contract_witness :
    claimaction demo_utils (demo_env 4) (demo_state demo_claimable) 1 4 =
      some (demo_state demo_claimable_claim, []) ∧
    (∃ objact, (demo_state demo_claimable).actions.find? (fun a => decide (a.id = 1))
        = some objact ∧
      objact.is_completed = 0 ∧
      (objact.deadline = 0 ∨ objact.deadline > (demo_env 4).now) ∧
      (objact.usages = 0 ∨ objact.usages_left ≥ 1) ∧
      objact.verification_type = "claimable" ∧
      ∃ symbol, action_community (demo_state demo_claimable) objact = some symbol ∧
        is_member demo_utils (demo_state demo_claimable) symbol 4 = true) ∧
    (demo_state demo_claimable_claim).claims = (demo_state demo_claimable).claims ++
      [{ id := inc64 (demo_state demo_claimable).curr_indexes.last_used_claim_id,
         action_id := 1, claimer := 4, is_verified := 0 }] ∧
    ((demo_state demo_claimable).curr_indexes.last_used_claim_id + 1 < UINT64 →
      inc64 (demo_state demo_claimable).curr_indexes.last_used_claim_id =
        (demo_state demo_claimable).curr_indexes.last_used_claim_id + 1) ∧
    (demo_state demo_claimable_claim).actions = (demo_state demo_claimable).actions ∧
    (demo_state demo_claimable_claim).checks = (demo_state demo_claimable).checks ∧
    (demo_state demo_claimable_claim).validators = (demo_state demo_claimable).validators ∧
    ([] : List Call) = [] :=
  ⟨by decide,
   claimaction_contract demo_utils (demo_env 4) (demo_state demo_claimable)
     (demo_state demo_claimable_claim) 1 4 [] (by decide)⟩

/-- C22.  In every state `verifyaction(action_id, maker, verifier)` aborts,
and so leaves every table as it was and sends nothing, whenever no stored
action has the id, maker or verifier is not an existing account, or the stored
action has a community of which maker or verifier is not a member, a
verification type other than "automatic", is completed, or has `usages > 0`
and `usages_left = 0`. -/
theorem verifyaction_rejects (U : Utils) (env : Env) (s : State) (action_id : Nat)
    (maker verifier : Name)
    (hrej : (∀ a ∈ s.actions, a.id ≠ action_id) ∨
      env.is_account maker = false ∨ env.is_account verifier = false ∨
      ∃ objact, s.actions.find? (fun a => decide (a.id = action_id)) = some objact ∧
        ((∃ symbol, action_community s objact = some symbol ∧
            (is_member U s symbol maker = false ∨ is_member U s symbol verifier = false)) ∨
          objact.verification_type ≠ "automatic" ∨
          objact.is_completed ≠ 0 ∨
          (objact.usages > 0 ∧ objact.usages_left = 0))) :
    verifyaction U env s action_id maker verifier = none ∧
    run U s [(env, .verifyaction action_id maker verifier)] =
      (s, [(.verifyaction action_id maker verifier, none)]) := by
  have hnone : verifyaction U env s action_id maker verifier = none := by
    cases hres : verifyaction U env s action_id maker verifier with
    | none => rfl
    | some r =>
      exfalso
      obtain ⟨objact, hpre, -⟩ := (verifyaction_eq_some_iff _ _ _ _ _ _ _).mp hres
      obtain ⟨hv, hm, -, hact, ⟨obj, cmm, nv, nm, hobj, hcmm, hnv, hnm, -⟩, ht, hc, hu⟩ := hpre
      have hsym : cmm.symbol = obj.community := by simpa using List.find?_some hcmm
      rcases hrej with h | h | h | ⟨objact1, hact1, h⟩
      · exact h objact (List.mem_of_find?_eq_some hact) (action_find_id _ _ _ hact)
      · rw [hm] at h
        cases h
      · rw [hv] at h
        cases h
      · rw [hact] at hact1
        cases hact1
        rcases h with ⟨symbol, hs, h⟩ | h | h | ⟨h1, h2⟩
        · simp only [action_community, hobj, Option.map_some', Option.some.injEq] at hs
          subst hs
          rw [hsym] at hnv hnm
          simp only [is_member, hnv, hnm, Option.isSome_some] at h
          rcases h with h | h <;> cases h
        · exact h ht
        · exact h hc
        · have := hu h1
          omega
  refine ⟨hnone, ?_⟩
  simp only [run, apply, hnone]

/-- C22 at the worked example: action 1 is claimable, not automatic. -/
theorem verifyaction_rejects_witness :
    (∃ objact, (demo_state demo_claimable).actions.find? (fun a => decide (a.id = 1))
        = some objact ∧ objact.verification_type ≠ "automatic") ∧
    verifyaction demo_utils (demo_env 1) (demo_state demo_claimable) 1 2 1 = none ∧
    run demo_utils (demo_state demo_claimable) [(demo_env 1, .verifyaction 1 2 1)] =
      (demo_state demo_claimable, [(.verifyaction 1 2 1, none)]) :=
  ⟨⟨demo_action, by decide, by decide⟩,
   verifyaction_rejects demo_utils (demo_env 1) (demo_state demo_claimable) 1 2 1
     (Or.inr (Or.inr (Or.inr ⟨demo_action, by decide, Or.inr (Or.inl (by decide))⟩)))⟩

/-- C23, the claim as stated fails.  In the reachable state of
`demo_single_use`, account 2 verifies action 1 naming itself both maker and
verifier: the call commits and issues the action's reward of 5 to account 2,
the verifier. -/
theorem verifyaction_pays_verifier_named_maker :
    Reachable demo_utils (demo_state demo_single_use) ∧
    ∃ r, verifyaction demo_utils (demo_env 2) (demo_state demo_single_use) 1 2 2 = some r ∧
      r.2 = [Call.issue 2 ⟨5, 7⟩ memo_action] :=
  ⟨demo_state_reachable _,
   exists_of_any _ (fun r : State × List Call => r.2 = [Call.issue 2 ⟨5, 7⟩ memo_action])
     (by decide)⟩

/-- C23, as amended.  A committed `verifyaction(action_id, maker, verifier)`
sends exactly one call, the issue of the action's reward to maker, when the
reward's amount is positive, and no call otherwise.  So it issues nothing to
verifier unless verifier is the maker, whatever the verifier reward.  It
changes no table but the action table, and there only `usages_left` and
`is_completed` of the rows with the action's id. -/
theorem verifyaction_payout (U : Utils) (env : Env) (s s1 : State) (action_id : Nat)
    (maker verifier : Name) (k : List Call)
    (h : verifyaction U env s action_id maker verifier = some (s1, k)) :
    ∃ objact, s.actions.find? (fun a => decide (a.id = action_id)) = some objact ∧
      k = (if objact.reward.amount > 0
            then [Call.issue maker objact.reward memo_action] else []) ∧
      (maker ≠ verifier → ∀ quantity memo, Call.issue verifier quantity memo ∉ k) ∧
      s1 = { s with actions := s.actions.map (fun a =>
              if a.id = action_id
              then { a with usages_left := dec64 a.usages_left,
                            is_completed :=
                              if dec64 (dec64 a.usages_left) ≤ 0 then 1 else a.is_completed }
              else a) } := by
  obtain ⟨objact, hpre, hr⟩ := (verifyaction_eq_some_iff _ _ _ _ _ _ _).mp h
  have hact := hpre.2.2.2.1
  have hid := action_find_id _ _ _ hact
  simp only [verifyaction_commit, Prod.mk.injEq] at hr
  obtain ⟨hs, hk⟩ := hr
  refine ⟨objact, hact, hk, ?_, ?_⟩
  · intro hne quantity memo hmem
    rw [hk] at hmem
    split at hmem
    · rw [List.mem_singleton] at hmem
      injection hmem with hm _ _
      exact hne hm.symm
    · cases hmem
  · have hmap : s.actions.map (fun a => if a.id = action_id then verified_action a else a) =
        s.actions.map (fun a =>
          if a.id = action_id
          then { a with usages_left := dec64 a.usages_left,
                        is_completed :=
                          if dec64 (dec64 a.usages_left) ≤ 0 then 1 else a.is_completed }
          else a) := by
      apply List.map_congr_left
      intro a _
      by_cases ha : a.id = action_id
      · rw [if_pos ha, if_pos ha]
        unfold verified_action
        split <;> rfl
      · rw [if_neg ha, if_neg ha]
    rw [hs, hid, hmap]

/-- C23 at the worked example: verifier 1 verifies the single-use action for
maker 2. -/
theorem verifyaction_payout_witness :
    ∃ r, verifyaction demo_utils (demo_env 1) (demo_state demo_single_use) 1 2 1 = some r ∧
    ∃ objact, (demo_state demo_single_use).actions.find? (fun a => decide (a.id = 1))
        = some objact ∧
      r.2 = (if objact.reward.amount > 0
            then [Call.issue 2 objact.reward memo_action] else []) ∧
      ((2 : Name) ≠ 1 → ∀ quantity memo, Call.issue 1 quantity memo ∉ r.2) ∧
      r.1 = { demo_state demo_single_use with
              actions := (demo_state demo_single_use).actions.map (fun a =>
                if a.id = 1
                then { a with usages_left := dec64 a.usages_left,
                              is_completed :=
                                if dec64 (dec64 a.usages_left) ≤ 0 then 1 else a.is_completed }
                else a) } := by
  obtain ⟨r, hr, -⟩ := exists_of_any
    (verifyaction demo_utils (demo_env 1) (demo_state demo_single_use) 1 2 1) (fun _ => True)
    (by decide)
  exact ⟨r, hr, verifyaction_payout demo_utils (demo_env 1) (demo_state demo_single_use) r.1 1 2
    1 r.2 hr⟩

/-- C25, the claim as stated fails.  In the reachable state of
`demo_two_claims`, validator 1 votes 2 on claim 1: the call commits and
stores a check whose vote value is 2, in a state that is reachable. -/
theorem verifyclaim_stores_vote_two :
    Reachable demo_utils (demo_state demo_two_claims) ∧
    (∃ r, verifyclaim demo_utils (demo_env 1) (demo_state demo_two_claims) 1 1 2 = some r ∧
      r.1 = demo_state demo_vote_two) ∧
    Reachable demo_utils (demo_state demo_vote_two) ∧
    (demo_state demo_vote_two).checks = [new_check 0 1 1 2] ∧
    ∃ c ∈ (demo_state demo_vote_two).checks, c.is_verified ≠ 0 ∧ c.is_verified ≠ 1 :=
  ⟨demo_state_reachable _,
   exists_of_any _ (fun r : State × List Call => r.1 = demo_state demo_vote_two) (by decide),
   demo_state_reachable _, by decide, new_check 0 1 1 2, by decide, by decide, by decide⟩

/-- C25, as amended.  A committed `verifyclaim(claim_id, verifier, vote)`
appends exactly one check to the stored checks, and the vote value of that
check is the `vote` argument as given, whatever its value. -/
theorem vote_stored_as_given (U : Utils) (env : Env) (s s1 : State) (claim_id : Nat)
    (verifier : Name) (vote : Nat) (k : List Call)
    (h : verifyclaim U env s claim_id verifier vote = some (s1, k)) :
    ∃ c : check, s1.checks = s.checks ++ [c] ∧ c.claim_id = claim_id ∧
      c.validator = verifier ∧ c.is_verified = vote := by
  obtain ⟨⟨new_id, hc⟩, -⟩ := verifyclaim_checks _ _ _ _ _ _ _ _ h
  exact ⟨new_check new_id claim_id verifier vote, hc, rfl, rfl, rfl⟩

/-- C25 at the worked example: the vote 2 of validator 1 on claim 1. -/
theorem vote_stored_as_given_witness :
    ∃ r, verifyclaim demo_utils (demo_env 1) (demo_state demo_two_claims) 1 1 2 = some r ∧
    ∃ c : check, r.1.checks = (demo_state demo_two_claims).checks ++ [c] ∧ c.claim_id = 1 ∧
      c.validator = 1 ∧ c.is_verified = 2 := by
  obtain ⟨r, hr, -⟩ := exists_of_any
    (verifyclaim demo_utils (demo_env 1) (demo_state demo_two_claims) 1 1 2) (fun _ => True)
    (by decide)
  exact ⟨r, hr, vote_stored_as_given demo_utils (demo_env 1) (demo_state demo_two_claims) r.1 1 1
    2 r.2 hr⟩

theorem with_deadline_find (s : State) (aid d : Nat) :
    (with_deadline s aid d).actions.find? (fun a => decide (a.id = aid)) =
      (s.actions.find? (fun a => decide (a.id = aid))).map
        (fun a => { a with deadline := d }) := by
  unfold with_deadline
  simp only
  rw [find?_map_id _ _ _ (fun a => by split <;> rfl)]
  cases hf : s.actions.find? (fun a => decide (a.id = aid)) with
  | none => rfl
  | some a =>
    simp only [Option.map_some', Option.some.injEq]
    rw [if_pos (action_find_id _ _ _ hf)]

theorem with_deadline_commit (s : State) (aid d : Nat) (objact : action) (maker : Name)
    (hid : objact.id = aid) :
    verifyaction_commit (with_deadline s aid d) { objact with deadline := d } maker =
      (with_deadline (verifyaction_commit s objact maker).1 aid d,
        (verifyaction_commit s objact maker).2) := by
  have hmap : (s.actions.map (fun a =>
        if a.id = aid then { a with deadline := d } else a)).map
          (fun a => if a.id = objact.id then verified_action a else a) =
      (s.actions.map (fun a => if a.id = objact.id then verified_action a else a)).map
        (fun a => if a.id = aid then { a with deadline := d } else a) := by
    rw [List.map_map, List.map_map]
    apply List.map_congr_left
    intro a _
    simp only [Function.comp, hid]
    by_cases ha : a.id = aid
    · have hv : (verified_action a).id = aid := by
        unfold verified_action
        split <;> exact ha
      rw [if_pos ha, if_pos ha, if_pos ha, if_pos hv]
      unfold verified_action
      split <;> rfl
    · rw [if_neg ha, if_neg ha, if_neg ha]
  unfold verifyaction_commit with_deadline
  simp only
  rw [hmap]

theorem with_deadline_pre (U : Utils) (env : Env) (s : State) (aid d : Nat)
    (maker verifier : Name) (objact : action) :
    verifyaction_pre U env (with_deadline s aid d) aid maker verifier objact ↔
      ∃ a, objact = { a with deadline := d } ∧ verifyaction_pre U env s aid maker verifier a := by
  unfold verifyaction_pre
  rw [with_deadline_find]
  constructor
  · rintro ⟨h1, h2, h3, h4, h5, h6, h7, h8⟩
    cases hf : s.actions.find? (fun a => decide (a.id = aid)) with
    | none =>
      rw [hf] at h4
      cases h4
    | some a =>
      rw [hf] at h4
      simp only [Option.map_some', Option.some.injEq] at h4
      subst h4
      exact ⟨a, rfl, h1, h2, h3, rfl, h5, h6, h7, h8⟩
  · rintro ⟨a, rfl, h1, h2, h3, h4, h5, h6, h7, h8⟩
    rw [h4]
    exact ⟨h1, h2, h3, rfl, h5, h6, h7, h8⟩

/-- C27.  The outcome of `verifyaction` is the same for every value of
`now()` and every stored deadline of the action: with the time replaced and
the deadline of the action rewritten, the call aborts exactly when it aborts
otherwise, and when it commits it sends the same calls and leaves the same
tables, the rewritten deadline apart.  `claimaction` and `verifyclaim` abort
when the action they read has `0 < deadline <= now`. -/
theorem verifyaction_ignores_deadline (U : Utils) (env : Env) (s : State) (action_id : Nat)
    (maker verifier : Name) :
    (∀ now deadline : Nat,
      verifyaction U { env with now := now } (with_deadline s action_id deadline) action_id
          maker verifier =
        (verifyaction U env s action_id maker verifier).map
          (fun r => (with_deadline r.1 action_id deadline, r.2))) ∧
    (∀ objact, s.actions.find? (fun a => decide (a.id = action_id)) = some objact →
      0 < objact.deadline → objact.deadline ≤ env.now →
      claimaction U env s action_id maker = none) ∧
    (∀ (claim_id vote : Nat) (claim : claim) (objact : action),
      s.claims.find? (fun c => decide (c.id = claim_id)) = some claim →
      s.actions.find? (fun a => decide (a.id = claim.action_id)) = some objact →
      0 < objact.deadline → objact.deadline ≤ env.now →
      verifyclaim U env s claim_id verifier vote = none) := by
  refine ⟨?_, ?_, ?_⟩
  · intro now deadline
    have hnow : verifyaction U { env with now := now } (with_deadline s action_id deadline)
        action_id maker verifier =
          verifyaction U env (with_deadline s action_id deadline) action_id maker verifier := rfl
    rw [hnow]
    apply Option.ext
    intro r
    simp only [Option.mem_def, Option.map_eq_some']
    rw [verifyaction_eq_some_iff]
    constructor
    · rintro ⟨objact, hpre, hr⟩
      obtain ⟨a, rfl, ha⟩ := (with_deadline_pre _ _ _ _ _ _ _ _).mp hpre
      refine ⟨verifyaction_commit s a maker,
        (verifyaction_eq_some_iff _ _ _ _ _ _ _).mpr ⟨a, ha, rfl⟩, ?_⟩
      rw [hr, with_deadline_commit _ _ _ _ _ (action_find_id _ _ _ ha.2.2.2.1)]
    · rintro ⟨r0, hr0, hr⟩
      obtain ⟨a, ha, rfl⟩ := (verifyaction_eq_some_iff _ _ _ _ _ _ _).mp hr0
      refine ⟨{ a with deadline := deadline },
        (with_deadline_pre _ _ _ _ _ _ _ _).mpr ⟨a, rfl, ha⟩, ?_⟩
      rw [← hr, with_deadline_commit _ _ _ _ _ (action_find_id _ _ _ ha.2.2.2.1)]
  · intro objact hact hpos hle
    cases hres : claimaction U env s action_id maker with
    | none => rfl
    | some r =>
      exfalso
      obtain ⟨-, -, objact1, hact1, -, hd, -⟩ := claimaction_checks _ _ _ _ _ _ _ hres
      rw [hact] at hact1
      cases hact1
      have := hd hpos
      omega
  · intro claim_id vote claim objact hclaim hact hpos hle
    cases hres : verifyclaim U env s claim_id verifier vote with
    | none => rfl
    | some r =>
      exfalso
      obtain ⟨claim1, objact1, new_id, hpre, -⟩ := (verifyclaim_eq_some_iff _ _ _ _ _ _ _).mp hres
      have h1 := hpre.1
      rw [hclaim] at h1
      cases h1
      have h2 := hpre.2.2.1
      rw [hact] at h2
      cases h2
      have := hpre.2.2.2.2.2.2.1 hpos
      omega

/-- C27 at the worked example: at time 30, after the deadline 20 of both
actions, `verifyaction` on the automatic action 1 commits and issues the
reward of 5 to maker 2, as it does with the deadline rewritten to 0 at time
10, while `claimaction` on the claimable action 2 and `verifyclaim` on its
claim 1 abort. -/
theorem verifyaction_ignores_deadline_witness :
    Reachable demo_utils (demo_state demo_deadline) ∧
    (demo_state demo_deadline).actions.map (fun a => (a.id, a.deadline)) = [(1, 20), (2, 20)] ∧
    (∃ r, verifyaction demo_utils (demo_env_late 1) (demo_state demo_deadline) 1 2 1 = some r ∧
      r.2 = [Call.issue 2 ⟨5, 7⟩ memo_action] ∧
      usage_rows r.1 = [(1, 3, 2, 0), (2, 3, 3, 0)]) ∧
    verifyaction demo_utils { demo_env_late 1 with now := 10 }
        (with_deadline (demo_state demo_deadline) 1 0) 1 2 1 =
      (verifyaction demo_utils (demo_env_late 1) (demo_state demo_deadline) 1 2 1).map
        (fun r => (with_deadline r.1 1 0, r.2)) ∧
    claimaction demo_utils (demo_env_late 4) (demo_state demo_deadline) 2 4 = none ∧
    verifyclaim demo_utils (demo_env_late 1) (demo_state demo_deadline) 1 1 1 = none :=
  ⟨demo_state_reachable _, by decide,
   exists_of_any _
     (fun r : State × List Call => r.2 = [Call.issue 2 ⟨5, 7⟩ memo_action] ∧
       usage_rows r.1 = [(1, 3, 2, 0), (2, 3, 3, 0)]) (by decide),
   (verifyaction_ignores_deadline demo_utils (demo_env_late 1) (demo_state demo_deadline) 1 2
     1).1 10 0,
   (verifyaction_ignores_deadline demo_utils (demo_env_late 4) (demo_state demo_deadline) 2 4
     1).2.1 _ (by decide : (demo_state demo_deadline).actions.find? (fun a => decide (a.id = 2)) =
       some (created_action 2 1 "b" ⟨5, 7⟩ ⟨0, 7⟩ 20 3 2 "claimable" 1)) (by decide) (by decide),
   (verifyaction_ignores_deadline demo_utils (demo_env_late 1) (demo_state demo_deadline) 1 1
     1).2.2 1 1 ⟨1, 2, 4, 0⟩ (created_action 2 1 "b" ⟨5, 7⟩ ⟨0, 7⟩ 20 3 2 "claimable" 1)
     (by decide) (by decide) (by decide) (by decide)⟩

theorem creator_of_roots (s : State) (sym : Symbol) :
    creator_of s sym = ((roots s).find? (fun r => decide (r.1 = sym))).map (fun r => r.2) := by
  unfold creator_of roots
  rw [List.find?_map]
  have hfun : ((fun r : Symbol × Name => decide (r.1 = sym)) ∘
      fun c : community => (c.symbol, c.creator)) = fun c => decide (c.symbol = sym) := rfl
  rw [hfun]
  cases s.communities.find? (fun c => decide (c.symbol = sym)) <;> rfl

theorem creator_of_congr (s s1 : State) (h : roots s1 = roots s) (sym : Symbol) :
    creator_of s1 sym = creator_of s sym := by
  rw [creator_of_roots, creator_of_roots, h]

theorem creator_of_mem (s : State) (sym : Symbol) (cr : Name) (h : creator_of s sym = some cr) :
    (sym, cr) ∈ roots s := by
  rw [creator_of_roots] at h
  cases hf : (roots s).find? (fun r => decide (r.1 = sym)) with
  | none =>
    rw [hf] at h
    cases h
  | some r =>
    rw [hf] at h
    simp only [Option.map_some', Option.some.injEq] at h
    have h1 : r.1 = sym := by simpa using List.find?_some hf
    have h2 := List.mem_of_find?_eq_some hf
    rw [← h1, ← h]
    exact h2

theorem creator_of_append (s s1 : State) (sym : Symbol) (cr : Name)
    (h : roots s1 = roots s ++ [(sym, cr)]) (hnew : creator_of s sym = none) (x : Symbol) :
    creator_of s1 x = if x = sym then some cr else creator_of s x := by
  rw [creator_of_roots] at hnew
  rw [creator_of_roots, creator_of_roots, h, List.find?_append]
  by_cases hx : x = sym
  · subst hx
    rw [if_pos rfl]
    cases hf : (roots s).find? (fun r => decide (r.1 = x)) with
    | none => simp
    | some r =>
      rw [hf] at hnew
      cases hnew
  · rw [if_neg hx]
    cases hf : (roots s).find? (fun r => decide (r.1 = x)) with
    | none =>
      have : ¬ sym = x := fun h => hx h.symm
      simp [this]
    | some r => simp

theorem create_membership (U : Utils) (env : Env) (s s1 : State) (a : Asset) (c : Name)
    (l n d : String) (r1 r2 : Asset) (k : List Call)
    (h : create U env s a c l n d r1 r2 = some (s1, k)) :
    roots s1 = roots s ++ [(a.symbol, c)] ∧ creator_of s a.symbol = none ∧
    ((s1.networks = s.networks ∧
        ∃ m, s.networks.find? (fun m => decide (m.id = U.gen_uuid a.symbol c)) = some m) ∨
      (s1.networks = s.networks ++ [new_edge U a.symbol c c] ∧
        s.networks.find? (fun m => decide (m.id = U.gen_uuid a.symbol c)) = none)) := by
  unfold create at h
  simp only [Option.ite_none_left_eq_some] at h
  repeat (rcases h with ⟨-, h⟩)
  split at h
  · cases h
  rename_i hfind
  split at h
  · cases h
  rename_i hn
  cases h
  have hcr : creator_of s a.symbol = none := by
    unfold creator_of
    rw [hfind]
    rfl
  obtain ⟨cmm, -, h1 | h1⟩ := netlink_eq_some _ _ _ _ _ _ _ _ hn
  · obtain ⟨hex, hs, -⟩ := h1
    rw [hs]
    refine ⟨?_, hcr, Or.inl ⟨rfl, hex⟩⟩
    simp [roots]
  · obtain ⟨hno, -, hs, -⟩ := h1
    rw [hs]
    refine ⟨?_, hcr, Or.inr ⟨rfl, hno⟩⟩
    simp [roots]

theorem update_membership (env : Env) (s s1 : State) (a : Asset)
    (l n d : String) (r1 r2 : Asset) (k : List Call)
    (h : update env s a l n d r1 r2 = some (s1, k)) :
    s1.networks = s.networks ∧ roots s1 = roots s := by
  refine ⟨(update_frame _ _ _ _ _ _ _ _ _ _ h).2.1, ?_⟩
  unfold update at h
  split at h
  · cases h
  simp only [Option.ite_none_left_eq_some] at h
  obtain ⟨-, -, -, -, h⟩ := h
  cases h
  simp only [roots, List.map_map]
  apply List.map_congr_left
  intro row _
  simp only [Function.comp]
  split <;> rfl

theorem apply_membership (U : Utils) (env : Env) (s s1 : State) (op : Op) (k : List Call)
    (h : apply U env s op = some (s1, k)) :
    (s1.networks = s.networks ∧ roots s1 = roots s) ∨
    (∃ sym i u cr, roots s1 = roots s ∧ s1.networks = s.networks ++ [new_edge U sym i u] ∧
      creator_of s sym = some cr ∧
      s.networks.find? (fun m => decide (m.id = U.gen_uuid sym u)) = none ∧
      (cr = i ∨ ∃ m, s.networks.find? (fun m => decide (m.id = U.gen_uuid sym i)) = some m)) ∨
    (∃ sym cr, roots s1 = roots s ++ [(sym, cr)] ∧ creator_of s sym = none ∧
      ((s1.networks = s.networks ∧
          ∃ m, s.networks.find? (fun m => decide (m.id = U.gen_uuid sym cr)) = some m) ∨
        (s1.networks = s.networks ++ [new_edge U sym cr cr] ∧
          s.networks.find? (fun m => decide (m.id = U.gen_uuid sym cr)) = none))) := by
  have hsame : s1.networks = s.networks → s1.communities = s.communities →
      (s1.networks = s.networks ∧ roots s1 = roots s) := by
    intro h1 h2
    exact ⟨h1, by simp only [roots, h2]⟩
  cases op with
  | create a c l n d r1 r2 =>
    exact Or.inr (Or.inr ⟨a.symbol, c, create_membership _ _ _ _ _ _ _ _ _ _ _ _ h⟩)
  | update a l n d r1 r2 => exact Or.inl (update_membership _ _ _ _ _ _ _ _ _ _ h)
  | netlink a i u =>
    obtain ⟨cmm, hcmm, h1 | h1⟩ := netlink_eq_some _ _ _ _ _ _ _ _ h
    · left
      rw [h1.2.1]
      exact ⟨rfl, rfl⟩
    · right
      left
      obtain ⟨hno, hinv, hs, -⟩ := h1
      have hsym : cmm.symbol = a.symbol := by simpa using List.find?_some hcmm
      rw [hsym] at hinv
      refine ⟨a.symbol, i, u, cmm.creator, ?_, ?_, ?_, hno, hinv⟩
      · rw [hs]
        rfl
      · rw [hs]
      · unfold creator_of
        rw [hcmm]
        rfl
  | newobjective a d c =>
    obtain ⟨-, h1, h2, -⟩ := newobjective_frame _ _ _ _ _ _ _ _ h
    exact Or.inl (hsame h1 h2)
  | updobjective o d e =>
    obtain ⟨-, h1, h2, -⟩ := updobjective_frame _ _ _ _ _ _ _ _ h
    exact Or.inl (hsame h1 h2)
  | upsertaction aid o d r vr dl us ul v vt vs ic c =>
    obtain ⟨h1, h2, -⟩ := upsertaction_frame _ _ _ _ _ _ _ _ _ _ _ _ _ _ _ _ _ _ h
    exact Or.inl (hsame h1 h2)
  | verifyaction aid m v =>
    obtain ⟨objact, -, hr⟩ := (verifyaction_eq_some_iff _ _ _ _ _ _ _).mp h
    cases hr
    exact Or.inl ⟨rfl, rfl⟩
  | claimaction aid m =>
    obtain ⟨-, hs, -⟩ := claimaction_eq_some _ _ _ _ _ _ _ h
    rw [hs]
    exact Or.inl ⟨rfl, rfl⟩
  | verifyclaim c v vote =>
    obtain ⟨claim, objact, new_id, -, hr⟩ := (verifyclaim_eq_some_iff _ _ _ _ _ _ _).mp h
    by_cases hv : verifies s c objact new_id v vote
    · simp only [verifyclaim_commit, if_pos hv] at hr
      cases hr
      exact Or.inl ⟨rfl, rfl⟩
    · simp only [verifyclaim_commit, if_neg hv] at hr
      cases hr
      exact Or.inl ⟨rfl, rfl⟩
  | createsale f t d q i ts u =>
    obtain ⟨-, h1, h2, -⟩ := createsale_frame _ _ _ _ _ _ _ _ _ _ _ _ h
    exact Or.inl (hsame h1 h2)
  | updatesale sid t d q i ts u =>
    obtain ⟨-, h1, h2, -⟩ := updatesale_frame _ _ _ _ _ _ _ _ _ _ _ _ h
    exact Or.inl (hsame h1 h2)
  | deletesale sid =>
    obtain ⟨-, h1, h2, -⟩ := deletesale_frame _ _ _ _ _ h
    exact Or.inl (hsame h1 h2)
  | reactsale sid f t =>
    rw [reactsale_frame _ _ _ _ _ _ _ _ h]
    exact Or.inl ⟨rfl, rfl⟩
  | transfersale sid f t q u =>
    obtain ⟨-, h1, h2, -⟩ := transfersale_frame _ _ _ _ _ _ _ _ _ _ h
    exact Or.inl (hsame h1 h2)
  | setindices a b c d =>
    obtain ⟨-, h1, h2, -⟩ := setindices_frame _ _ _ _ _ _ _ _ _ h
    exact Or.inl (hsame h1 h2)
  | deleteact i =>
    obtain ⟨-, h1, h2, -⟩ := deleteact_frame _ _ _ _ _ _ h
    exact Or.inl (hsame h1 h2)

theorem split_snoc {α : Type} (pre post l : List α) (e x : α)
    (h : l ++ [x] = pre ++ e :: post) :
    (post = [] ∧ pre = l ∧ e = x) ∨ ∃ post1, post = post1 ++ [x] ∧ l = pre ++ e :: post1 := by
  rcases List.eq_nil_or_concat post with rfl | ⟨L, b, hLb⟩
  · left
    obtain ⟨h1, h2⟩ := List.append_inj' h rfl
    simp only [List.cons.injEq, and_true] at h2
    exact ⟨rfl, h1.symm, h2.symm⟩
  · right
    rw [List.concat_eq_append] at hLb
    subst hLb
    have h3 : l ++ [x] = (pre ++ e :: L) ++ [b] := by
      rw [h]
      simp
    obtain ⟨h1, h2⟩ := List.append_inj' h3 rfl
    simp only [List.cons.injEq, and_true] at h2
    subst h2
    exact ⟨L, rfl, h1⟩

theorem forest_invariant (U : Utils) (s : State) (h : Reachable U s) :
    (∀ e ∈ s.networks, ∃ cr, creator_of s e.community = some cr) ∧
    (∀ r ∈ roots s, ∃ m ∈ s.networks, m.id = U.gen_uuid r.1 r.2) ∧
    (∀ pre e post, s.networks = pre ++ e :: post →
      ∀ cr, creator_of s e.community = some cr → e.invited_user ≠ cr →
        e.invited_by ≠ e.invited_user ∧
          ∃ m ∈ pre, m.id = U.gen_uuid e.community e.invited_by) := by
  induction h with
  | init =>
    refine ⟨fun e he => ?_, fun r hr => ?_, fun pre e post hs => ?_⟩
    · cases he
    · cases hr
    · have hnil : ([] : List network) = pre ++ e :: post := hs
      simp at hnil
  | step env op s s1 k _ happ ih =>
    obtain ⟨I2, I3, I4⟩ := ih
    rcases apply_membership U env s s1 op k happ with
      ⟨hn, hr⟩ | ⟨sym, i, u, cr, hr, hn, hcr, hno, hinv⟩ | ⟨sym, cr, hr, hnew, hnet⟩
    · have hcc := creator_of_congr s s1 hr
      refine ⟨fun e he => ?_, fun r hr1 => ?_, fun pre e post hs cr1 hcr1 hne => ?_⟩
      · rw [hn] at he
        rw [hcc]
        exact I2 e he
      · rw [hr] at hr1
        rw [hn]
        exact I3 r hr1
      · rw [hn] at hs
        rw [hcc] at hcr1
        exact I4 pre e post hs cr1 hcr1 hne
    · have hcc := creator_of_congr s s1 hr
      refine ⟨fun e he => ?_, fun r hr1 => ?_, fun pre e post hs cr1 hcr1 hne => ?_⟩
      · rw [hn] at he
        rw [hcc]
        rcases List.mem_append.mp he with he | he
        · exact I2 e he
        · rw [List.mem_singleton] at he
          subst he
          exact ⟨cr, hcr⟩
      · rw [hr] at hr1
        obtain ⟨m, hm, hid⟩ := I3 r hr1
        exact ⟨m, by rw [hn]; exact List.mem_append_left _ hm, hid⟩
      · rw [hn] at hs
        rw [hcc] at hcr1
        rcases split_snoc _ _ _ _ _ hs with ⟨-, hpre, he⟩ | ⟨post1, -, hl⟩
        · subst hpre
          subst he
          have hcr2 : creator_of s sym = some cr1 := hcr1
          rw [hcr] at hcr2
          cases hcr2
          have hne1 : u ≠ cr := hne
          show i ≠ u ∧ ∃ m ∈ s.networks, m.id = U.gen_uuid sym i
          rcases hinv with hi | ⟨m, hm⟩
          · subst hi
            obtain ⟨m, hm, hid⟩ := I3 _ (creator_of_mem _ _ _ hcr)
            exact ⟨fun heq => hne1 heq.symm, m, hm, hid⟩
          · refine ⟨fun heq => ?_, m, List.mem_of_find?_eq_some hm, by
              simpa using List.find?_some hm⟩
            subst heq
            rw [hm] at hno
            cases hno
        · exact I4 pre e post1 hl cr1 hcr1 hne
    · have hca := creator_of_append s s1 sym cr hr hnew
      have hold : ∀ e ∈ s.networks, creator_of s1 e.community = creator_of s e.community := by
        intro e he
        rw [hca]
        obtain ⟨cr0, h0⟩ := I2 e he
        by_cases hx : e.community = sym
        · rw [hx, hnew] at h0
          cases h0
        · rw [if_neg hx]
      rcases hnet with ⟨hn, m0, hm0⟩ | ⟨hn, hno⟩
      · refine ⟨fun e he => ?_, fun r hr1 => ?_, fun pre e post hs cr1 hcr1 hne => ?_⟩
        · rw [hn] at he
          rw [hold e he]
          exact I2 e he
        · rw [hr] at hr1
          rw [hn]
          rcases List.mem_append.mp hr1 with hr1 | hr1
          · exact I3 r hr1
          · rw [List.mem_singleton] at hr1
            subst hr1
            exact ⟨m0, List.mem_of_find?_eq_some hm0, by simpa using List.find?_some hm0⟩
        · rw [hn] at hs
          have he : e ∈ s.networks := by
            rw [hs]
            simp
          rw [hold e he] at hcr1
          exact I4 pre e post hs cr1 hcr1 hne
      · refine ⟨fun e he => ?_, fun r hr1 => ?_, fun pre e post hs cr1 hcr1 hne => ?_⟩
        · rw [hn] at he
          rcases List.mem_append.mp he with he | he
          · rw [hold e he]
            exact I2 e he
          · rw [List.mem_singleton] at he
            subst he
            refine ⟨cr, ?_⟩
            rw [hca]
            exact if_pos rfl
        · rw [hr] at hr1
          rw [hn]
          rcases List.mem_append.mp hr1 with hr1 | hr1
          · obtain ⟨m, hm, hid⟩ := I3 r hr1
            exact ⟨m, List.mem_append_left _ hm, hid⟩
          · rw [List.mem_singleton] at hr1
            subst hr1
            exact ⟨new_edge U sym cr cr, List.mem_append_right _ (List.mem_singleton.mpr rfl),
              rfl⟩
        · rw [hn] at hs
          rcases split_snoc _ _ _ _ _ hs with ⟨-, hpre, he⟩ | ⟨post1, -, hl⟩
          · subst hpre
            subst he
            exfalso
            have hcr2 : creator_of s1 sym = some cr1 := hcr1
            rw [hca, if_pos rfl] at hcr2
            cases hcr2
            exact hne rfl
          · have he : e ∈ s.networks := by
              rw [hl]
              simp
            rw [hold e he] at hcr1
            exact I4 pre e post1 hl cr1 hcr1 hne

/-- C21.  In every reachable state (through `create`, `netlink` and every
other action) each membership edge belongs to a stored community, and an edge
whose `invited_user` is not that community's creator has an `invited_by` that
is a different account and is a member of the community by an edge inserted
earlier: a row before it in the table has the key of `(community,
invited_by)`, which is how the contract tests membership, and when `gen_uuid`
is injective that row is the edge of `invited_by` in the community.  An edge
with `invited_by` equal to its `invited_user` is the creator's.  No call
deletes or modifies an edge: the edge table after a committed call is the
table before, with rows appended. -/
theorem membership_forest (U : Utils) (s : State) (h : Reachable U s) :
    (∀ e ∈ s.networks, ∃ cr, creator_of s e.community = some cr) ∧
    (∀ pre e post, s.networks = pre ++ e :: post →
      ∀ cr, creator_of s e.community = some cr → e.invited_user ≠ cr →
        e.invited_by ≠ e.invited_user ∧
        (∃ m ∈ pre, m.id = U.gen_uuid e.community e.invited_by) ∧
        ((∀ a b c d, U.gen_uuid a b = U.gen_uuid c d → a = c ∧ b = d) →
          ∃ m ∈ pre, m.community = e.community ∧ m.invited_user = e.invited_by)) ∧
    (∀ e ∈ s.networks, e.invited_by = e.invited_user →
      creator_of s e.community = some e.invited_user) ∧
    (∀ (env : Env) (op : Op) (s1 : State) (k : List Call),
      apply U env s op = some (s1, k) → ∃ l, s1.networks = s.networks ++ l) := by
  obtain ⟨I2, -, I4⟩ := forest_invariant U s h
  obtain ⟨hkey, -⟩ := edges_invariant U s h
  refine ⟨I2, ?_, ?_, ?_⟩
  · intro pre e post hs cr hcr hne
    obtain ⟨h1, m, hm, hid⟩ := I4 pre e post hs cr hcr hne
    refine ⟨h1, ⟨m, hm, hid⟩, fun hinj => ⟨m, hm, ?_⟩⟩
    have hmem : m ∈ s.networks := by
      rw [hs]
      exact List.mem_append_left _ hm
    rw [hkey m hmem] at hid
    exact hinj _ _ _ _ hid
  · intro e he hself
    obtain ⟨cr, hcr⟩ := I2 e he
    by_cases hu : e.invited_user = cr
    · rw [hcr, hu]
    · obtain ⟨pre, post, hs⟩ := List.append_of_mem he
      exact absurd hself (I4 pre e post hs cr hcr hu).1
  · intro env op s1 k happ
    rcases apply_networks U env s s1 op k happ with h1 | ⟨sym, i, u, h1, -⟩
    · exact ⟨[], by rw [h1, List.append_nil]⟩
    · exact ⟨_, h1⟩

/-- C21 at the worked example, with the pairing function as `gen_uuid`:
account 3 was invited by account 2, a different account whose own edge comes
earlier in the table. -/
theorem membership_forest_witness :
    Reachable demo_utils_pair (run demo_utils_pair State.empty demo_chain).1 ∧
    (run demo_utils_pair State.empty demo_chain).1.networks =
      [new_edge demo_utils_pair 7 1 1, new_edge demo_utils_pair 7 1 2] ++
        new_edge demo_utils_pair 7 2 3 :: [] ∧
    ((2 : Name) ≠ 3 ∧
      (∃ m ∈ [new_edge demo_utils_pair 7 1 1, new_edge demo_utils_pair 7 1 2],
        m.id = demo_utils_pair.gen_uuid 7 2) ∧
      ((∀ a b c d, demo_utils_pair.gen_uuid a b = demo_utils_pair.gen_uuid c d → a = c ∧ b = d) →
        ∃ m ∈ [new_edge demo_utils_pair 7 1 1, new_edge demo_utils_pair 7 1 2],
          m.community = 7 ∧ m.invited_user = 2)) ∧
    (∃ m ∈ [new_edge demo_utils_pair 7 1 1, new_edge demo_utils_pair 7 1 2],
      m.community = 7 ∧ m.invited_user = 2) :=
  ⟨run_reachable _ _ _ Reachable.init, by decide,
   (membership_forest demo_utils_pair (run demo_utils_pair State.empty demo_chain).1
     (run_reachable _ _ _ Reachable.init)).2.1
     [new_edge demo_utils_pair 7 1 1, new_edge demo_utils_pair 7 1 2]
     (new_edge demo_utils_pair 7 2 3) [] (by decide) 1 (by decide) (by decide),
   ((membership_forest demo_utils_pair (run demo_utils_pair State.empty demo_chain).1
     (run_reachable _ _ _ Reachable.init)).2.1
     [new_edge demo_utils_pair 7 1 1, new_edge demo_utils_pair 7 1 2]
     (new_edge demo_utils_pair 7 2 3) [] (by decide) 1 (by decide) (by decide)).2.2
     (fun a b c d hab => Nat.pair_eq_pair.mp hab)⟩

end bespiral
